import Mathlib

/-!
Watchtower duties of the smartnode: dissolve timed out minipools, respond to challenges.

Shallow embedding of
* `rocketpool/watchtower/dissolve-timed-out-minipools.go`
* `rocketpool/watchtower/respond-challenges.go`

Every call that leaves the process (chain reads, wallet, gas estimation, approval
gate, transaction submission, confirmation wait) is a field of `Env`: a step on an
abstract world state `σ` returning the call's result and the next world state, so
that two calls with the same arguments may answer differently.  Every function of
the embedding returns an `Out`: its Go return value, the world state it leaves and
the list of external calls and log lines it made, in order.

Go values are modelled as follows: `error` is `Option Err` (`none` is `nil`),
`(T, error)` is `Except Err T`, `*big.Int` is `Option Int` (`none` is `nil`),
`uint64` is a `Nat` below `2^64`, `time.Duration` is an `Int` of nanoseconds in the
`int64` range, and `time.Time` is the pair (seconds since year 1, nanoseconds).
-/

namespace Watchtower

/-! ## Values -/

/-- Go `error` values: a plain message, or `fmt.Errorf("msg: %w", cause)`. -/
inductive Err where
  | msg (text : String)
  | wrapped (text : String) (cause : Err)
  deriving DecidableEq, Repr

/-- A `common.Address`. -/
abbrev Address := Nat

/-- A transaction hash. -/
abbrev Hash := Nat

/-- Two's complement reading of an integer as an `int64`. -/
def wrapInt64 (x : Int) : Int := (x + 2 ^ 63) % 2 ^ 64 - 2 ^ 63

/-- The method `(*big.Int).Uint64` as package `math/big` computes it (`low64(x.abs)`): the low
64 bits of the absolute value, which is the value itself when it fits a `uint64`. -/
def bigUint64 (x : Int) : Nat := x.natAbs % 2 ^ 64

/-- Smallest `time.Duration` (nanoseconds). -/
def minDuration : Int := -(2 ^ 63)

/-- Largest `time.Duration` (nanoseconds). -/
def maxDuration : Int := 2 ^ 63 - 1

/-- Seconds between January 1 of year 1 and the Unix epoch (`unixToInternal` of package `time`). -/
def unixToInternal : Int := 62135596800

/-- A `time.Time` without monotonic clock reading: `ext` is the number of seconds since
January 1 of year 1 (an `int64`), `nsec` the nanoseconds within the second. -/
structure Time where
  ext : Int
  nsec : Int
  deriving DecidableEq, Repr

/-- The zero `time.Time`. -/
def Time.zero : Time := ⟨0, 0⟩

/-- The call `time.Unix(sec, 0)`: the `int64` sum `sec + unixToInternal`. -/
def timeUnix (sec : Int) : Time := ⟨wrapInt64 (sec + unixToInternal), 0⟩

/-- Exact number of nanoseconds from the Unix epoch to `t`. -/
def Time.sinceEpoch (t : Time) : Int := (t.ext - unixToInternal) * 10 ^ 9 + t.nsec

/-- The method `t.Sub(u)`: the duration `t - u`, replaced by the largest (smallest)
duration when it is above (below) what a `time.Duration` holds. -/
def Time.sub (t u : Time) : Int :=
  let d := (t.ext - u.ext) * 10 ^ 9 + (t.nsec - u.nsec)
  if d < minDuration then minDuration else if maxDuration < d then maxDuration else d

/-- The type `rptypes.MinipoolStatus`. -/
inductive MinipoolStatus where
  | Initialized
  | Prelaunch
  | Staking
  | Withdrawable
  | Dissolved
  deriving DecidableEq, Repr

/-- The type `minipool.StatusDetails`. -/
structure StatusDetails where
  status : MinipoolStatus
  statusBlock : Nat
  statusTime : Time
  deriving DecidableEq, Repr

/-- The zero `minipool.StatusDetails`, the entries of `make([]minipool.StatusDetails, n)`. -/
def StatusDetails.zero : StatusDetails := ⟨MinipoolStatus.Initialized, 0, Time.zero⟩

/-- A `*minipool.Minipool`: the contract binding of one minipool address. -/
structure Minipool where
  address : Address
  deriving DecidableEq, Repr

/-- The part of a `*types.Header` the task reads: `Time`, a `uint64` of seconds. -/
structure Header where
  time : Nat
  deriving DecidableEq, Repr

/-- The type `rocketpool.GasInfo`. -/
structure GasInfo where
  estGasLimit : Nat
  safeGasLimit : Nat
  deriving DecidableEq, Repr

/-- The fields of a `*bind.TransactOpts` the tasks set. -/
structure TransactOpts where
  fromAddr : Address
  gasFeeCap : Option Int
  gasTipCap : Option Int
  gasLimit : Nat
  deriving DecidableEq, Repr

/-- The gas settings held by both task structs (`dissolveTimedOutMinipools`, `respondChallenges`). -/
structure Task where
  maxFee : Option Int
  maxPriorityFee : Option Int
  gasLimit : Nat
  deriving DecidableEq, Repr

/-! ## Trace of a cycle -/

/-- The lines the tasks write to their logger. -/
inductive LogLine where
  | priorityFeeDefaulted
  | checkingTimedOut
  | timedOutCount (n : Nat)
  | dissolving (addr : Address)
  | couldNotDissolve (addr : Address) (err : Err)
  | dissolved (addr : Address)
  | checkingChallenges
  | activeChallenge (addr : Address)
  | respondedToChallenge (addr : Address)
  deriving DecidableEq, Repr

/-- The reads that are issued from goroutines of an `errgroup.Group`. -/
inductive Read where
  | getMinipoolAddresses
  | getMinipoolLaunchTimeout
  | headerByNumber
  | getStatusDetails (mi : Nat)
  deriving DecidableEq, Repr

/-- One external call or log line of a cycle. An `errgroup` entry is one fan-out joined
by `Wait`: the reads in the order their goroutines were spawned, and the reads in the
order they ran, each with `true` when it failed. -/
inductive Event where
  | waitEthClientSynced
  | getNodeAccount
  | getMemberExists (addr : Address)
  | log (line : LogLine)
  | errgroup (spawned : List Read) (ran : List (Read × Bool))
  | newMinipool (addr : Address)
  | getMemberIsChallenged (addr : Address)
  | getNodeAccountTransactor
  | estimateDissolveGas (mp : Minipool)
  | estimateDecideChallengeGas (addr : Address)
  | getHeadlessMaxFeeWei
  | printAndCheckGasInfo (gasInfo : GasInfo) (maxFee : Int) (gasLimit : Nat)
  | dissolve (mp : Minipool) (opts : TransactOpts)
  | decideChallenge (addr : Address) (opts : TransactOpts)
  | printAndWaitForTransaction (hash : Hash)
  deriving DecidableEq, Repr

/-- Result of a function of the embedding: return value, world state left, calls made. -/
structure Out (σ α : Type) where
  res : α
  world : σ
  trace : List Event

/-- The same outcome, reached after the events `evs`. -/
def Out.after {σ α : Type} (evs : List Event) (o : Out σ α) : Out σ α :=
  ⟨o.res, o.world, evs ++ o.trace⟩

/-! ## External collaborators -/

/-- The calls the tasks make outside the process, each a step on the world state `σ`.
`schedule` gives, at the moment an `errgroup` is joined, the choices that fix the order
in which its goroutines ran. -/
structure Env (σ : Type) where
  waitEthClientSynced : σ → Option Err × σ
  getNodeAccount : σ → Except Err Address × σ
  getMemberExists : Address → σ → Except Err Bool × σ
  getMinipoolAddresses : σ → Except Err (List Address) × σ
  getMinipoolLaunchTimeout : σ → Except Err Int × σ
  headerByNumber : σ → Except Err Header × σ
  newMinipool : Address → σ → Option Err × σ
  getStatusDetails : Minipool → σ → Except Err StatusDetails × σ
  getMemberIsChallenged : Address → σ → Except Err Bool × σ
  getNodeAccountTransactor : σ → Except Err TransactOpts × σ
  estimateDissolveGas : Minipool → TransactOpts → σ → Except Err GasInfo × σ
  estimateDecideChallengeGas : Address → TransactOpts → σ → Except Err GasInfo × σ
  getHeadlessMaxFeeWei : σ → Except Err Int × σ
  printAndCheckGasInfo : GasInfo → Int → Nat → σ → Bool × σ
  dissolve : Minipool → TransactOpts → σ → Except Err Hash × σ
  decideChallenge : Address → TransactOpts → σ → Except Err Hash × σ
  printAndWaitForTransaction : Hash → σ → Option Err × σ
  schedule : σ → List Nat

/-- What `cfg.GetMaxFee`, `cfg.GetMaxPriorityFee` and `cfg.GetGasLimit` return. -/
structure Config where
  getMaxFee : Except Err (Option Int)
  getMaxPriorityFee : Except Err (Option Int)
  getGasLimit : Except Err Nat

/-- What the `services.Get...` calls of the constructors return. -/
structure Services where
  getConfig : Except Err Config
  getWallet : Option Err
  getEthClient : Option Err
  getRocketPool : Option Err

/-! ## errgroup -/

/-- One goroutine handed to `errgroup.Group.Go`: the read it issues and its body, which
runs on the variables `φ` it captured and returns its error. -/
structure Goroutine (σ φ : Type) where
  read : Read
  body : φ → σ → (Option Err × φ) × σ

/-- An order in which the pending goroutines run: each choice picks the next one. -/
def pickOrder {α : Type} : List Nat → List α → List α
  | _, [] => []
  | [], x :: xs => x :: xs
  | c :: cs, x :: xs =>
    match (x :: xs)[c % (xs.length + 1)]? with
    | some y => y :: pickOrder cs ((x :: xs).eraseIdx (c % (xs.length + 1)))
    | none => x :: xs

/-- Runs the goroutines to completion in the given order. Returns the first error any of
them returned, the captured variables, the world, and each read with `true` if it failed. -/
def runGoroutines {σ φ : Type} : List (Goroutine σ φ) → φ → σ → Option Err × φ × σ × List (Read × Bool)
  | [], f, w => (none, f, w, [])
  | g :: gs, f, w =>
    let r := g.body f w
    let rest := runGoroutines gs r.1.2 r.2
    ((match r.1.1 with
      | some e => some e
      | none => rest.1), rest.2.1, rest.2.2.1, (g.read, r.1.1.isSome) :: rest.2.2.2)

/-- The goroutines `gs` are spawned with `Go` in list order and joined with `Wait`,
which returns the first error. No goroutine is cancelled when another one fails. -/
def errgroupWait {σ φ : Type} (env : Env σ) (gs : List (Goroutine σ φ)) (f : φ) (w : σ) :
    Out σ (Option Err × φ) :=
  let r := runGoroutines (pickOrder (env.schedule w) gs) f w
  ⟨(r.1, r.2.1), r.2.2.1, [Event.errgroup (gs.map (fun g => g.read)) r.2.2.2]⟩

/-! ## Dissolve timed out minipools -/

/-- The constant `MinipoolStatusBatchSize`. -/
def MinipoolStatusBatchSize : Nat := 20

/-- Create dissolve timed out minipools task (`newDissolveTimedOutMinipools`): the task or
the error, and the lines written to the logger. -/
def newDissolveTimedOutMinipools (sv : Services) : Except Err Task × List LogLine :=
  match sv.getConfig with
  | .error e => (.error e, [])
  | .ok cfg =>
  match sv.getWallet with
  | some e => (.error e, [])
  | none =>
  match sv.getEthClient with
  | some e => (.error e, [])
  | none =>
  match sv.getRocketPool with
  | some e => (.error e, [])
  | none =>
  match cfg.getMaxFee with
  | .error e => (.error (Err.wrapped "Error getting max fee in configuration" e), [])
  | .ok maxFee =>
  match cfg.getMaxPriorityFee with
  | .error e => (.error (Err.wrapped "Error getting max priority fee in configuration" e), [])
  | .ok configured =>
    let defaulted : Bool :=
      match configured with
      | none => true
      | some v => bigUint64 v == 0
    let maxPriorityFee : Option Int := if defaulted then some 2 else configured
    let logs : List LogLine := if defaulted then [LogLine.priorityFeeDefaulted] else []
    match cfg.getGasLimit with
    | .error e => (.error (Err.wrapped "Error getting gas limit in configuration" e), logs)
    | .ok gasLimit => (.ok ⟨maxFee, maxPriorityFee, gasLimit⟩, logs)

/-- The variables captured by the three goroutines of `wg1`. -/
structure ScanVars where
  addresses : List Address
  launchTimeout : Int
  latestEth1Block : Option Header

/-- The goroutines of `wg1`, in the order they are spawned. -/
def scanGoroutines {σ : Type} (env : Env σ) : List (Goroutine σ ScanVars) :=
  [ ⟨Read.getMinipoolAddresses, fun v w =>
      match env.getMinipoolAddresses w with
      | (.ok a, w1) => ((none, { v with addresses := a }), w1)
      | (.error e, w1) => ((some e, v), w1)⟩,
    ⟨Read.getMinipoolLaunchTimeout, fun v w =>
      match env.getMinipoolLaunchTimeout w with
      | (.ok d, w1) => ((none, { v with launchTimeout := d }), w1)
      | (.error e, w1) => ((some e, v), w1)⟩,
    ⟨Read.headerByNumber, fun v w =>
      match env.headerByNumber w with
      | (.ok h, w1) => ((none, { v with latestEth1Block := some h }), w1)
      | (.error e, w1) => ((some e, v), w1)⟩ ]

/-- Create minipool contracts: the loop over `addresses` calling `minipool.NewMinipool`. -/
def createMinipools {σ : Type} (env : Env σ) : List Address → σ → Out σ (Except Err (List Minipool))
  | [], w => ⟨.ok [], w, []⟩
  | address :: rest, w =>
    match env.newMinipool address w with
    | (some e, w1) => ⟨.error e, w1, [Event.newMinipool address]⟩
    | (none, w1) =>
      let o := createMinipools env rest w1
      ⟨(match o.res with
        | .ok mps => .ok (⟨address⟩ :: mps)
        | .error e => .error e), o.world, Event.newMinipool address :: o.trace⟩

/-- The goroutine that loads the status of `minipools[mi]` into `statuses[mi]`. -/
def statusGoroutine {σ : Type} (env : Env σ) (minipools : List Minipool) (mi : Nat) :
    Goroutine σ (List StatusDetails) :=
  ⟨Read.getStatusDetails mi, fun statuses w =>
    match minipools[mi]? with
    | none => ((some (Err.msg "index out of range"), statuses), w)
    | some mp =>
      match env.getStatusDetails mp w with
      | (.ok status, w1) => ((none, statuses.set mi status), w1)
      | (.error e, w1) => ((some e, statuses), w1)⟩

/-- Load minipool statuses in batches: the loop `for bsi := 0; bsi < len(minipools);
bsi += MinipoolStatusBatchSize`, entered at `bsi`. The first argument bounds the number
of iterations. -/
def loadStatuses {σ : Type} (env : Env σ) (minipools : List Minipool) :
    Nat → Nat → List StatusDetails → σ → Out σ (Except Err (List StatusDetails))
  | 0, _, statuses, w => ⟨.ok statuses, w, []⟩
  | fuel + 1, bsi, statuses, w =>
    if bsi < minipools.length then
      let msi := bsi
      let mei := if bsi + MinipoolStatusBatchSize > minipools.length then minipools.length
                 else bsi + MinipoolStatusBatchSize
      let o := errgroupWait env
        ((List.range' msi (mei - msi)).map (statusGoroutine env minipools)) statuses w
      match o.res with
      | (some e, _) => ⟨.error e, o.world, o.trace⟩
      | (none, statuses1) =>
        (loadStatuses env minipools fuel (bsi + MinipoolStatusBatchSize) statuses1 o.world).after o.trace
    else ⟨.ok statuses, w, []⟩

/-- The condition of the filter: `statuses[mi].Status == rptypes.Prelaunch &&
latestBlockTime.Sub(statuses[mi].StatusTime) >= launchTimeout`. -/
def isTimedOut (latestBlockTime : Time) (launchTimeout : Int) (status : StatusDetails) : Bool :=
  status.status == MinipoolStatus.Prelaunch && decide (latestBlockTime.sub status.statusTime ≥ launchTimeout)

/-- Filter minipools by status: `latestBlockTime := time.Unix(int64(latestEth1Block.Time), 0)`
and the loop appending every minipool whose status meets the condition. The two slices have
the same length. -/
def filterByStatus (minipools : List Minipool) (statuses : List StatusDetails)
    (latestEth1Block : Header) (launchTimeout : Int) : List Minipool :=
  let latestBlockTime := timeUnix (wrapInt64 latestEth1Block.time)
  (minipools.zip statuses).foldl
    (fun timedOutMinipools p =>
      if isTimedOut latestBlockTime launchTimeout p.2 then timedOutMinipools ++ [p.1]
      else timedOutMinipools) []

/-- What a scan has read when none of its reads failed. -/
structure Scan where
  addresses : List Address
  launchTimeout : Int
  latestEth1Block : Header
  minipools : List Minipool
  statuses : List StatusDetails

/-- The reads of `getTimedOutMinipools`: the three concurrent reads of `wg1`, the minipool
contracts, and the statuses in batches. -/
def scanMinipools {σ : Type} (env : Env σ) (w : σ) : Out σ (Except Err Scan) :=
  let o1 := errgroupWait env (scanGoroutines env) (⟨[], 0, none⟩ : ScanVars) w
  match o1.res with
  | (some e, _) => ⟨.error e, o1.world, o1.trace⟩
  | (none, v) =>
    let o2 := createMinipools env v.addresses o1.world
    match o2.res with
    | .error e => ⟨.error e, o2.world, o1.trace ++ o2.trace⟩
    | .ok minipools =>
      let o3 := loadStatuses env minipools minipools.length 0
        (List.replicate minipools.length StatusDetails.zero) o2.world
      match o3.res with
      | .error e => ⟨.error e, o3.world, o1.trace ++ o2.trace ++ o3.trace⟩
      | .ok statuses =>
        match v.latestEth1Block with
        | none => ⟨.error (Err.msg "nil pointer dereference"), o3.world, o1.trace ++ o2.trace ++ o3.trace⟩
        | some header =>
          ⟨.ok ⟨v.addresses, v.launchTimeout, header, minipools, statuses⟩, o3.world,
            o1.trace ++ o2.trace ++ o3.trace⟩

/-- Get timed out minipools (`getTimedOutMinipools`): the returned slice and error. -/
def getTimedOutMinipools {σ : Type} (env : Env σ) (w : σ) : Out σ (List Minipool × Option Err) :=
  let o := scanMinipools env w
  match o.res with
  | .error e => ⟨([], some e), o.world, o.trace⟩
  | .ok sc =>
    ⟨(filterByStatus sc.minipools sc.statuses sc.latestEth1Block sc.launchTimeout, none),
      o.world, o.trace⟩

/-- The call `rpgas.GetHeadlessMaxFeeWei()`. -/
def headlessMaxFee {σ : Type} (env : Env σ) (w : σ) : Out σ (Except Err Int) :=
  match env.getHeadlessMaxFeeWei w with
  | (.error e, w1) => ⟨.error e, w1, [Event.getHeadlessMaxFeeWei]⟩
  | (.ok v, w1) => ⟨.ok v, w1, [Event.getHeadlessMaxFeeWei]⟩

/-- Get the max fee (both pipelines): the task's `maxFee`, or the headless suggestion when
`maxFee == nil || maxFee.Uint64() == 0`. -/
def resolveMaxFee {σ : Type} (env : Env σ) (t : Task) (w : σ) : Out σ (Except Err Int) :=
  match t.maxFee with
  | none => headlessMaxFee env w
  | some v => if bigUint64 v = 0 then headlessMaxFee env w else ⟨.ok v, w, []⟩

/-- Get the gas limit (both pipelines): `t.gasLimit` if it is not zero, else
`gasInfo.SafeGasLimit`; the value of `gas.Uint64()`. -/
def resolveGasLimit (t : Task) (gasInfo : GasInfo) : Nat :=
  bigUint64 (if t.gasLimit ≠ 0 then (t.gasLimit : Int) else (gasInfo.safeGasLimit : Int))

/-- Dissolve a minipool (`dissolveMinipool`). -/
def dissolveMinipool {σ : Type} (env : Env σ) (t : Task) (mp : Minipool) (w : σ) : Out σ (Option Err) :=
  Out.after [Event.log (LogLine.dissolving mp.address), Event.getNodeAccountTransactor] <|
  match env.getNodeAccountTransactor w with
  | (.error e, w1) => ⟨some e, w1, []⟩
  | (.ok opts, w1) =>
  Out.after [Event.estimateDissolveGas mp] <|
  match env.estimateDissolveGas mp opts w1 with
  | (.error e, w2) =>
    ⟨some (Err.wrapped "Could not estimate the gas required to dissolve the minipool" e), w2, []⟩
  | (.ok gasInfo, w2) =>
  let gas := resolveGasLimit t gasInfo
  let o := resolveMaxFee env t w2
  Out.after o.trace <|
  match o.res with
  | .error e => ⟨some e, o.world, []⟩
  | .ok maxFee =>
  Out.after [Event.printAndCheckGasInfo gasInfo maxFee t.gasLimit] <|
  match env.printAndCheckGasInfo gasInfo maxFee t.gasLimit o.world with
  | (false, w4) => ⟨none, w4, []⟩
  | (true, w4) =>
  let opts1 : TransactOpts :=
    { opts with gasFeeCap := some maxFee, gasTipCap := t.maxPriorityFee, gasLimit := gas }
  Out.after [Event.dissolve mp opts1] <|
  match env.dissolve mp opts1 w4 with
  | (.error e, w5) => ⟨some e, w5, []⟩
  | (.ok hash, w5) =>
  Out.after [Event.printAndWaitForTransaction hash] <|
  match env.printAndWaitForTransaction hash w5 with
  | (some e, w6) => ⟨some e, w6, []⟩
  | (none, w6) => ⟨none, w6, [Event.log (LogLine.dissolved mp.address)]⟩

/-- Dissolve minipools: the loop of `run` over the timed out minipools, logging the error of
a minipool that could not be dissolved. -/
def dissolveMinipools {σ : Type} (env : Env σ) (t : Task) : List Minipool → σ → Out σ Unit
  | [], w => ⟨(), w, []⟩
  | mp :: rest, w =>
    let o := dissolveMinipool env t mp w
    let logged : List Event :=
      match o.res with
      | some e => [Event.log (LogLine.couldNotDissolve mp.address e)]
      | none => []
    (dissolveMinipools env t rest o.world).after (o.trace ++ logged)

/-- Dissolve timed out minipools (`dissolveTimedOutMinipools.run`). -/
def dissolveTimedOutMinipools.run {σ : Type} (env : Env σ) (t : Task) (w : σ) : Out σ (Option Err) :=
  Out.after [Event.waitEthClientSynced] <|
  match env.waitEthClientSynced w with
  | (some e, w1) => ⟨some e, w1, []⟩
  | (none, w1) =>
  Out.after [Event.getNodeAccount] <|
  match env.getNodeAccount w1 with
  | (.error e, w2) => ⟨some e, w2, []⟩
  | (.ok nodeAccount, w2) =>
  Out.after [Event.getMemberExists nodeAccount] <|
  match env.getMemberExists nodeAccount w2 with
  | (.error e, w3) => ⟨some e, w3, []⟩
  | (.ok false, w3) => ⟨none, w3, []⟩
  | (.ok true, w3) =>
  Out.after [Event.log LogLine.checkingTimedOut] <|
  let o := getTimedOutMinipools env w3
  Out.after o.trace <|
  match o.res with
  | (_, some e) => ⟨some e, o.world, []⟩
  | (minipools, none) =>
    if minipools.length = 0 then ⟨none, o.world, []⟩
    else
      let o1 := dissolveMinipools env t minipools o.world
      ⟨none, o1.world, Event.log (LogLine.timedOutCount minipools.length) :: o1.trace⟩

/-! ## Respond to challenges -/

/-- Create respond to challenges task (`newRespondChallenges`): the task or the error, and
the lines written to the logger. -/
def newRespondChallenges (sv : Services) : Except Err Task × List LogLine :=
  match sv.getConfig with
  | .error e => (.error e, [])
  | .ok cfg =>
  match sv.getWallet with
  | some e => (.error e, [])
  | none =>
  match sv.getRocketPool with
  | some e => (.error e, [])
  | none =>
  match cfg.getMaxFee with
  | .error e => (.error (Err.wrapped "Error getting max fee in configuration" e), [])
  | .ok maxFee =>
  match cfg.getMaxPriorityFee with
  | .error e => (.error (Err.wrapped "Error getting max priority fee in configuration" e), [])
  | .ok configured =>
    let defaulted : Bool :=
      match configured with
      | none => true
      | some v => bigUint64 v == 0
    let maxPriorityFee : Option Int := if defaulted then some 2 else configured
    let logs : List LogLine := if defaulted then [LogLine.priorityFeeDefaulted] else []
    match cfg.getGasLimit with
    | .error e => (.error (Err.wrapped "Error getting gas limit in configuration" e), logs)
    | .ok gasLimit => (.ok ⟨maxFee, maxPriorityFee, gasLimit⟩, logs)

/-- Respond to challenges (`respondChallenges.run`). -/
def respondChallenges.run {σ : Type} (env : Env σ) (t : Task) (w : σ) : Out σ (Option Err) :=
  Out.after [Event.waitEthClientSynced] <|
  match env.waitEthClientSynced w with
  | (some e, w1) => ⟨some e, w1, []⟩
  | (none, w1) =>
  Out.after [Event.getNodeAccount] <|
  match env.getNodeAccount w1 with
  | (.error e, w2) => ⟨some e, w2, []⟩
  | (.ok nodeAccount, w2) =>
  Out.after [Event.getMemberExists nodeAccount] <|
  match env.getMemberExists nodeAccount w2 with
  | (.error e, w3) => ⟨some e, w3, []⟩
  | (.ok false, w3) => ⟨none, w3, []⟩
  | (.ok true, w3) =>
  Out.after [Event.log LogLine.checkingChallenges, Event.getMemberIsChallenged nodeAccount] <|
  match env.getMemberIsChallenged nodeAccount w3 with
  | (.error e, w4) => ⟨some e, w4, []⟩
  | (.ok false, w4) => ⟨none, w4, []⟩
  | (.ok true, w4) =>
  Out.after [Event.log (LogLine.activeChallenge nodeAccount), Event.getNodeAccountTransactor] <|
  match env.getNodeAccountTransactor w4 with
  | (.error e, w5) => ⟨some e, w5, []⟩
  | (.ok opts, w5) =>
  Out.after [Event.estimateDecideChallengeGas nodeAccount] <|
  match env.estimateDecideChallengeGas nodeAccount opts w5 with
  | (.error e, w6) =>
    ⟨some (Err.wrapped "Could not estimate the gas required to respond to the challenge" e), w6, []⟩
  | (.ok gasInfo, w6) =>
  let gas := resolveGasLimit t gasInfo
  let o := resolveMaxFee env t w6
  Out.after o.trace <|
  match o.res with
  | .error e => ⟨some e, o.world, []⟩
  | .ok maxFee =>
  Out.after [Event.printAndCheckGasInfo gasInfo maxFee t.gasLimit] <|
  match env.printAndCheckGasInfo gasInfo maxFee t.gasLimit o.world with
  | (false, w8) => ⟨none, w8, []⟩
  | (true, w8) =>
  let opts1 : TransactOpts :=
    { opts with gasFeeCap := some maxFee, gasTipCap := t.maxPriorityFee, gasLimit := gas }
  Out.after [Event.decideChallenge nodeAccount opts1] <|
  match env.decideChallenge nodeAccount opts1 w8 with
  | (.error e, w9) => ⟨some e, w9, []⟩
  | (.ok hash, w9) =>
  Out.after [Event.printAndWaitForTransaction hash] <|
  match env.printAndWaitForTransaction hash w9 with
  | (some e, w10) => ⟨some e, w10, []⟩
  | (none, w10) => ⟨none, w10, [Event.log (LogLine.respondedToChallenge nodeAccount)]⟩

/-! ## A sample world -/

/-- The status the sample chain reports for a minipool: odd addresses are in prelaunch since
second 100, even ones are staking. -/
def sampleStatus (mp : Minipool) : StatusDetails :=
  ⟨if mp.address % 2 = 1 then MinipoolStatus.Prelaunch else MinipoolStatus.Staking, 0, timeUnix 100⟩

/-- A sample chain with `n` minipools at addresses `0 .. n-1`, a launch timeout of one hour and
a latest block at second 10000. The status read of the minipool at address `failAt` fails, the
gas estimation for minipool 1 fails, and every other call succeeds. -/
def sampleEnv (n : Nat) (failAt : Option Nat) (trusted challenged : Bool) : Env Unit where
  waitEthClientSynced := fun w => (none, w)
  getNodeAccount := fun w => (.ok 7, w)
  getMemberExists := fun _ w => (.ok trusted, w)
  getMinipoolAddresses := fun w => (.ok (List.range n), w)
  getMinipoolLaunchTimeout := fun w => (.ok (3600 * 10 ^ 9), w)
  headerByNumber := fun w => (.ok ⟨10000⟩, w)
  newMinipool := fun _ w => (none, w)
  getStatusDetails := fun mp w =>
    (if some mp.address = failAt then .error (Err.msg "status read failed") else .ok (sampleStatus mp), w)
  getMemberIsChallenged := fun _ w => (.ok challenged, w)
  getNodeAccountTransactor := fun w => (.ok ⟨7, none, none, 0⟩, w)
  estimateDissolveGas := fun mp _ w =>
    (if mp.address = 1 then .error (Err.msg "estimation failed") else .ok ⟨100, 150⟩, w)
  estimateDecideChallengeGas := fun _ _ w => (.ok ⟨100, 150⟩, w)
  getHeadlessMaxFeeWei := fun w => (.ok 55, w)
  printAndCheckGasInfo := fun _ _ _ w => (true, w)
  dissolve := fun mp _ w => (.ok mp.address, w)
  decideChallenge := fun _ _ w => (.ok 1, w)
  printAndWaitForTransaction := fun _ w => (none, w)
  schedule := fun _ => [2, 5, 1]

/-- Services whose configuration holds the given priority fee and nothing else. -/
def sampleServices (priorityFee : Option Int) : Services :=
  ⟨.ok ⟨.ok none, .ok priorityFee, .ok 0⟩, none, none, none⟩

/-- The sample chain of a trusted, challenged node on which the gas estimation of the
decide-challenge transaction fails. -/
def estimationFailsEnv : Env Unit :=
  { sampleEnv 0 none true true with
    estimateDecideChallengeGas := fun _ _ w => (.error (Err.msg "node unreachable"), w) }

/-- The sample chain on which the headless fee suggestion fails. -/
def feeLookupFailsEnv : Env Unit :=
  { sampleEnv 4 none true true with
    getHeadlessMaxFeeWei := fun w => (.error (Err.msg "node unreachable"), w) }

/-- The sample chain on which every submission fails, with the same error value as the fee
lookup of `feeLookupFailsEnv`. -/
def submissionFailsEnv : Env Unit :=
  { sampleEnv 4 none true true with
    dissolve := fun _ _ w => (.error (Err.msg "node unreachable"), w)
    decideChallenge := fun _ _ w => (.error (Err.msg "node unreachable"), w) }

/-- The sample chain on which the confirmation wait fails, with the same error value. -/
def confirmationFailsEnv : Env Unit :=
  { sampleEnv 4 none true true with
    printAndWaitForTransaction := fun _ w => (some (Err.msg "node unreachable"), w) }

/-- The sample chain on which two reads of the first fan-out fail: the address list with one
error, the block header with another. Its schedule runs the header read first. -/
def twoReadsFailEnv : Env Unit :=
  { sampleEnv 4 none true true with
    getMinipoolAddresses := fun w => (.error (Err.msg "address list unavailable"), w)
    headerByNumber := fun w => (.error (Err.msg "header unavailable"), w) }

/-- The sample chain on which the approval gate declines the minipool at address 3. -/
def declinesEnv : Env Unit :=
  { sampleEnv 8 none true true with
    printAndCheckGasInfo := fun gasInfo _ _ w => (gasInfo.estGasLimit != 103, w)
    estimateDissolveGas := fun mp _ w => (.ok ⟨100 + mp.address, 150⟩, w) }

/-! ## Reading of the specification -/

/-- The dissolve condition in the words of the specification: the status equals prelaunch and
(latestBlockTime − statusChangeTime) ≥ launchTimeout, where latestBlockTime is the timestamp
of the scanned block header (seconds) and the difference is the exact one, in nanoseconds. -/
def specTimedOut (latestEth1Block : Header) (launchTimeout : Int) (status : StatusDetails) : Prop :=
  status.status = MinipoolStatus.Prelaunch ∧
    (latestEth1Block.time : Int) * 10 ^ 9 - status.statusTime.sinceEpoch ≥ launchTimeout

/-- The batch number `k` (from 0) of `n` status reads in the words of the specification: the
reads of the consecutive indices from `20 * k`, twenty of them or as many as remain. -/
def specBatch (n k : Nat) : List Read :=
  (List.range' (20 * k) (min 20 (n - 20 * k))).map Read.getStatusDetails

/-! ## Observations on traces -/

/-- The minipools for which `dissolveMinipool` was entered, in order: its first statement
logs the minipool's address. -/
def pipelineStarts (tr : List Event) : List Minipool :=
  tr.filterMap fun ev =>
    match ev with
    | Event.log (LogLine.dissolving addr) => some ⟨addr⟩
    | _ => none

/-- A fan-out in which some read failed. -/
def Event.hasFailedRead : Event → Bool
  | Event.errgroup _ ran => ran.any fun r => r.2
  | _ => false

/-- The calls of the State Scanner: the fan-outs of reads and the contract bindings. -/
def Event.isScan : Event → Bool
  | Event.errgroup _ _ => true
  | Event.newMinipool _ => true
  | _ => false

/-- The batches of reads spawned, in order. -/
def spawnedBatches (tr : List Event) : List (List Read) :=
  tr.filterMap fun ev =>
    match ev with
    | Event.errgroup spawned _ => some spawned
    | _ => none

/-- The calls of the Transaction Submitter: transactor, gas estimation, fee lookup, approval
gate, submission and confirmation wait. -/
def Event.isSubmitter : Event → Bool
  | Event.getNodeAccountTransactor => true
  | Event.estimateDissolveGas _ => true
  | Event.estimateDecideChallengeGas _ => true
  | Event.getHeadlessMaxFeeWei => true
  | Event.printAndCheckGasInfo _ _ _ => true
  | Event.dissolve _ _ => true
  | Event.decideChallenge _ _ => true
  | Event.printAndWaitForTransaction _ => true
  | _ => false

/-- The transactions submitted: the options attached to each. -/
def submissions (tr : List Event) : List TransactOpts :=
  tr.filterMap fun ev =>
    match ev with
    | Event.dissolve _ opts => some opts
    | Event.decideChallenge _ opts => some opts
    | _ => none

/-- No event follows a fan-out in which a read failed. -/
def stopsAtFailure : List Event → Prop
  | [] => True
  | ev :: rest => (ev.hasFailedRead = true → rest = []) ∧ stopsAtFailure rest

/-- The sample chain with the single minipool 0, in prelaunch since second `statusSec`, a latest
block at second `blockTime` and the launch timeout `launchTimeout`; every call succeeds. -/
def edgeEnv (blockTime : Nat) (launchTimeout : Int) (statusSec : Int) : Env Unit :=
  { sampleEnv 1 none true false with
    getMinipoolLaunchTimeout := fun w => (.ok launchTimeout, w)
    headerByNumber := fun w => (.ok ⟨blockTime⟩, w)
    getStatusDetails := fun _ w => (.ok ⟨MinipoolStatus.Prelaunch, 0, timeUnix statusSec⟩, w) }

/-- The dissolve condition of the specification can be evaluated. -/
instance specTimedOutDecidable (latestEth1Block : Header) (launchTimeout : Int)
    (status : StatusDetails) : Decidable (specTimedOut latestEth1Block launchTimeout status) :=
  inferInstanceAs (Decidable (status.status = MinipoolStatus.Prelaunch ∧
    (latestEth1Block.time : Int) * 10 ^ 9 - status.statusTime.sinceEpoch ≥ launchTimeout))

/-- The first read that failed, in the order in which the reads of a fan-out ran. -/
def firstFailed : List (Read × Bool) → Option Read
  | [] => none
  | (r, failed) :: rest => if failed then some r else firstFailed rest

/-- The minipool contracts bound in a trace, in order. -/
def boundMinipools (tr : List Event) : List Minipool :=
  tr.filterMap fun ev =>
    match ev with
    | Event.newMinipool addr => some ⟨addr⟩
    | _ => none

/-- The error `e` is an answer of the chain read `r`, the status reads being those of the
minipools `minipools` by index. -/
def readFails {σ : Type} (env : Env σ) (minipools : List Minipool) (r : Read) (e : Err) : Prop :=
  match r with
  | Read.getMinipoolAddresses => ∃ w w1, env.getMinipoolAddresses w = (.error e, w1)
  | Read.getMinipoolLaunchTimeout => ∃ w w1, env.getMinipoolLaunchTimeout w = (.error e, w1)
  | Read.headerByNumber => ∃ w w1, env.headerByNumber w = (.error e, w1)
  | Read.getStatusDetails mi =>
    ∃ mp, minipools[mi]? = some mp ∧ ∃ w w1, env.getStatusDetails mp w = (.error e, w1)

/-- The record of a scan holds what the chain reads answered: the address list, the launch
timeout and the header are answers of their reads, and the status at each index is an answer
of the status read of the minipool at the address of that index. -/
def scanAnswers {σ : Type} (env : Env σ) (sc : Scan) : Prop :=
  (∃ w w1, env.getMinipoolAddresses w = (.ok sc.addresses, w1)) ∧
  (∃ w w1, env.getMinipoolLaunchTimeout w = (.ok sc.launchTimeout, w1)) ∧
  (∃ w w1, env.headerByNumber w = (.ok sc.latestEth1Block, w1)) ∧
  sc.statuses.length = sc.addresses.length ∧
  ∀ (i : Nat) (address : Address) (status : StatusDetails),
    sc.addresses[i]? = some address → sc.statuses[i]? = some status →
      ∃ w w1, env.getStatusDetails ⟨address⟩ w = (.ok status, w1)

/-- The slice `statuses` holds, at index `i`, an answer of the status read of `minipools[i]`. -/
def statusAnswered {σ : Type} (env : Env σ) (minipools : List Minipool) (i : Nat)
    (statuses : List StatusDetails) : Prop :=
  ∃ mp status, minipools[i]? = some mp ∧ statuses[i]? = some status ∧
    ∃ w w1, env.getStatusDetails mp w = (.ok status, w1)

end Watchtower

/-!
JSON forms of the beacon API values: `shared/services/beacon/nimbus/types.go`.

Go strings and `[]byte` JSON data are lists of characters, a byte of a `byteArray` is a
`Fin 256`, and `int` is the 64-bit `int`. The functions of `strconv`, `encoding/hex` and
`encoding/json` are modelled for the inputs `uinteger` and `byteArray` hand them: a JSON
string literal, or `null`, as the whole document.
-/

namespace nimbus

open Watchtower (Err wrapInt64)

/-- The double quote. -/
def dq : Char := Char.ofNat 34

/-- The backslash. -/
def bs : Char := Char.ofNat 92

/-- The digit (lower case beyond 9) of a value below 16: `hextable` of `encoding/hex`. -/
def hexDigitChar (n : Nat) : Char := if n < 10 then Char.ofNat (48 + n) else Char.ofNat (87 + n)

/-- The value of a hexadecimal digit, of either case: `fromHexChar` of `encoding/hex`. -/
def fromHexChar (c : Char) : Option Nat :=
  if 48 ≤ c.toNat ∧ c.toNat ≤ 57 then some (c.toNat - 48)
  else if 97 ≤ c.toNat ∧ c.toNat ≤ 102 then some (c.toNat - 87)
  else if 65 ≤ c.toNat ∧ c.toNat ≤ 70 then some (c.toNat - 55)
  else none

/-- The decimal digits of `n`, most significant first; the first argument bounds their number. -/
def decDigits : Nat → Nat → List Nat
  | 0, _ => []
  | fuel + 1, n => if n < 10 then [n] else decDigits fuel (n / 10) ++ [n % 10]

/-- The function `strconv.Itoa` on the 64-bit `int` whose value is `x`: at most 19 digits. -/
def strconvItoa (x : Int) : List Char :=
  if x < 0 then Char.ofNat 45 :: (decDigits 20 x.natAbs).map fun d => Char.ofNat (48 + d)
  else (decDigits 20 x.natAbs).map fun d => Char.ofNat (48 + d)

/-- The loop of `strconv.ParseUint(s, 10, 64)`: a character that is not a digit is a syntax
error, a value that leaves the `uint64` range is a range error. -/
def parseUintLoop : List Char → Nat → Except Err Nat
  | [], n => .ok n
  | c :: cs, n =>
    if 48 ≤ c.toNat ∧ c.toNat ≤ 57 then
      if n * 10 + (c.toNat - 48) < 2 ^ 64 then parseUintLoop cs (n * 10 + (c.toNat - 48))
      else .error (Err.msg "strconv.ParseUint: value out of range")
    else .error (Err.msg "strconv.ParseUint: invalid syntax")

/-- The function `strconv.ParseUint(s, 10, 64)`. -/
def strconvParseUint (s : List Char) : Except Err Nat :=
  match s with
  | [] => .error (Err.msg "strconv.ParseUint: invalid syntax")
  | _ => parseUintLoop s 0

/-- The function `hex.EncodeToString`. -/
def hexEncodeToString (b : List (Fin 256)) : List Char :=
  b.flatMap fun x => [hexDigitChar (x.val / 16), hexDigitChar (x.val % 16)]

/-- The function `hex.DecodeString`: pairs of digits, first error from the left; a single
character left over is an invalid byte if it is no digit and a length error otherwise. -/
def hexDecodeString : List Char → Except Err (List (Fin 256))
  | [] => .ok []
  | [c] =>
    match fromHexChar c with
    | none => .error (Err.msg "encoding/hex: invalid byte")
    | some _ => .error (Err.msg "encoding/hex: odd length hex string")
  | a :: b :: rest =>
    match fromHexChar a, fromHexChar b with
    | some x, some y =>
      match hexDecodeString rest with
      | .ok bytes => .ok (Fin.ofNat (16 * x + y) :: bytes)
      | .error e => .error e
    | _, _ => .error (Err.msg "encoding/hex: invalid byte")

/-- How `json.Marshal` writes one character of a string: the quote and the backslash
escaped, line feed, carriage return and tab as `\n`, `\r`, `\t`, the other control
characters and `<`, `>`, `&` as `\u00XX`, U+2028 and U+2029 as `\u202X`. -/
def jsonEscape (c : Char) : List Char :=
  if c = dq then [bs, dq]
  else if c = bs then [bs, bs]
  else if c.toNat = 10 then [bs, Char.ofNat 110]
  else if c.toNat = 13 then [bs, Char.ofNat 114]
  else if c.toNat = 9 then [bs, Char.ofNat 116]
  else if c.toNat < 32 ∨ c.toNat = 60 ∨ c.toNat = 62 ∨ c.toNat = 38 then
    [bs, Char.ofNat 117, Char.ofNat 48, Char.ofNat 48, hexDigitChar (c.toNat / 16),
      hexDigitChar (c.toNat % 16)]
  else if c.toNat = 8232 ∨ c.toNat = 8233 then
    [bs, Char.ofNat 117, Char.ofNat 50, Char.ofNat 48, Char.ofNat 50,
      hexDigitChar (c.toNat % 16)]
  else [c]

/-- The call `json.Marshal(s)` for a string `s`. -/
def jsonMarshalString (s : List Char) : List Char :=
  dq :: (s.flatMap jsonEscape ++ [dq])

/-- The character of a one-letter escape of a JSON string. -/
def simpleEscape (d : Char) : Option Char :=
  if d = dq then some dq
  else if d = bs then some bs
  else if d.toNat = 47 then some (Char.ofNat 47)
  else if d.toNat = 98 then some (Char.ofNat 8)
  else if d.toNat = 102 then some (Char.ofNat 12)
  else if d.toNat = 110 then some (Char.ofNat 10)
  else if d.toNat = 114 then some (Char.ofNat 13)
  else if d.toNat = 116 then some (Char.ofNat 9)
  else none

/-- The character of a `\uXXXX` escape; half of a surrogate pair reads as U+FFFD (pairs are
not combined). -/
def unicodeEscape (h1 h2 h3 h4 : Char) : Option Char :=
  match fromHexChar h1, fromHexChar h2, fromHexChar h3, fromHexChar h4 with
  | some a, some b, some c, some d =>
    if 55296 ≤ ((a * 16 + b) * 16 + c) * 16 + d ∧ ((a * 16 + b) * 16 + c) * 16 + d < 57344 then
      some (Char.ofNat 65533)
    else some (Char.ofNat (((a * 16 + b) * 16 + c) * 16 + d))
  | _, _, _, _ => none

/-- Reads a JSON string literal after its opening quote: the closing quote must end the data. -/
def unquoteBody : List Char → Except Err (List Char)
  | [] => .error (Err.msg "unexpected end of JSON input")
  | c :: rest =>
    if c = dq then
      match rest with
      | [] => .ok []
      | _ => .error (Err.msg "invalid character after top-level value")
    else if c = bs then
      match rest with
      | [] => .error (Err.msg "unexpected end of JSON input")
      | d :: rest2 =>
        if d.toNat = 117 then
          match rest2 with
          | h1 :: h2 :: h3 :: h4 :: rest3 =>
            match unicodeEscape h1 h2 h3 h4 with
            | none => .error (Err.msg "invalid character in hexadecimal character escape")
            | some x =>
              match unquoteBody rest3 with
              | .ok s => .ok (x :: s)
              | .error e => .error e
          | _ => .error (Err.msg "unexpected end of JSON input")
        else
          match simpleEscape d with
          | none => .error (Err.msg "invalid character in string escape code")
          | some x =>
            match unquoteBody rest2 with
            | .ok s => .ok (x :: s)
            | .error e => .error e
    else if c.toNat < 32 then .error (Err.msg "invalid character in string literal")
    else
      match unquoteBody rest with
      | .ok s => .ok (c :: s)
      | .error e => .error e

/-- JSON white space. -/
def isSpace (c : Char) : Bool :=
  c.toNat = 32 || c.toNat = 9 || c.toNat = 10 || c.toNat = 13

/-- The call `json.Unmarshal(data, &dataStr)` for a string variable: the string of a string
literal, `none` for `null` (the variable is left as it is), an error for anything else. -/
def jsonUnmarshalString (data : List Char) : Except Err (Option (List Char)) :=
  match ((data.dropWhile isSpace).reverse.dropWhile isSpace).reverse with
  | [] => .error (Err.msg "unexpected end of JSON input")
  | c :: rest =>
    if c = dq then
      match unquoteBody rest with
      | .ok s => .ok (some s)
      | .error e => .error e
    else if c :: rest = [Char.ofNat 110, Char.ofNat 117, Char.ofNat 108, Char.ofNat 108] then
      .ok none
    else .error (Err.msg "json: cannot unmarshal into Go value of type string")

/-- The method `uinteger.MarshalJSON`: `json.Marshal(strconv.Itoa(int(i)))`. -/
def uinteger.MarshalJSON (i : Nat) : List Char :=
  jsonMarshalString (strconvItoa (wrapInt64 i))

/-- The method `(*uinteger).UnmarshalJSON`: the value of `*i` afterwards and the error. -/
def uinteger.UnmarshalJSON (i : Nat) (data : List Char) : Nat × Option Err :=
  match jsonUnmarshalString data with
  | .error e => (i, some e)
  | .ok dataStr =>
    match strconvParseUint (dataStr.getD []) with
    | .error e => (i, some e)
    | .ok value => (value, none)

/-- The two functions of `shared/utils/hex` (not part of the sources at hand) that the byte
array type calls. -/
structure HexUtil where
  AddPrefix : List Char → List Char
  RemovePrefix : List Char → List Char

/-- The method `byteArray.MarshalJSON`: `json.Marshal(hexutil.AddPrefix(hex.EncodeToString(b)))`. -/
def byteArray.MarshalJSON (hexutil : HexUtil) (b : List (Fin 256)) : List Char :=
  jsonMarshalString (hexutil.AddPrefix (hexEncodeToString b))

/-- The method `(*byteArray).UnmarshalJSON`: the value of `*b` afterwards and the error. -/
def byteArray.UnmarshalJSON (hexutil : HexUtil) (b : List (Fin 256)) (data : List Char) :
    List (Fin 256) × Option Err :=
  match jsonUnmarshalString data with
  | .error e => (b, some e)
  | .ok dataStr =>
    match hexDecodeString (hexutil.RemovePrefix (dataStr.getD [])) with
    | .error e => (b, some e)
    | .ok value => (value, none)

/-- A sample of the two prefix functions: `0x` is put in front unless it is there, and
taken away if it is there. -/
def sampleHexUtil : HexUtil where
  AddPrefix := fun s =>
    match s with
    | a :: b :: rest =>
      if a = Char.ofNat 48 ∧ b = Char.ofNat 120 then a :: b :: rest
      else Char.ofNat 48 :: Char.ofNat 120 :: a :: b :: rest
    | _ => Char.ofNat 48 :: Char.ofNat 120 :: s
  RemovePrefix := fun s =>
    match s with
    | a :: b :: rest => if a = Char.ofNat 48 ∧ b = Char.ofNat 120 then rest else a :: b :: rest
    | _ => s

end nimbus

/-!
Validator keys of the node wallet: `shared/services/wallet/validator.go`.

A `uint` is a `Nat` below 2^64 with wrapping arithmetic. The key derivations of the two
`eth2util` packages and the public key of a private key are the fields of `Deriver`; the
keystores of the wallet are a list, in the order the `range` over the map visits them, and
`stored` lists what they were handed successfully. A derivation path is the list of its
components.
-/

namespace wallet

open Watchtower (Err)

/-- A `*eth2types.BLSPrivateKey`. -/
abbrev Key := Nat

/-- A validator public key (`rptypes.ValidatorPubkey`), as the number its bytes spell. -/
abbrev Pubkey := Nat

/-- A derivation path `m/a/b/...`, as the list of its components. -/
abbrev Path := List Nat

/-- The constant `MaxValidatorKeyRecoverAttempts`. -/
def MaxValidatorKeyRecoverAttempts : Nat := 100

/-- The derivation path `fmt.Sprintf(ValidatorKeyPath, index)` with
`ValidatorKeyPath = "m/12381/3600/%d/0/0"`. -/
def ValidatorKeyPath (index : Nat) : Path :=
  [12381, 3600, index, 0, 0]

/-- The derivations `eth2utilv1_5.PrivateKeyFromSeedAndPath(w.seed, path)` (HKDFv3) and
`eth2utilv1_6.PrivateKeyFromSeedAndPath(w.seed, path)` (HKDFv4) for the seed of the wallet,
and `key.PublicKey()`. -/
structure Deriver where
  hkdfv3 : Path → Except Err Key
  hkdfv4 : Path → Except Err Key
  publicKey : Key → Pubkey

/-- A keystore of the wallet: its name in `w.keystores` and its `StoreValidatorKey`. -/
structure Keystore where
  name : String
  StoreValidatorKey : Key → Path → Option Err

/-- The state of a `Wallet` the validator key functions read and write: whether
`IsInitialized()` holds, `ws.NextAccount`, the two key caches (`validatorKeys1` for HKDFv3,
`validatorKeys2` for HKDFv4), the keystores, and the keys stored in them so far as
(keystore name, key, path). -/
structure Wallet where
  initialized : Bool
  NextAccount : Nat
  validatorKeys1 : Nat → Option Key
  validatorKeys2 : Nat → Option Key
  keystores : List Keystore
  stored : List (String × Key × Path)

/-- Get a validator private key by index (`getValidatorPrivateKey`): the key and its path, or
the error, and the wallet with its cache updated. -/
def getValidatorPrivateKey (d : Deriver) (w : Wallet) (index : Nat) (hkdfv3 : Bool) :
    Except Err (Key × Path) × Wallet :=
  let derivationPath := ValidatorKeyPath index
  if hkdfv3 then
    match w.validatorKeys1 index with
    | some validatorKey => (.ok (validatorKey, derivationPath), w)
    | none =>
      match d.hkdfv3 derivationPath with
      | .error e =>
        (.error (Err.wrapped ("Could not get validator " ++ toString index ++ " private key") e), w)
      | .ok privateKey =>
        (.ok (privateKey, derivationPath),
          { w with validatorKeys1 := Function.update w.validatorKeys1 index (some privateKey) })
  else
    match w.validatorKeys2 index with
    | some validatorKey => (.ok (validatorKey, derivationPath), w)
    | none =>
      match d.hkdfv4 derivationPath with
      | .error e =>
        (.error (Err.wrapped ("Could not get validator " ++ toString index ++ " private key") e), w)
      | .ok privateKey =>
        (.ok (privateKey, derivationPath),
          { w with validatorKeys2 := Function.update w.validatorKeys2 index (some privateKey) })

/-- Update keystores: the loop `for name, ks := range w.keystores` storing the key, which
stops at the first keystore that fails. -/
def updateKeystores (key : Key) (path : Path) :
    List Keystore → List (String × Key × Path) → Option Err × List (String × Key × Path)
  | [], stored => (none, stored)
  | ks :: rest, stored =>
    match ks.StoreValidatorKey key path with
    | some e => (some (Err.wrapped ("Could not store " ++ ks.name ++ " validator key") e), stored)
    | none => updateKeystores key path rest (stored ++ [(ks.name, key, path)])

/-- Create a new validator key (`CreateValidatorKey`): the key or the error, and the wallet
afterwards. -/
def Wallet.CreateValidatorKey (d : Deriver) (w : Wallet) : Except Err Key × Wallet :=
  if !w.initialized then (.error (Err.msg "Wallet is not initialized"), w)
  else
    let index := w.NextAccount
    let w1 : Wallet := { w with NextAccount := (w.NextAccount + 1) % 2 ^ 64 }
    match getValidatorPrivateKey d w1 index false with
    | (.error e, w2) => (.error e, w2)
    | (.ok (key, path), w2) =>
      match updateKeystores key path w2.keystores w2.stored with
      | (some e, stored) => (.error e, { w2 with stored := stored })
      | (none, stored) => (.ok key, { w2 with stored := stored })

/-- How the search loop of `RecoverValidatorKey` ends: with the matching key, its index and
path; without a match, at the index where the loop condition failed; or with an error. -/
inductive Found where
  | key (index : Nat) (validatorKey : Key) (derivationPath : Path)
  | nothing (index : Nat)
  | failed (e : Err)
  deriving DecidableEq, Repr

/-- Find matching validator key: the loop `for index = 0; index < bound; index++` of
`RecoverValidatorKey`, entered at `index` with `left = bound - index` iterations to go. Also
returns the calls of `getValidatorPrivateKey` it made, as (index, hkdfv3). -/
def findValidatorKey (d : Deriver) (pubkey : Pubkey) :
    Nat → Nat → Wallet → Found × Wallet × List (Nat × Bool)
  | 0, index, w => (Found.nothing index, w, [])
  | left + 1, index, w =>
    match getValidatorPrivateKey d w index false with
    | (.error e, w1) => (Found.failed e, w1, [(index, false)])
    | (.ok (key, path), w1) =>
      if pubkey = d.publicKey key then (Found.key index key path, w1, [(index, false)])
      else
        match getValidatorPrivateKey d w1 index true with
        | (.error e, w2) => (Found.failed e, w2, [(index, false), (index, true)])
        | (.ok (key3, path3), w2) =>
          if pubkey = d.publicKey key3 then
            (Found.key index key3 path3, w2, [(index, false), (index, true)])
          else
            let r := findValidatorKey d pubkey left (index + 1) w2
            (r.1, r.2.1, (index, false) :: (index, true) :: r.2.2)

/-- Recover a validator key by public key (`RecoverValidatorKey`): the error, the wallet
afterwards, and the calls of `getValidatorPrivateKey` made. -/
def Wallet.RecoverValidatorKey (d : Deriver) (w : Wallet) (pubkey : Pubkey) :
    Option Err × Wallet × List (Nat × Bool) :=
  if !w.initialized then (some (Err.msg "Wallet is not initialized"), w, [])
  else
    match findValidatorKey d pubkey
        ((w.NextAccount + MaxValidatorKeyRecoverAttempts) % 2 ^ 64) 0 w with
    | (Found.failed e, w1, calls) => (some e, w1, calls)
    | (Found.nothing _, w1, calls) =>
      (some (Err.msg ("Validator " ++ toString pubkey ++ " key not found")), w1, calls)
    | (Found.key index validatorKey derivationPath, w1, calls) =>
      let nextIndex := (index + 1) % 2 ^ 64
      let w2 : Wallet :=
        if nextIndex > w1.NextAccount then { w1 with NextAccount := nextIndex } else w1
      match updateKeystores validatorKey derivationPath w2.keystores w2.stored with
      | (e, stored) => (e, { w2 with stored := stored }, calls)

/-- The key `getValidatorPrivateKey` gives for an index and a scheme. -/
def keyAt (d : Deriver) (w : Wallet) (index : Nat) (hkdfv3 : Bool) : Except Err Key :=
  match (getValidatorPrivateKey d w index hkdfv3).1 with
  | .ok (key, _) => .ok key
  | .error e => .error e

/-- Whether the key for an index and a scheme has the public key looked for. -/
def matchesAt (d : Deriver) (w : Wallet) (pubkey : Pubkey) (index : Nat) (hkdfv3 : Bool) : Bool :=
  match keyAt d w index hkdfv3 with
  | .ok key => pubkey = d.publicKey key
  | .error _ => false

/-- The calls of a search that visits the indices below `n`: HKDFv4 then HKDFv3 at each. -/
def allCalls (n : Nat) : List (Nat × Bool) :=
  (List.range n).flatMap fun j => [(j, false), (j, true)]

/-- A sample derivation: the HKDFv4 key of the path of index `i` is `2 * i`, the HKDFv3 key is
`2 * i + 1`, and the public key of a key is the key plus 1000. HKDFv4 fails for the index
`failAt`. -/
def sampleDeriver (failAt : Option Nat) : Deriver where
  hkdfv3 := fun path =>
    if path = ValidatorKeyPath (path.getD 2 0) then .ok (2 * path.getD 2 0 + 1)
    else .error (Err.msg "invalid path")
  hkdfv4 := fun path =>
    if path = ValidatorKeyPath (path.getD 2 0) then
      if some (path.getD 2 0) = failAt then .error (Err.msg "derivation failed")
      else .ok (2 * path.getD 2 0)
    else .error (Err.msg "invalid path")
  publicKey := fun key => key + 1000

/-- A sample wallet: initialized, with three validator keys recorded, empty caches and one
keystore, which refuses the key `refuse`. -/
def sampleWallet (refuse : Option Key) : Wallet where
  initialized := true
  NextAccount := 3
  validatorKeys1 := fun _ => none
  validatorKeys2 := fun _ => none
  keystores := [⟨"lighthouse", fun key _ => if some key = refuse then some (Err.msg "disk full") else none⟩]
  stored := []

end wallet

namespace Watchtower

/-! ## Arithmetic of times -/

theorem wrapInt64_eq_self (x : Int) (h1 : -(2 ^ 63) ≤ x) (h2 : x < 2 ^ 63) : wrapInt64 x = x := by
  unfold wrapInt64
  norm_num at h1 h2 ⊢
  omega

theorem timeUnix_header (T : Nat) (hT : (T : Int) + unixToInternal < 2 ^ 63) :
    timeUnix (wrapInt64 T) = ⟨(T : Int) + unixToInternal, 0⟩ := by
  unfold unixToInternal at hT
  have h0 : (0 : Int) ≤ T := Int.ofNat_nonneg T
  have e1 : wrapInt64 (T : Int) = T := by
    apply wrapInt64_eq_self <;> norm_num at hT ⊢ <;> omega
  have e2 : wrapInt64 ((T : Int) + unixToInternal) = (T : Int) + unixToInternal := by
    unfold unixToInternal
    apply wrapInt64_eq_self <;> norm_num at hT ⊢ <;> omega
  simp [timeUnix, e1, e2]

theorem isTimedOut_iff_spec (hdr : Header) (L : Int) (st : StatusDetails)
    (hT : (hdr.time : Int) + unixToInternal < 2 ^ 63) (hL1 : minDuration < L) (hL2 : L ≤ maxDuration) :
    isTimedOut (timeUnix (wrapInt64 hdr.time)) L st = true ↔ specTimedOut hdr L st := by
  rw [timeUnix_header hdr.time hT]
  unfold isTimedOut specTimedOut Time.sub Time.sinceEpoch
  unfold minDuration at hL1
  unfold maxDuration at hL2
  simp only [Bool.and_eq_true, beq_iff_eq, decide_eq_true_eq, minDuration, maxDuration]
  apply and_congr_right
  intro _
  norm_num at hL1 hL2 ⊢
  split_ifs <;> constructor <;> intro h <;> omega

/-! ## The filter -/

theorem foldl_filter_append {α β : Type} (c : α × β → Bool) (l : List (α × β)) (init : List α) :
    l.foldl (fun acc p => if c p = true then acc ++ [p.1] else acc) init =
      init ++ (l.filter c).map Prod.fst := by
  induction l generalizing init with
  | nil => simp
  | cons p l ih =>
    simp only [List.foldl_cons, ih, List.filter_cons]
    split <;> simp

theorem filterByStatus_eq (minipools : List Minipool) (statuses : List StatusDetails)
    (hdr : Header) (L : Int) :
    filterByStatus minipools statuses hdr L =
      ((minipools.zip statuses).filter
        (fun p => isTimedOut (timeUnix (wrapInt64 hdr.time)) L p.2)).map Prod.fst := by
  unfold filterByStatus
  simp only
  rw [foldl_filter_append (fun p => isTimedOut (timeUnix (wrapInt64 hdr.time)) L p.2)]
  simp

theorem mem_filterByStatus (minipools : List Minipool) (statuses : List StatusDetails)
    (hdr : Header) (L : Int) (mp : Minipool) :
    mp ∈ filterByStatus minipools statuses hdr L ↔
      ∃ (i : Nat) (h1 : i < minipools.length) (h2 : i < statuses.length),
        minipools[i] = mp ∧ isTimedOut (timeUnix (wrapInt64 hdr.time)) L statuses[i] = true := by
  rw [filterByStatus_eq]
  simp only [List.mem_map, List.mem_filter, Prod.exists, exists_and_right, exists_eq_right]
  constructor
  · rintro ⟨st, hmem, hc⟩
    obtain ⟨i, hi, hieq⟩ := List.mem_iff_getElem.mp hmem
    rw [List.getElem_zip] at hieq
    have hi2 := hi
    rw [List.length_zip] at hi2
    refine ⟨i, by omega, by omega, ?_, ?_⟩
    · exact (Prod.mk.inj hieq).1
    · rw [(Prod.mk.inj hieq).2]; exact hc
  · rintro ⟨i, h1, h2, hmp, hc⟩
    refine ⟨statuses[i], ?_, hc⟩
    apply List.mem_iff_getElem.mpr
    refine ⟨i, by rw [List.length_zip]; omega, ?_⟩
    rw [List.getElem_zip, hmp]

/-! ## Outcomes and fan-outs -/

@[simp] theorem Out.after_res {σ α : Type} (evs : List Event) (o : Out σ α) :
    (o.after evs).res = o.res := rfl

@[simp] theorem Out.after_world {σ α : Type} (evs : List Event) (o : Out σ α) :
    (o.after evs).world = o.world := rfl

@[simp] theorem Out.after_trace {σ α : Type} (evs : List Event) (o : Out σ α) :
    (o.after evs).trace = evs ++ o.trace := rfl

theorem perm_getElem_cons_eraseIdx {α : Type} (l : List α) (i : Nat) (h : i < l.length) :
    (l[i] :: l.eraseIdx i).Perm l := by
  induction l generalizing i with
  | nil => simp at h
  | cons x l ih =>
    cases i with
    | zero => simp
    | succ i =>
      simp only [List.length_cons, Nat.add_lt_add_iff_right] at h
      simp only [List.getElem_cons_succ, List.eraseIdx_cons_succ]
      exact (List.Perm.swap _ _ _).trans (List.Perm.cons _ (ih i h))

theorem pickOrder_perm {α : Type} (cs : List Nat) (xs : List α) : (pickOrder cs xs).Perm xs := by
  induction cs generalizing xs with
  | nil => cases xs <;> simp [pickOrder]
  | cons c cs ih =>
    cases xs with
    | nil => simp [pickOrder]
    | cons x xs =>
      have hlt : c % (xs.length + 1) < (x :: xs).length := by
        simp only [List.length_cons]
        exact Nat.mod_lt _ (Nat.succ_pos _)
      rw [pickOrder]
      rw [List.getElem?_eq_getElem hlt]
      simp only
      exact (List.Perm.cons _ (ih _)).trans (perm_getElem_cons_eraseIdx _ _ hlt)

/-- The reads that ran are those of the goroutines, in the order they ran. -/
theorem runGoroutines_ran_reads {σ φ : Type} (gs : List (Goroutine σ φ)) (f : φ) (w : σ) :
    (runGoroutines gs f w).2.2.2.map Prod.fst = gs.map fun g => g.read := by
  induction gs generalizing f w with
  | nil => rfl
  | cons g gs ih => simp [runGoroutines, ih]

/-- The fan-out returns an error exactly when one of its reads failed. -/
theorem runGoroutines_error_iff {σ φ : Type} (gs : List (Goroutine σ φ)) (f : φ) (w : σ) :
    (runGoroutines gs f w).1.isSome = (runGoroutines gs f w).2.2.2.any fun r => r.2 := by
  induction gs generalizing f w with
  | nil => rfl
  | cons g gs ih =>
    simp only [runGoroutines, List.any_cons]
    cases h : (g.body f w).1.1 with
    | none => simp [ih]
    | some e => simp

/-- A property of the captured variables that every goroutine body keeps is kept by the fan-out. -/
theorem runGoroutines_invariant {σ φ : Type} (P : φ → Prop) (gs : List (Goroutine σ φ))
    (hP : ∀ g ∈ gs, ∀ f w, P f → P (g.body f w).1.2) (f : φ) (w : σ) (hf : P f) :
    P (runGoroutines gs f w).2.1 := by
  induction gs generalizing f w with
  | nil => exact hf
  | cons g gs ih =>
    simp only [runGoroutines]
    exact ih (fun g' hg' => hP g' (List.mem_cons_of_mem _ hg')) _ _
      (hP g (List.mem_cons_self _ _) f w hf)

/-- A property that one goroutine establishes when it succeeds and that all keep holds after a
fan-out that returned no error. -/
theorem runGoroutines_establishes {σ φ : Type} (P : φ → Prop) (gs : List (Goroutine σ φ))
    (g0 : Goroutine σ φ) (hg0 : g0 ∈ gs)
    (hset : ∀ f w, (g0.body f w).1.1 = none → P (g0.body f w).1.2)
    (hkeep : ∀ g ∈ gs, ∀ f w, P f → P (g.body f w).1.2) (f : φ) (w : σ)
    (hnone : (runGoroutines gs f w).1 = none) : P (runGoroutines gs f w).2.1 := by
  induction gs generalizing f w with
  | nil => cases hg0
  | cons g gs ih =>
    simp only [runGoroutines] at hnone ⊢
    cases hb : (g.body f w).1.1 with
    | some e => rw [hb] at hnone; cases hnone
    | none =>
      rw [hb] at hnone
      simp only at hnone
      rcases List.mem_cons.mp hg0 with rfl | hmem
      · exact runGoroutines_invariant P gs
          (fun g' hg' => hkeep g' (List.mem_cons_of_mem _ hg')) _ _ (hset f w hb)
      · exact ih hmem (fun g' hg' => hkeep g' (List.mem_cons_of_mem _ hg')) _ _ hnone

theorem errgroupWait_trace {σ φ : Type} (env : Env σ) (gs : List (Goroutine σ φ)) (f : φ) (w : σ) :
    ∃ ran, (errgroupWait env gs f w).trace = [Event.errgroup (gs.map fun g => g.read) ran] ∧
      (ran.map Prod.fst).Perm (gs.map fun g => g.read) ∧
      (errgroupWait env gs f w).res.1.isSome = ran.any fun r => r.2 := by
  refine ⟨(runGoroutines (pickOrder (env.schedule w) gs) f w).2.2.2, rfl, ?_, ?_⟩
  · rw [runGoroutines_ran_reads]
    exact (pickOrder_perm _ gs).map _
  · exact runGoroutines_error_iff _ f w

theorem errgroupWait_invariant {σ φ : Type} (P : φ → Prop) (env : Env σ) (gs : List (Goroutine σ φ))
    (hP : ∀ g ∈ gs, ∀ f w, P f → P (g.body f w).1.2) (f : φ) (w : σ) (hf : P f) :
    P (errgroupWait env gs f w).res.2 := by
  apply runGoroutines_invariant P _ _ f w hf
  intro g hg
  exact hP g ((pickOrder_perm _ gs).subset hg)

/-! ## The scan -/

theorem stopsAtFailure_append (tr1 tr2 : List Event)
    (h1 : ∀ ev ∈ tr1, ev.hasFailedRead = false) (h2 : stopsAtFailure tr2) :
    stopsAtFailure (tr1 ++ tr2) := by
  induction tr1 with
  | nil => exact h2
  | cons ev tr1 ih =>
    refine ⟨?_, ih fun ev' h' => h1 ev' (List.mem_cons_of_mem _ h')⟩
    intro hf
    rw [h1 ev (List.mem_cons_self _ _)] at hf
    cases hf

theorem stopsAtFailure_split (pre post : List Event) (ev : Event)
    (h : stopsAtFailure (pre ++ ev :: post)) (hf : ev.hasFailedRead = true) : post = [] := by
  induction pre with
  | nil => exact h.1 hf
  | cons ev' pre ih => exact ih h.2

theorem createMinipools_trace {σ : Type} (env : Env σ) (addresses : List Address) (w : σ) :
    ∀ ev ∈ (createMinipools env addresses w).trace, ∃ a, ev = Event.newMinipool a := by
  induction addresses generalizing w with
  | nil => simp [createMinipools]
  | cons a rest ih =>
    simp only [createMinipools]
    split
    · simp
    · intro ev hev
      simp only [List.mem_cons] at hev
      rcases hev with rfl | hev
      · exact ⟨a, rfl⟩
      · exact ih _ ev hev

theorem createMinipools_ok {σ : Type} (env : Env σ) (addresses : List Address) (w : σ)
    (minipools : List Minipool) (h : (createMinipools env addresses w).res = .ok minipools) :
    minipools = addresses.map Minipool.mk := by
  induction addresses generalizing w minipools with
  | nil =>
    simp only [createMinipools, Except.ok.injEq] at h
    simp [← h]
  | cons a rest ih =>
    simp only [createMinipools] at h
    split at h
    · cases h
    · rename_i w1 _
      simp only at h
      cases hr : (createMinipools env rest w1).res with
      | error e => rw [hr] at h; cases h
      | ok mps =>
        rw [hr] at h
        simp only [Except.ok.injEq] at h
        rw [← h, ih w1 mps hr]
        rfl

theorem statusGoroutine_length {σ : Type} (env : Env σ) (minipools : List Minipool) (mi n : Nat)
    (f : List StatusDetails) (w : σ) (hf : f.length = n) :
    ((statusGoroutine env minipools mi).body f w).1.2.length = n := by
  simp only [statusGoroutine]
  split
  · exact hf
  · split
    · simpa using hf
    · exact hf

theorem loadStatuses_inv {σ : Type} (env : Env σ) (minipools : List Minipool) (fuel bsi : Nat)
    (statuses : List StatusDetails) (w : σ) :
    (∀ ev ∈ (loadStatuses env minipools fuel bsi statuses w).trace,
        ∃ sp ran, ev = Event.errgroup sp ran) ∧
      stopsAtFailure (loadStatuses env minipools fuel bsi statuses w).trace ∧
      ((loadStatuses env minipools fuel bsi statuses w).trace.any Event.hasFailedRead = true →
        ∃ e, (loadStatuses env minipools fuel bsi statuses w).res = .error e) ∧
      (∀ s, (loadStatuses env minipools fuel bsi statuses w).res = .ok s →
        s.length = statuses.length) := by
  induction fuel generalizing bsi statuses w with
  | zero => simp [loadStatuses, stopsAtFailure]
  | succ fuel ih =>
    simp only [loadStatuses]
    split
    · obtain ⟨ran, htr, -, herr⟩ := errgroupWait_trace env
        ((List.range' bsi
          ((if bsi + MinipoolStatusBatchSize > minipools.length then minipools.length
            else bsi + MinipoolStatusBatchSize) - bsi)).map (statusGoroutine env minipools))
        statuses w
      have hlen := errgroupWait_invariant (fun f => f.length = statuses.length) env
        ((List.range' bsi
          ((if bsi + MinipoolStatusBatchSize > minipools.length then minipools.length
            else bsi + MinipoolStatusBatchSize) - bsi)).map (statusGoroutine env minipools))
        (by
          intro g hg f w' hf
          obtain ⟨mi, -, rfl⟩ := List.mem_map.mp hg
          exact statusGoroutine_length env minipools mi _ f w' hf)
        statuses w rfl
      split
      · rename_i e x heq
        rw [heq] at herr
        simp only [htr]
        refine ⟨?_, ?_, ?_, ?_⟩
        · intro ev hev
          simp only [List.mem_singleton] at hev
          exact ⟨_, _, hev⟩
        · exact ⟨fun _ => rfl, trivial⟩
        · intro _
          exact ⟨e, rfl⟩
        · intro s hs
          cases hs
      · rename_i statuses1 heq
        rw [heq] at herr hlen
        simp only at hlen
        obtain ⟨h1, h2, h3, h4⟩ := ih (bsi + MinipoolStatusBatchSize) statuses1
          (errgroupWait env
            ((List.range' bsi
              ((if bsi + MinipoolStatusBatchSize > minipools.length then minipools.length
                else bsi + MinipoolStatusBatchSize) - bsi)).map (statusGoroutine env minipools))
            statuses w).world
        have hnf : (Event.errgroup
            ((List.range' bsi
              ((if bsi + MinipoolStatusBatchSize > minipools.length then minipools.length
                else bsi + MinipoolStatusBatchSize) - bsi)).map (statusGoroutine env minipools)
              |>.map fun g => g.read) ran).hasFailedRead = false := by
          simp only [Event.hasFailedRead]
          rw [← herr]
          rfl
        simp only [Out.after_trace, Out.after_res, htr]
        refine ⟨?_, ?_, ?_, ?_⟩
        · intro ev hev
          simp only [List.singleton_append, List.mem_cons] at hev
          rcases hev with rfl | hev
          · exact ⟨_, _, rfl⟩
          · exact h1 ev hev
        · apply stopsAtFailure_append _ _ _ h2
          intro ev hev
          simp only [List.mem_singleton] at hev
          rw [hev]
          exact hnf
        · intro hany
          simp only [List.singleton_append, List.any_cons, hnf, Bool.false_or] at hany
          exact h3 hany
        · intro s hs
          rw [h4 s hs, hlen]
    · simp [stopsAtFailure]

/-- The loop of `loadStatuses` ends within `fuel` iterations when `20 * fuel` indices cover
what is left of the slice: more fuel changes nothing. -/
theorem loadStatuses_fuel {σ : Type} (env : Env σ) (minipools : List Minipool)
    (fuel extra bsi : Nat) (statuses : List StatusDetails) (w : σ)
    (h : minipools.length ≤ bsi + MinipoolStatusBatchSize * fuel) :
    loadStatuses env minipools (fuel + extra) bsi statuses w =
      loadStatuses env minipools fuel bsi statuses w := by
  induction fuel generalizing bsi statuses w with
  | zero =>
    simp only [Nat.mul_zero, Nat.add_zero] at h
    cases extra with
    | zero => rfl
    | succ extra =>
      rw [Nat.zero_add]
      simp only [loadStatuses]
      rw [if_neg (by omega)]
  | succ fuel ih =>
    rw [Nat.add_right_comm]
    simp only [loadStatuses]
    split
    · split
      · rfl
      · rw [ih]
        simp only [MinipoolStatusBatchSize] at h ⊢
        omega
    · rfl

/-- After the first fan-out returned no error the header has been assigned: the filter never
dereferences a nil header. -/
theorem scan_header_assigned {σ : Type} (env : Env σ) (w : σ) (v : ScanVars)
    (h : (errgroupWait env (scanGoroutines env) (⟨[], 0, none⟩ : ScanVars) w).res = (none, v)) :
    v.latestEth1Block.isSome = true := by
  have hmain := runGoroutines_establishes (fun v : ScanVars => v.latestEth1Block.isSome = true)
    (pickOrder (env.schedule w) (scanGoroutines env))
    ⟨Read.headerByNumber, fun v w =>
      match env.headerByNumber w with
      | (.ok h, w1) => ((none, { v with latestEth1Block := some h }), w1)
      | (.error e, w1) => ((some e, v), w1)⟩
    ((pickOrder_perm _ _).mem_iff.mpr (by simp [scanGoroutines]))
    (by
      intro f w hnone
      simp only at hnone ⊢
      split at hnone
      · rfl
      · cases hnone)
    (by
      intro g hg f w hf
      have hg2 := (pickOrder_perm _ _).mem_iff.mp hg
      simp only [scanGoroutines, List.mem_cons, List.mem_singleton, List.not_mem_nil,
        or_false] at hg2
      rcases hg2 with rfl | rfl | rfl
      · simp only
        split <;> exact hf
      · simp only
        split <;> exact hf
      · simp only
        split
        · rfl
        · exact hf)
    (⟨[], 0, none⟩ : ScanVars) w (by
      have := congrArg Prod.fst h
      exact this)
  have h2 := congrArg Prod.snd h
  simp only [errgroupWait] at h2
  rw [← h2]
  exact hmain

theorem scanMinipools_inv {σ : Type} (env : Env σ) (w : σ) :
    (∀ ev ∈ (scanMinipools env w).trace, ev.isScan = true) ∧
      stopsAtFailure (scanMinipools env w).trace ∧
      ((scanMinipools env w).trace.any Event.hasFailedRead = true →
        ∃ e, (scanMinipools env w).res = .error e) ∧
      (∀ sc, (scanMinipools env w).res = .ok sc →
        sc.minipools = sc.addresses.map Minipool.mk ∧ sc.statuses.length = sc.minipools.length) := by
  obtain ⟨ran, htr, -, herr⟩ := errgroupWait_trace env (scanGoroutines env) (⟨[], 0, none⟩ : ScanVars) w
  simp only [scanMinipools]
  split
  · rename_i e x heq
    simp only [htr]
    refine ⟨?_, ⟨fun _ => rfl, trivial⟩, fun _ => ⟨e, rfl⟩, ?_⟩
    · intro ev hev
      simp only [List.mem_singleton] at hev
      rw [hev]; rfl
    · intro sc hsc
      cases hsc
  · rename_i v heq
    rw [heq] at herr
    have hnf : ∀ ev ∈ (errgroupWait env (scanGoroutines env) (⟨[], 0, none⟩ : ScanVars) w).trace,
        ev.hasFailedRead = false ∧ ev.isScan = true := by
      intro ev hev
      rw [htr] at hev
      simp only [List.mem_singleton] at hev
      rw [hev]
      refine ⟨?_, rfl⟩
      simp only [Event.hasFailedRead]
      rw [← herr]; rfl
    have hnm := createMinipools_trace env v.addresses
      (errgroupWait env (scanGoroutines env) (⟨[], 0, none⟩ : ScanVars) w).world
    have hnf2 : ∀ ev ∈ (createMinipools env v.addresses
        (errgroupWait env (scanGoroutines env) (⟨[], 0, none⟩ : ScanVars) w).world).trace,
        ev.hasFailedRead = false ∧ ev.isScan = true := by
      intro ev hev
      obtain ⟨a, rfl⟩ := hnm ev hev
      exact ⟨rfl, rfl⟩
    have hnf12 : ∀ ev ∈ (errgroupWait env (scanGoroutines env) (⟨[], 0, none⟩ : ScanVars) w).trace ++
        (createMinipools env v.addresses
          (errgroupWait env (scanGoroutines env) (⟨[], 0, none⟩ : ScanVars) w).world).trace,
        ev.hasFailedRead = false ∧ ev.isScan = true := by
      intro ev hev
      rcases List.mem_append.mp hev with h | h
      · exact hnf ev h
      · exact hnf2 ev h
    split
    · rename_i e heq2
      refine ⟨fun ev hev => (hnf12 ev hev).2, ?_, ?_, ?_⟩
      · have := stopsAtFailure_append _ [] (fun ev hev => (hnf12 ev hev).1) trivial
        simpa using this
      · intro _
        exact ⟨e, rfl⟩
      · intro sc hsc
        cases hsc
    · rename_i minipools heq2
      obtain ⟨h1, h2, h3, h4⟩ := loadStatuses_inv env minipools minipools.length 0
        (List.replicate minipools.length StatusDetails.zero)
        (createMinipools env v.addresses
          (errgroupWait env (scanGoroutines env) (⟨[], 0, none⟩ : ScanVars) w).world).world
      have hscan3 : ∀ ev ∈ (loadStatuses env minipools minipools.length 0
          (List.replicate minipools.length StatusDetails.zero)
          (createMinipools env v.addresses
            (errgroupWait env (scanGoroutines env) (⟨[], 0, none⟩ : ScanVars) w).world).world).trace,
          ev.isScan = true := by
        intro ev hev
        obtain ⟨sp, ran', rfl⟩ := h1 ev hev
        rfl
      have hall : ∀ ev ∈ (errgroupWait env (scanGoroutines env) (⟨[], 0, none⟩ : ScanVars) w).trace ++
          (createMinipools env v.addresses
            (errgroupWait env (scanGoroutines env) (⟨[], 0, none⟩ : ScanVars) w).world).trace ++
          (loadStatuses env minipools minipools.length 0
            (List.replicate minipools.length StatusDetails.zero)
            (createMinipools env v.addresses
              (errgroupWait env (scanGoroutines env) (⟨[], 0, none⟩ : ScanVars) w).world).world).trace,
          ev.isScan = true := by
        intro ev hev
        rcases List.mem_append.mp hev with h | h
        · exact (hnf12 ev h).2
        · exact hscan3 ev h
      have hstop := stopsAtFailure_append _ _ (fun ev hev => (hnf12 ev hev).1) h2
      have hany : ((errgroupWait env (scanGoroutines env) (⟨[], 0, none⟩ : ScanVars) w).trace ++
          (createMinipools env v.addresses
            (errgroupWait env (scanGoroutines env) (⟨[], 0, none⟩ : ScanVars) w).world).trace ++
          (loadStatuses env minipools minipools.length 0
            (List.replicate minipools.length StatusDetails.zero)
            (createMinipools env v.addresses
              (errgroupWait env (scanGoroutines env) (⟨[], 0, none⟩ : ScanVars) w).world).world).trace).any
            Event.hasFailedRead = true →
          ∃ e, (loadStatuses env minipools minipools.length 0
            (List.replicate minipools.length StatusDetails.zero)
            (createMinipools env v.addresses
              (errgroupWait env (scanGoroutines env) (⟨[], 0, none⟩ : ScanVars) w).world).world).res =
            .error e := by
        intro h
        apply h3
        rw [List.any_append] at h
        rcases Bool.or_eq_true _ _ |>.mp h with h | h
        · obtain ⟨ev, hev, hf⟩ := List.any_eq_true.mp h
          rw [(hnf12 ev hev).1] at hf
          cases hf
        · exact h
      split
      · rename_i e heq3
        exact ⟨hall, hstop, fun _ => ⟨e, rfl⟩, fun sc hsc => by cases hsc⟩
      · rename_i statuses heq3
        split
        · refine ⟨hall, hstop, fun _ => ⟨_, rfl⟩, fun sc hsc => by cases hsc⟩
        · rename_i header heq4
          refine ⟨hall, hstop, ?_, ?_⟩
          · intro h
            obtain ⟨e, he⟩ := hany h
            rw [heq3] at he
            cases he
          · intro sc hsc
            simp only [Except.ok.injEq] at hsc
            subst hsc
            simp only
            refine ⟨createMinipools_ok env _ _ _ heq2, ?_⟩
            rw [h4 statuses heq3]
            simp

theorem getTimedOutMinipools_trace {σ : Type} (env : Env σ) (w : σ) :
    (getTimedOutMinipools env w).trace = (scanMinipools env w).trace := by
  simp only [getTimedOutMinipools]
  split <;> rfl

theorem getTimedOutMinipools_error {σ : Type} (env : Env σ) (w : σ) (e : Err)
    (h : (scanMinipools env w).res = .error e) :
    (getTimedOutMinipools env w).res = ([], some e) := by
  simp only [getTimedOutMinipools]
  split
  · rename_i e' heq
    rw [h] at heq
    cases heq
    rfl
  · rename_i sc heq
    rw [h] at heq
    cases heq

theorem getTimedOutMinipools_ok {σ : Type} (env : Env σ) (w : σ) (sc : Scan)
    (h : (scanMinipools env w).res = .ok sc) :
    (getTimedOutMinipools env w).res =
      (filterByStatus sc.minipools sc.statuses sc.latestEth1Block sc.launchTimeout, none) ∧
    (getTimedOutMinipools env w).world = (scanMinipools env w).world := by
  simp only [getTimedOutMinipools]
  split
  · rename_i e' heq
    rw [h] at heq
    cases heq
  · rename_i sc' heq
    rw [h] at heq
    cases heq
    exact ⟨rfl, rfl⟩

/-! ## The batches -/

theorem spawnedBatches_append (tr1 tr2 : List Event) :
    spawnedBatches (tr1 ++ tr2) = spawnedBatches tr1 ++ spawnedBatches tr2 := by
  simp [spawnedBatches, List.filterMap_append]

theorem statusGoroutines_reads {σ : Type} (env : Env σ) (minipools : List Minipool) (s m : Nat) :
    ((List.range' s m).map (statusGoroutine env minipools)).map (fun g => g.read) =
      (List.range' s m).map Read.getStatusDetails := by
  rw [List.map_map]
  rfl

theorem loadStatuses_batches_from {σ : Type} (env : Env σ) (minipools : List Minipool)
    (fuel j : Nat) (statuses : List StatusDetails) (w : σ)
    (hfuel : (minipools.length + 19) / 20 ≤ fuel + j) :
    (∃ m, m ≤ (minipools.length + 19) / 20 - j ∧
        spawnedBatches (loadStatuses env minipools fuel (MinipoolStatusBatchSize * j) statuses w).trace =
          (List.range' j m).map (specBatch minipools.length)) ∧
      ((loadStatuses env minipools fuel (MinipoolStatusBatchSize * j) statuses w).res.isOk = true →
        spawnedBatches (loadStatuses env minipools fuel (MinipoolStatusBatchSize * j) statuses w).trace =
          (List.range' j ((minipools.length + 19) / 20 - j)).map (specBatch minipools.length)) := by
  induction fuel generalizing j statuses w with
  | zero =>
    have h0 : (minipools.length + 19) / 20 - j = 0 := by omega
    simp only [loadStatuses, h0]
    exact ⟨⟨0, Nat.le_refl _, rfl⟩, fun _ => rfl⟩
  | succ fuel ih =>
    simp only [loadStatuses]
    split
    · rename_i hlt
      simp only [MinipoolStatusBatchSize] at hlt
      obtain ⟨ran, htr, -, -⟩ := errgroupWait_trace env
        ((List.range' (MinipoolStatusBatchSize * j)
          ((if MinipoolStatusBatchSize * j + MinipoolStatusBatchSize > minipools.length
            then minipools.length
            else MinipoolStatusBatchSize * j + MinipoolStatusBatchSize) -
              MinipoolStatusBatchSize * j)).map (statusGoroutine env minipools))
        statuses w
      have hsize : (if MinipoolStatusBatchSize * j + MinipoolStatusBatchSize > minipools.length
            then minipools.length
            else MinipoolStatusBatchSize * j + MinipoolStatusBatchSize) -
              MinipoolStatusBatchSize * j = min 20 (minipools.length - 20 * j) := by
        simp only [MinipoolStatusBatchSize]
        split <;> omega
      have htr2 : (errgroupWait env
          ((List.range' (MinipoolStatusBatchSize * j)
            ((if MinipoolStatusBatchSize * j + MinipoolStatusBatchSize > minipools.length
              then minipools.length
              else MinipoolStatusBatchSize * j + MinipoolStatusBatchSize) -
                MinipoolStatusBatchSize * j)).map (statusGoroutine env minipools))
          statuses w).trace = [Event.errgroup (specBatch minipools.length j) ran] := by
        rw [htr, statusGoroutines_reads, hsize]
        rfl
      have hbatch : spawnedBatches [Event.errgroup (specBatch minipools.length j) ran] =
          [specBatch minipools.length j] := rfl
      split
      · rename_i e x heq
        simp only [htr2, hbatch]
        refine ⟨⟨1, by omega, rfl⟩, ?_⟩
        intro h
        cases h
      · rename_i statuses1 heq
        have hstep : MinipoolStatusBatchSize * j + MinipoolStatusBatchSize =
            MinipoolStatusBatchSize * (j + 1) := by
          simp only [MinipoolStatusBatchSize]; omega
        obtain ⟨⟨m, hm, hpre⟩, hall⟩ := ih (j + 1) statuses1
          (errgroupWait env
            ((List.range' (MinipoolStatusBatchSize * j)
              ((if MinipoolStatusBatchSize * j + MinipoolStatusBatchSize > minipools.length
                then minipools.length
                else MinipoolStatusBatchSize * j + MinipoolStatusBatchSize) -
                  MinipoolStatusBatchSize * j)).map (statusGoroutine env minipools))
            statuses w).world (by omega)
        rw [← hstep] at hpre hall
        simp only [Out.after_trace, Out.after_res, htr2, spawnedBatches_append, hbatch]
        refine ⟨⟨m + 1, by omega, ?_⟩, ?_⟩
        · rw [hpre, List.range'_succ]
          rfl
        · intro hok
          rw [hall hok]
          have hc : (minipools.length + 19) / 20 - j = ((minipools.length + 19) / 20 - (j + 1)) + 1 := by
            omega
          rw [hc, List.range'_succ]
          rfl
    · rename_i hge
      simp only [MinipoolStatusBatchSize] at hge
      have h0 : (minipools.length + 19) / 20 - j = 0 := by omega
      rw [h0]
      exact ⟨⟨0, Nat.le_refl _, rfl⟩, fun _ => rfl⟩

theorem specBatch_flatten (n m j : Nat) :
    ((List.range' j m).map (specBatch n)).flatten =
      (List.range' (20 * j) (min n (20 * (j + m)) - 20 * j)).map Read.getStatusDetails := by
  induction m generalizing j with
  | zero =>
    have h0 : min n (20 * (j + 0)) - 20 * j = 0 := by omega
    simp [h0]
  | succ m ih =>
    rw [List.range'_succ, List.map_cons, List.flatten_cons, ih (j + 1), specBatch, ← List.map_append]
    congr 1
    by_cases h : 20 ≤ n - 20 * j
    · have e1 : min 20 (n - 20 * j) = 20 := by omega
      have e2 : 20 * (j + 1) = 20 * j + 20 := by omega
      rw [e1, e2, List.range'_append_1]
      congr 1
      omega
    · have e1 : min n (20 * (j + 1 + m)) - 20 * (j + 1) = 0 := by omega
      rw [e1, List.range'_zero, List.append_nil]
      congr 1
      omega

theorem createMinipools_ok_trace {σ : Type} (env : Env σ) (addresses : List Address) (w : σ)
    (minipools : List Minipool) (h : (createMinipools env addresses w).res = .ok minipools) :
    (createMinipools env addresses w).trace = addresses.map Event.newMinipool := by
  induction addresses generalizing w minipools with
  | nil => rfl
  | cons a rest ih =>
    simp only [createMinipools] at h ⊢
    split at h
    · cases h
    · rename_i w1 heq
      simp only at h ⊢
      cases hr : (createMinipools env rest w1).res with
      | error e => rw [hr] at h; cases h
      | ok mps => rw [ih w1 mps hr]; rfl

theorem scanMinipools_ok {σ : Type} (env : Env σ) (w : σ) (sc : Scan)
    (h : (scanMinipools env w).res = .ok sc) :
    ∃ ran w2, (scanMinipools env w).trace =
        Event.errgroup [Read.getMinipoolAddresses, Read.getMinipoolLaunchTimeout, Read.headerByNumber] ran ::
          (sc.addresses.map Event.newMinipool ++
            (loadStatuses env sc.minipools sc.minipools.length 0
              (List.replicate sc.minipools.length StatusDetails.zero) w2).trace) ∧
      (loadStatuses env sc.minipools sc.minipools.length 0
        (List.replicate sc.minipools.length StatusDetails.zero) w2).res = .ok sc.statuses := by
  obtain ⟨ran, htr, -, -⟩ := errgroupWait_trace env (scanGoroutines env) (⟨[], 0, none⟩ : ScanVars) w
  have hreads : (scanGoroutines env).map (fun g => g.read) =
      [Read.getMinipoolAddresses, Read.getMinipoolLaunchTimeout, Read.headerByNumber] := rfl
  rw [hreads] at htr
  simp only [scanMinipools] at h ⊢
  split at h
  · cases h
  · rename_i v heq
    split at h
    · cases h
    · rename_i minipools heq2
      split at h
      · cases h
      · rename_i statuses heq3
        split at h
        · cases h
        · rename_i header heq4
          simp only [Except.ok.injEq] at h
          subst h
          refine ⟨ran, _, ?_, heq3⟩
          simp only [htr, createMinipools_ok_trace env _ _ _ heq2, List.singleton_append,
            List.cons_append, List.nil_append, List.append_assoc]

/-! ## The pipelines -/

theorem pipelineStarts_append (tr1 tr2 : List Event) :
    pipelineStarts (tr1 ++ tr2) = pipelineStarts tr1 ++ pipelineStarts tr2 := by
  simp [pipelineStarts, List.filterMap_append]

theorem submissions_append (tr1 tr2 : List Event) :
    submissions (tr1 ++ tr2) = submissions tr1 ++ submissions tr2 := by
  simp [submissions, List.filterMap_append]

theorem pipelineStarts_of_isScan (tr : List Event) (h : ∀ ev ∈ tr, ev.isScan = true) :
    pipelineStarts tr = [] := by
  induction tr with
  | nil => rfl
  | cons ev tr ih =>
    have hev := h ev (List.mem_cons_self _ _)
    have := ih fun ev' h' => h ev' (List.mem_cons_of_mem _ h')
    cases ev <;> simp_all [pipelineStarts, Event.isScan]

theorem submissions_of_isScan (tr : List Event) (h : ∀ ev ∈ tr, ev.isScan = true) :
    submissions tr = [] := by
  induction tr with
  | nil => rfl
  | cons ev tr ih =>
    have hev := h ev (List.mem_cons_self _ _)
    have := ih fun ev' h' => h ev' (List.mem_cons_of_mem _ h')
    cases ev <;> simp_all [submissions, Event.isScan]

theorem isSubmitter_of_isScan (tr : List Event) (h : ∀ ev ∈ tr, ev.isScan = true) :
    ∀ ev ∈ tr, ev.isSubmitter = false := by
  intro ev hev
  have := h ev hev
  cases ev <;> simp_all [Event.isSubmitter, Event.isScan]

theorem resolveMaxFee_trace {σ : Type} (env : Env σ) (t : Task) (w : σ) :
    (resolveMaxFee env t w).trace = [] ∨
      (resolveMaxFee env t w).trace = [Event.getHeadlessMaxFeeWei] := by
  simp only [resolveMaxFee, headlessMaxFee]
  split
  · split <;> simp
  · split
    · split <;> simp
    · simp

theorem resolveMaxFee_starts {σ : Type} (env : Env σ) (t : Task) (w : σ) :
    pipelineStarts (resolveMaxFee env t w).trace = [] ∧
      submissions (resolveMaxFee env t w).trace = [] := by
  rcases resolveMaxFee_trace env t w with h | h <;> rw [h] <;> exact ⟨rfl, rfl⟩

theorem pipelineStarts_cons (ev : Event) (tr : List Event) :
    pipelineStarts (ev :: tr) =
      (match ev with
        | Event.log (LogLine.dissolving addr) => [(⟨addr⟩ : Minipool)]
        | _ => []) ++ pipelineStarts tr := by
  cases ev with
  | log line => cases line <;> simp [pipelineStarts]
  | _ => simp [pipelineStarts]

theorem submissions_cons (ev : Event) (tr : List Event) :
    submissions (ev :: tr) =
      (match ev with
        | Event.dissolve _ opts => [opts]
        | Event.decideChallenge _ opts => [opts]
        | _ => []) ++ submissions tr := by
  cases ev <;> simp [submissions]

theorem dissolveMinipool_starts {σ : Type} (env : Env σ) (t : Task) (mp : Minipool) (w : σ) :
    pipelineStarts (dissolveMinipool env t mp w).trace = [mp] := by
  have h := fun w => (resolveMaxFee_starts env t w).1
  simp only [dissolveMinipool]
  repeat' split
  all_goals
    simp only [Out.after_trace, pipelineStarts_append, pipelineStarts_cons, h, List.append_nil,
      List.nil_append]
    rfl

theorem dissolveMinipool_tipCap {σ : Type} (env : Env σ) (t : Task) (mp : Minipool) (w : σ) :
    ∀ opts ∈ submissions (dissolveMinipool env t mp w).trace, opts.gasTipCap = t.maxPriorityFee := by
  have h := fun w => (resolveMaxFee_starts env t w).2
  simp only [dissolveMinipool]
  repeat' split
  all_goals
    simp only [Out.after_trace, submissions_append, submissions_cons, h, List.append_nil,
      List.nil_append]
    simp [submissions]

theorem dissolveMinipools_starts {σ : Type} (env : Env σ) (t : Task) (minipools : List Minipool)
    (w : σ) : pipelineStarts (dissolveMinipools env t minipools w).trace = minipools := by
  induction minipools generalizing w with
  | nil => rfl
  | cons mp rest ih =>
    simp only [dissolveMinipools, Out.after_trace, pipelineStarts_append, ih,
      dissolveMinipool_starts]
    split <;> simp [pipelineStarts]

theorem dissolveMinipools_tipCap {σ : Type} (env : Env σ) (t : Task) (minipools : List Minipool)
    (w : σ) :
    ∀ opts ∈ submissions (dissolveMinipools env t minipools w).trace,
      opts.gasTipCap = t.maxPriorityFee := by
  induction minipools generalizing w with
  | nil => simp [dissolveMinipools, submissions]
  | cons mp rest ih =>
    intro opts hopts
    simp only [dissolveMinipools, Out.after_trace, submissions_append, List.mem_append] at hopts
    rcases hopts with (h | h) | h
    · exact dissolveMinipool_tipCap env t mp w opts h
    · split at h <;> simp [submissions] at h
    · exact ih _ opts h

theorem resolveMaxFee_count {σ : Type} (env : Env σ) (t : Task) (w : σ) :
    (resolveMaxFee env t w).trace.count Event.getNodeAccountTransactor = 0 := by
  rcases resolveMaxFee_trace env t w with h | h <;> rw [h] <;> rfl

theorem dissolveRun_tipCap {σ : Type} (env : Env σ) (t : Task) (w : σ) :
    ∀ opts ∈ submissions (dissolveTimedOutMinipools.run env t w).trace,
      opts.gasTipCap = t.maxPriorityFee := by
  intro opts hopts
  simp only [dissolveTimedOutMinipools.run] at hopts
  split at hopts
  · simp [submissions] at hopts
  · split at hopts
    · simp [submissions] at hopts
    · split at hopts
      · simp [submissions] at hopts
      · simp [submissions] at hopts
      · rename_i w3 _
        obtain ⟨hisScan, -, -, -⟩ := scanMinipools_inv env w3
        have hs := submissions_of_isScan _ hisScan
        rw [← getTimedOutMinipools_trace] at hs
        simp only [Out.after_trace, submissions_append, submissions_cons, hs, List.nil_append,
          List.append_nil] at hopts
        split at hopts
        · simp [submissions] at hopts
        · split at hopts
          · simp [submissions] at hopts
          · simp only [submissions_cons, List.nil_append] at hopts
            exact dissolveMinipools_tipCap env t _ _ opts hopts

theorem respondRun_tipCap {σ : Type} (env : Env σ) (t : Task) (w : σ) :
    ∀ opts ∈ submissions (respondChallenges.run env t w).trace,
      opts.gasTipCap = t.maxPriorityFee := by
  have h := fun w => (resolveMaxFee_starts env t w).2
  simp only [respondChallenges.run]
  repeat' split
  all_goals
    simp only [Out.after_trace, submissions_append, submissions_cons, h, List.append_nil,
      List.nil_append]
    simp [submissions]

/-! ## Task construction -/

/-- The priority fee a constructor stores for a configured one. -/
theorem newDissolveTimedOutMinipools_priorityFee (sv : Services) (t : Task)
    (h : (newDissolveTimedOutMinipools sv).1 = .ok t) :
    ∃ cfg configured, sv.getConfig = .ok cfg ∧ cfg.getMaxPriorityFee = .ok configured ∧
      t.maxPriorityFee =
        (match configured with
          | none => some 2
          | some v => if bigUint64 v = 0 then some 2 else some v) := by
  cases hc : sv.getConfig with
  | error e => simp [newDissolveTimedOutMinipools, hc] at h
  | ok cfg =>
    cases hw : sv.getWallet with
    | some e => simp [newDissolveTimedOutMinipools, hc, hw] at h
    | none =>
      cases he : sv.getEthClient with
      | some e => simp [newDissolveTimedOutMinipools, hc, hw, he] at h
      | none =>
        cases hr : sv.getRocketPool with
        | some e => simp [newDissolveTimedOutMinipools, hc, hw, he, hr] at h
        | none =>
          cases hf : cfg.getMaxFee with
          | error e => simp [newDissolveTimedOutMinipools, hc, hw, he, hr, hf] at h
          | ok maxFee =>
            cases hp : cfg.getMaxPriorityFee with
            | error e => simp [newDissolveTimedOutMinipools, hc, hw, he, hr, hf, hp] at h
            | ok configured =>
              cases hg : cfg.getGasLimit with
              | error e => simp [newDissolveTimedOutMinipools, hc, hw, he, hr, hf, hp, hg] at h
              | ok gasLimit =>
                simp only [newDissolveTimedOutMinipools, hc, hw, he, hr, hf, hp, hg,
                  Except.ok.injEq] at h
                refine ⟨cfg, configured, rfl, hp, ?_⟩
                rw [← h]
                cases configured with
                | none => rfl
                | some v => by_cases hv : bigUint64 v = 0 <;> simp [hv]

theorem newRespondChallenges_priorityFee (sv : Services) (t : Task)
    (h : (newRespondChallenges sv).1 = .ok t) :
    ∃ cfg configured, sv.getConfig = .ok cfg ∧ cfg.getMaxPriorityFee = .ok configured ∧
      t.maxPriorityFee =
        (match configured with
          | none => some 2
          | some v => if bigUint64 v = 0 then some 2 else some v) := by
  cases hc : sv.getConfig with
  | error e => simp [newRespondChallenges, hc] at h
  | ok cfg =>
    cases hw : sv.getWallet with
    | some e => simp [newRespondChallenges, hc, hw] at h
    | none =>
      cases hr : sv.getRocketPool with
      | some e => simp [newRespondChallenges, hc, hw, hr] at h
      | none =>
        cases hf : cfg.getMaxFee with
        | error e => simp [newRespondChallenges, hc, hw, hr, hf] at h
        | ok maxFee =>
          cases hp : cfg.getMaxPriorityFee with
          | error e => simp [newRespondChallenges, hc, hw, hr, hf, hp] at h
          | ok configured =>
            cases hg : cfg.getGasLimit with
            | error e => simp [newRespondChallenges, hc, hw, hr, hf, hp, hg] at h
            | ok gasLimit =>
              simp only [newRespondChallenges, hc, hw, hr, hf, hp, hg, Except.ok.injEq] at h
              refine ⟨cfg, configured, rfl, hp, ?_⟩
              rw [← h]
              cases configured with
              | none => rfl
              | some v => by_cases hv : bigUint64 v = 0 <;> simp [hv]

theorem resolved_priorityFee_ne_zero (configured resolved : Option Int)
    (h : resolved =
      (match configured with
        | none => some 2
        | some v => if bigUint64 v = 0 then some 2 else some v)) :
    ∃ v, resolved = some v ∧ v ≠ 0 := by
  cases configured with
  | none => exact ⟨2, h, by decide⟩
  | some v =>
    by_cases hv : bigUint64 v = 0
    · exact ⟨2, by simp [h, hv], by decide⟩
    · refine ⟨v, by simp [h, hv], ?_⟩
      rintro rfl
      exact hv rfl

/-! ## C1: the condition of the filter -/

/-- C1, as stated, fails: with a block header whose timestamp is 2^63 seconds, a prelaunch
minipool whose status changed at the Unix epoch and a launch timeout of zero, the exact
difference (2^63 seconds) is at least the timeout, yet `getTimedOutMinipools` does not return
the minipool: `int64(latestEth1Block.Time)` is negative. -/
theorem filterByStatus_block_time_wraps :
    ¬ ((⟨1⟩ : Minipool) ∈ filterByStatus [⟨1⟩] [⟨MinipoolStatus.Prelaunch, 0, timeUnix 0⟩] ⟨2 ^ 63⟩ 0 ↔
        specTimedOut ⟨2 ^ 63⟩ 0 ⟨MinipoolStatus.Prelaunch, 0, timeUnix 0⟩) := by
  have hl : filterByStatus [⟨1⟩] [⟨MinipoolStatus.Prelaunch, 0, timeUnix 0⟩] ⟨2 ^ 63⟩ 0 = [] := by
    decide
  have hr : specTimedOut ⟨2 ^ 63⟩ 0 ⟨MinipoolStatus.Prelaunch, 0, timeUnix 0⟩ := by
    refine ⟨rfl, ?_⟩
    decide
  rw [hl]
  intro h
  exact (List.not_mem_nil _) (h.mpr hr)

/-- The same failure below 2^63: a timestamp of 2^63 - 1 seconds is a valid `int64`, but
`time.Unix` adds `unixToInternal` to it in `int64`. -/
theorem filterByStatus_unix_offset_wraps :
    filterByStatus [⟨1⟩] [⟨MinipoolStatus.Prelaunch, 0, timeUnix 0⟩] ⟨2 ^ 63 - 1⟩ 0 = [] ∧
      specTimedOut ⟨2 ^ 63 - 1⟩ 0 ⟨MinipoolStatus.Prelaunch, 0, timeUnix 0⟩ := by
  refine ⟨by decide, rfl, by decide⟩

/-- With the smallest duration as launch timeout the saturated difference of `Sub` meets the
timeout although the exact difference is below it. -/
theorem filterByStatus_min_timeout_saturates :
    filterByStatus [⟨1⟩] [⟨MinipoolStatus.Prelaunch, 0, timeUnix (10 ^ 10)⟩] ⟨0⟩ minDuration = [⟨1⟩] ∧
      ¬ specTimedOut ⟨0⟩ minDuration ⟨MinipoolStatus.Prelaunch, 0, timeUnix (10 ^ 10)⟩ := by
  refine ⟨by decide, ?_⟩
  rintro ⟨_, h⟩
  revert h
  decide

/-- C1, amended: when the header's timestamp plus `unixToInternal` is below 2^63 seconds and
the launch timeout is a duration above the smallest one, a minipool is in the list returned by
`getTimedOutMinipools` if and only if it stands at an index whose status equals Prelaunch and
whose exact (latestBlockTime - statusChangeTime) is at least the launch timeout, latestBlockTime
being the timestamp of the scanned header. -/
theorem filterByStatus_mem_iff_spec (minipools : List Minipool) (statuses : List StatusDetails)
    (hdr : Header) (L : Int) (mp : Minipool)
    (hT : (hdr.time : Int) + unixToInternal < 2 ^ 63)
    (hL1 : minDuration < L) (hL2 : L ≤ maxDuration) :
    mp ∈ filterByStatus minipools statuses hdr L ↔
      ∃ (i : Nat) (h1 : i < minipools.length) (h2 : i < statuses.length),
        minipools[i] = mp ∧ specTimedOut hdr L statuses[i] := by
  rw [mem_filterByStatus]
  constructor
  · rintro ⟨i, h1, h2, hmp, hc⟩
    exact ⟨i, h1, h2, hmp, (isTimedOut_iff_spec hdr L _ hT hL1 hL2).mp hc⟩
  · rintro ⟨i, h1, h2, hmp, hc⟩
    exact ⟨i, h1, h2, hmp, (isTimedOut_iff_spec hdr L _ hT hL1 hL2).mpr hc⟩

/-- Witness of `filterByStatus_mem_iff_spec`: block time 10000 s, one hour of timeout. -/
theorem filterByStatus_mem_iff_spec_witness :
    ((10000 : Nat) : Int) + unixToInternal < 2 ^ 63 ∧ minDuration < 3600 * 10 ^ 9 ∧
      (3600 * 10 ^ 9 : Int) ≤ maxDuration ∧
      ((⟨5⟩ : Minipool) ∈ filterByStatus [⟨4⟩, ⟨5⟩]
          [⟨MinipoolStatus.Staking, 0, timeUnix 100⟩, ⟨MinipoolStatus.Prelaunch, 0, timeUnix 100⟩]
          ⟨10000⟩ (3600 * 10 ^ 9) ↔
        ∃ (i : Nat) (h1 : i < [(⟨4⟩ : Minipool), ⟨5⟩].length)
          (h2 : i < [(⟨MinipoolStatus.Staking, 0, timeUnix 100⟩ : StatusDetails),
            ⟨MinipoolStatus.Prelaunch, 0, timeUnix 100⟩].length),
          [(⟨4⟩ : Minipool), ⟨5⟩][i] = ⟨5⟩ ∧
            specTimedOut ⟨10000⟩ (3600 * 10 ^ 9)
              [(⟨MinipoolStatus.Staking, 0, timeUnix 100⟩ : StatusDetails),
                ⟨MinipoolStatus.Prelaunch, 0, timeUnix 100⟩][i]) :=
  ⟨by decide, by decide, by decide,
    filterByStatus_mem_iff_spec _ _ ⟨10000⟩ (3600 * 10 ^ 9) ⟨5⟩ (by decide) (by decide) (by decide)⟩

/-! ## What a scan read -/

/-- A property that one goroutine establishes when it succeeds and that all keep holds of the
variables a fan-out leaves when it returned no error. -/
theorem errgroupWait_establishes {σ φ : Type} (P : φ → Prop) (env : Env σ)
    (gs : List (Goroutine σ φ)) (g0 : Goroutine σ φ) (hg0 : g0 ∈ gs)
    (hset : ∀ f w, (g0.body f w).1.1 = none → P (g0.body f w).1.2)
    (hkeep : ∀ g ∈ gs, ∀ f w, P f → P (g.body f w).1.2) (f : φ) (w : σ) (x : φ)
    (h : (errgroupWait env gs f w).res = (none, x)) : P x := by
  have h1 : (runGoroutines (pickOrder (env.schedule w) gs) f w).1 = none := congrArg Prod.fst h
  have h2 : (runGoroutines (pickOrder (env.schedule w) gs) f w).2.1 = x := congrArg Prod.snd h
  rw [← h2]
  exact runGoroutines_establishes P _ g0 ((pickOrder_perm _ gs).mem_iff.mpr hg0) hset
    (fun g hg => hkeep g ((pickOrder_perm _ gs).subset hg)) f w h1

/-- After the first fan-out returned no error its variables hold what the three reads
answered. -/
theorem scanVars_answers {σ : Type} (env : Env σ) (w : σ) (v : ScanVars)
    (h : (errgroupWait env (scanGoroutines env) (⟨[], 0, none⟩ : ScanVars) w).res = (none, v)) :
    (∃ w w1, env.getMinipoolAddresses w = (.ok v.addresses, w1)) ∧
      (∃ w w1, env.getMinipoolLaunchTimeout w = (.ok v.launchTimeout, w1)) ∧
      (∀ header, v.latestEth1Block = some header →
        ∃ w w1, env.headerByNumber w = (.ok header, w1)) := by
  refine ⟨?_, ?_, ?_⟩
  · refine errgroupWait_establishes
      (fun v : ScanVars => ∃ w w1, env.getMinipoolAddresses w = (.ok v.addresses, w1)) env
      (scanGoroutines env)
      ⟨Read.getMinipoolAddresses, fun v w =>
        match env.getMinipoolAddresses w with
        | (.ok a, w1) => ((none, { v with addresses := a }), w1)
        | (.error e, w1) => ((some e, v), w1)⟩
      (by simp [scanGoroutines]) ?_ ?_ _ w v h
    · intro f w0 hnone
      simp only at hnone ⊢
      split at hnone
      · rename_i a w1 heq
        exact ⟨w0, w1, heq⟩
      · cases hnone
    · intro g hg f w0 hf
      simp only [scanGoroutines, List.mem_cons, List.mem_singleton, List.not_mem_nil,
        or_false] at hg
      rcases hg with rfl | rfl | rfl
      · simp only
        split
        · rename_i a w1 heq
          exact ⟨w0, w1, heq⟩
        · exact hf
      · simp only
        split <;> exact hf
      · simp only
        split <;> exact hf
  · refine errgroupWait_establishes
      (fun v : ScanVars => ∃ w w1, env.getMinipoolLaunchTimeout w = (.ok v.launchTimeout, w1)) env
      (scanGoroutines env)
      ⟨Read.getMinipoolLaunchTimeout, fun v w =>
        match env.getMinipoolLaunchTimeout w with
        | (.ok d, w1) => ((none, { v with launchTimeout := d }), w1)
        | (.error e, w1) => ((some e, v), w1)⟩
      (by simp [scanGoroutines]) ?_ ?_ _ w v h
    · intro f w0 hnone
      simp only at hnone ⊢
      split at hnone
      · rename_i a w1 heq
        exact ⟨w0, w1, heq⟩
      · cases hnone
    · intro g hg f w0 hf
      simp only [scanGoroutines, List.mem_cons, List.mem_singleton, List.not_mem_nil,
        or_false] at hg
      rcases hg with rfl | rfl | rfl
      · simp only
        split <;> exact hf
      · simp only
        split
        · rename_i a w1 heq
          exact ⟨w0, w1, heq⟩
        · exact hf
      · simp only
        split <;> exact hf
  · have h2 : (errgroupWait env (scanGoroutines env) (⟨[], 0, none⟩ : ScanVars) w).res.2 = v :=
      congrArg Prod.snd h
    rw [← h2]
    refine errgroupWait_invariant
      (fun v : ScanVars => ∀ header, v.latestEth1Block = some header →
        ∃ w w1, env.headerByNumber w = (.ok header, w1)) env (scanGoroutines env) ?_ _ w ?_
    · intro g hg f w0 hf
      simp only [scanGoroutines, List.mem_cons, List.mem_singleton, List.not_mem_nil,
        or_false] at hg
      rcases hg with rfl | rfl | rfl
      · simp only
        split <;> exact hf
      · simp only
        split <;> exact hf
      · simp only
        split
        · rename_i a w1 heq
          intro header hh
          simp only [Option.some.injEq] at hh
          subst hh
          exact ⟨w0, w1, heq⟩
        · exact hf
    · intro header hh
      cases hh

theorem statusGoroutine_keeps {σ : Type} (env : Env σ) (minipools : List Minipool) (mi i : Nat)
    (f : List StatusDetails) (w : σ) (hf : statusAnswered env minipools i f) :
    statusAnswered env minipools i ((statusGoroutine env minipools mi).body f w).1.2 := by
  simp only [statusGoroutine]
  split
  · exact hf
  · rename_i mp hmp
    split
    · rename_i status w1 heq
      simp only
      obtain ⟨mp0, st0, h1, h2, h3⟩ := hf
      by_cases hmi : mi = i
      · subst hmi
        have hlt : mi < f.length := by
          rcases Nat.lt_or_ge mi f.length with h | h
          · exact h
          · rw [List.getElem?_eq_none h] at h2
            cases h2
        refine ⟨mp, status, hmp, ?_, w, w1, heq⟩
        exact List.getElem?_set_self hlt
      · refine ⟨mp0, st0, h1, ?_, h3⟩
        rw [List.getElem?_set_ne hmi]
        exact h2
    · exact hf

theorem statusGoroutine_sets {σ : Type} (env : Env σ) (minipools : List Minipool) (i : Nat)
    (f : List StatusDetails) (w : σ) (hi : i < f.length)
    (hnone : ((statusGoroutine env minipools i).body f w).1.1 = none) :
    statusAnswered env minipools i ((statusGoroutine env minipools i).body f w).1.2 := by
  simp only [statusGoroutine] at hnone ⊢
  split at hnone
  · cases hnone
  · rename_i mp hmp
    split at hnone
    · rename_i status w1 heq
      simp only
      refine ⟨mp, status, hmp, ?_, w, w1, heq⟩
      exact List.getElem?_set_self hi
    · cases hnone

/-- When the loop of `loadStatuses` ends without error, the slice holds at every index an
answer of the status read of the minipool at that index. -/
theorem loadStatuses_answers {σ : Type} (env : Env σ) (minipools : List Minipool)
    (fuel bsi : Nat) (statuses : List StatusDetails) (w : σ) (s : List StatusDetails)
    (hlen : statuses.length = minipools.length)
    (hcover : minipools.length ≤ bsi + MinipoolStatusBatchSize * fuel)
    (hinv : ∀ i, i < bsi → i < minipools.length → statusAnswered env minipools i statuses)
    (h : (loadStatuses env minipools fuel bsi statuses w).res = .ok s) :
    ∀ i, i < minipools.length → statusAnswered env minipools i s := by
  induction fuel generalizing bsi statuses w with
  | zero =>
    simp only [loadStatuses, Except.ok.injEq] at h
    subst h
    intro i hi
    exact hinv i (by simp only [MinipoolStatusBatchSize] at hcover; omega) hi
  | succ fuel ih =>
    simp only [loadStatuses] at h
    split at h
    · rename_i hlt
      split at h
      · cases h
      · rename_i statuses1 heq
        simp only [Out.after_res] at h
        have hx : (errgroupWait env
            ((List.range' bsi
              ((if bsi + MinipoolStatusBatchSize > minipools.length then minipools.length
                else bsi + MinipoolStatusBatchSize) - bsi)).map (statusGoroutine env minipools))
            statuses w).res.2 = statuses1 := congrArg Prod.snd heq
        have hlen1 : statuses1.length = minipools.length := by
          rw [← hx]
          exact errgroupWait_invariant (fun f => f.length = minipools.length) env _
            (by
              intro g hg f w' hf
              obtain ⟨mi, -, rfl⟩ := List.mem_map.mp hg
              exact statusGoroutine_length env minipools mi _ f w' hf)
            statuses w hlen
        refine ih (bsi + MinipoolStatusBatchSize) statuses1 _ hlen1 ?_ ?_ h
        · simp only [MinipoolStatusBatchSize] at hcover ⊢
          omega
        · intro i hi1 hi2
          by_cases hi : i < bsi
          · rw [← hx]
            exact errgroupWait_invariant (fun f => statusAnswered env minipools i f) env _
              (by
                intro g hg f w' hf
                obtain ⟨mi, -, rfl⟩ := List.mem_map.mp hg
                exact statusGoroutine_keeps env minipools mi i f w' hf)
              statuses w (hinv i hi hi2)
          · have hmem : statusGoroutine env minipools i ∈
                (List.range' bsi
                  ((if bsi + MinipoolStatusBatchSize > minipools.length then minipools.length
                    else bsi + MinipoolStatusBatchSize) - bsi)).map
                  (statusGoroutine env minipools) := by
              apply List.mem_map.mpr
              refine ⟨i, ?_, rfl⟩
              apply List.mem_range'_1.mpr
              simp only [MinipoolStatusBatchSize] at hi1 ⊢
              split <;> omega
            have key := errgroupWait_establishes
              (fun f => f.length = minipools.length → statusAnswered env minipools i f) env _
              (statusGoroutine env minipools i) hmem
              (by
                intro f w' hnone hl
                have hsame := statusGoroutine_length env minipools i f.length f w' rfl
                exact statusGoroutine_sets env minipools i f w' (by omega) hnone)
              (by
                intro g hg f w' hf hl
                obtain ⟨mi, -, rfl⟩ := List.mem_map.mp hg
                have hsame := statusGoroutine_length env minipools mi f.length f w' rfl
                exact statusGoroutine_keeps env minipools mi i f w' (hf (by omega)))
              statuses w statuses1 heq
            exact key hlen1
    · simp only [Except.ok.injEq] at h
      subst h
      intro i hi
      exact hinv i (by omega) hi

/-- The record of a successful scan holds what the chain reads answered. -/
theorem scanMinipools_answers {σ : Type} (env : Env σ) (w : σ) (sc : Scan)
    (h : (scanMinipools env w).res = .ok sc) : scanAnswers env sc := by
  obtain ⟨-, -, -, hsc⟩ := scanMinipools_inv env w
  obtain ⟨hmps, hlens⟩ := hsc sc h
  simp only [scanMinipools] at h
  split at h
  · cases h
  · rename_i v heq
    obtain ⟨ha, hl, hh⟩ := scanVars_answers env w v heq
    split at h
    · cases h
    · rename_i minipools heq2
      split at h
      · cases h
      · rename_i statuses heq3
        split at h
        · cases h
        · rename_i header heq4
          simp only [Except.ok.injEq] at h
          subst h
          simp only at hmps hlens
          have hst := loadStatuses_answers env minipools minipools.length 0
            (List.replicate minipools.length StatusDetails.zero) _ statuses
            (by simp) (by simp only [MinipoolStatusBatchSize]; omega)
            (by intro i hi; omega) heq3
          refine ⟨ha, hl, hh header heq4, ?_, ?_⟩
          · show statuses.length = v.addresses.length
            rw [hlens, hmps, List.length_map]
          · intro i address status h1 h2
            have hi : i < minipools.length := by
              rw [hmps, List.length_map]
              rcases Nat.lt_or_ge i v.addresses.length with hlt | hge
              · exact hlt
              · rw [List.getElem?_eq_none hge] at h1
                cases h1
            obtain ⟨mp, st, h3, h4, h5⟩ := hst i hi
            have h2' : statuses[i]? = some status := h2
            rw [h4] at h2'
            simp only [Option.some.injEq] at h2'
            subst h2'
            have hmp : mp = ⟨address⟩ := by
              rw [hmps, List.getElem?_map] at h3
              have h1' : v.addresses[i]? = some address := h1
              rw [h1'] at h3
              simp only [Option.map_some', Option.some.injEq] at h3
              exact h3.symm
            rw [← hmp]
            exact h5

/-! ## The candidates the cycle attempts -/

theorem run_trusted {σ : Type} (env : Env σ) (t : Task) (w w1 w2 w3 : σ) (acct : Address)
    (hsync : env.waitEthClientSynced w = (none, w1))
    (hacct : env.getNodeAccount w1 = (.ok acct, w2))
    (htrusted : env.getMemberExists acct w2 = (.ok true, w3))
    (minipools : List Minipool)
    (hget : (getTimedOutMinipools env w3).res = (minipools, none)) :
    (dissolveTimedOutMinipools.run env t w).res = none ∧
      (dissolveTimedOutMinipools.run env t w).trace =
        [Event.waitEthClientSynced, Event.getNodeAccount, Event.getMemberExists acct,
          Event.log LogLine.checkingTimedOut] ++ (scanMinipools env w3).trace ++
          (if minipools.length = 0 then []
           else Event.log (LogLine.timedOutCount minipools.length) ::
             (dissolveMinipools env t minipools (getTimedOutMinipools env w3).world).trace) := by
  simp only [dissolveTimedOutMinipools.run, hsync, hacct, htrusted, hget, Out.after_res,
    Out.after_trace, getTimedOutMinipools_trace]
  split <;> simp

/-- For a trusted node and a scan in which every read succeeds, the minipools on which `run`
starts the dissolve pipeline are, in order, the minipools of the scanned address list whose
status meets the condition of the filter as the code evaluates it. -/
theorem run_starts_code_filter {σ : Type} (env : Env σ) (t : Task) (w w1 w2 w3 : σ)
    (acct : Address) (sc : Scan)
    (hsync : env.waitEthClientSynced w = (none, w1))
    (hacct : env.getNodeAccount w1 = (.ok acct, w2))
    (htrusted : env.getMemberExists acct w2 = (.ok true, w3))
    (hscan : (scanMinipools env w3).res = .ok sc) :
    pipelineStarts (dissolveTimedOutMinipools.run env t w).trace =
        (((sc.addresses.map Minipool.mk).zip sc.statuses).filter
          (fun p => isTimedOut (timeUnix (wrapInt64 sc.latestEth1Block.time)) sc.launchTimeout p.2)).map
          Prod.fst ∧
      sc.statuses.length = sc.addresses.length := by
  obtain ⟨hget, -⟩ := getTimedOutMinipools_ok env w3 sc hscan
  obtain ⟨hisScan, -, -, hsc⟩ := scanMinipools_inv env w3
  obtain ⟨hmps, hlen⟩ := hsc sc hscan
  obtain ⟨-, htr⟩ := run_trusted env t w w1 w2 w3 acct hsync hacct htrusted _ hget
  refine ⟨?_, by rw [hlen, hmps, List.length_map]⟩
  rw [htr, pipelineStarts_append, pipelineStarts_append, pipelineStarts_of_isScan _ hisScan,
    ← hmps, ← filterByStatus_eq]
  split
  · rename_i h0
    rw [List.length_eq_zero.mp h0]
    rfl
  · simp only [pipelineStarts_cons, dissolveMinipools_starts]
    rfl

/-- For a trusted node and a scan in which every read succeeds and no scanned status meets
the condition of the filter as the code evaluates it, `run` returns no error, submits no
transaction, and makes no call of the submitter. -/
theorem run_no_code_candidate {σ : Type} (env : Env σ) (t : Task) (w w1 w2 w3 : σ)
    (acct : Address) (sc : Scan)
    (hsync : env.waitEthClientSynced w = (none, w1))
    (hacct : env.getNodeAccount w1 = (.ok acct, w2))
    (htrusted : env.getMemberExists acct w2 = (.ok true, w3))
    (hscan : (scanMinipools env w3).res = .ok sc)
    (hnone : ∀ status ∈ sc.statuses,
      isTimedOut (timeUnix (wrapInt64 sc.latestEth1Block.time)) sc.launchTimeout status = false) :
    (dissolveTimedOutMinipools.run env t w).res = none ∧
      submissions (dissolveTimedOutMinipools.run env t w).trace = [] ∧
      (∀ ev ∈ (dissolveTimedOutMinipools.run env t w).trace, ev.isSubmitter = false) := by
  obtain ⟨hget, -⟩ := getTimedOutMinipools_ok env w3 sc hscan
  obtain ⟨hisScan, -, -, -⟩ := scanMinipools_inv env w3
  have hempty : filterByStatus sc.minipools sc.statuses sc.latestEth1Block sc.launchTimeout = [] := by
    rw [filterByStatus_eq, List.map_eq_nil_iff, List.filter_eq_nil_iff]
    intro p hp
    rw [hnone p.2 (List.of_mem_zip hp).2]
    exact Bool.false_ne_true
  rw [hempty] at hget
  obtain ⟨hres, htr⟩ := run_trusted env t w w1 w2 w3 acct hsync hacct htrusted _ hget
  refine ⟨hres, ?_, ?_⟩
  · rw [htr, submissions_append, submissions_append, submissions_of_isScan _ hisScan]
    rfl
  · intro ev hev
    rw [htr] at hev
    simp only [List.length_nil, if_true, List.append_nil, List.mem_append, List.mem_cons,
      List.mem_singleton, List.not_mem_nil, or_false] at hev
    rcases hev with (rfl | rfl | rfl | rfl) | hev
    · rfl
    · rfl
    · rfl
    · rfl
    · exact isSubmitter_of_isScan _ hisScan ev hev

/-! ## C2, C3: the candidates by the condition of the specification -/

theorem filter_isTimedOut_eq_spec (hdr : Header) (L : Int) (zs : List (Minipool × StatusDetails))
    (hT : (hdr.time : Int) + unixToInternal < 2 ^ 63) (hL1 : minDuration < L)
    (hL2 : L ≤ maxDuration) :
    zs.filter (fun p => isTimedOut (timeUnix (wrapInt64 hdr.time)) L p.2) =
      zs.filter (fun p => decide (specTimedOut hdr L p.2)) := by
  apply List.filter_congr
  intro p _
  by_cases hc : specTimedOut hdr L p.2
  · rw [(isTimedOut_iff_spec hdr L p.2 hT hL1 hL2).mpr hc, decide_eq_true hc]
  · have hf : isTimedOut (timeUnix (wrapInt64 hdr.time)) L p.2 = false := by
      cases hb : isTimedOut (timeUnix (wrapInt64 hdr.time)) L p.2
      · rfl
      · exact absurd ((isTimedOut_iff_spec hdr L p.2 hT hL1 hL2).mp hb) hc
    rw [hf, decide_eq_false hc]

/-- C2, as stated, fails: on a chain with one minipool, in prelaunch since the Unix epoch, a
launch timeout of zero and a latest block at second 2^63, the scan succeeds and the minipool
meets the timeout condition, yet `run` starts no dissolve pipeline. -/
theorem run_skips_candidate_at_wrapped_block_time :
    (scanMinipools (edgeEnv (2 ^ 63) 0 0) ()).res =
        .ok ⟨[0], 0, ⟨2 ^ 63⟩, [⟨0⟩], [⟨MinipoolStatus.Prelaunch, 0, timeUnix 0⟩]⟩ ∧
      specTimedOut ⟨2 ^ 63⟩ 0 ⟨MinipoolStatus.Prelaunch, 0, timeUnix 0⟩ ∧
      pipelineStarts
        (dissolveTimedOutMinipools.run (edgeEnv (2 ^ 63) 0 0) ⟨none, some 2, 0⟩ ()).trace = [] := by
  refine ⟨rfl, ?_, ?_⟩ <;> decide

/-- C2, amended: for a trusted node and a scan in which every read succeeds, with the header's
timestamp plus `unixToInternal` below 2^63 seconds and a launch timeout that is a duration
above the smallest one, the scan record holds what the reads answered, and the minipools on
which `run` starts the dissolve pipeline are, in order, exactly the entries of the scanned
address list whose status equals Prelaunch and whose exact (latestBlockTime -
statusChangeTime) is at least the launch timeout: one start per qualifying entry, none for
the others. -/
theorem run_attempts_exactly_spec_timed_out {σ : Type} (env : Env σ) (t : Task)
    (w w1 w2 w3 : σ) (acct : Address) (sc : Scan)
    (hsync : env.waitEthClientSynced w = (none, w1))
    (hacct : env.getNodeAccount w1 = (.ok acct, w2))
    (htrusted : env.getMemberExists acct w2 = (.ok true, w3))
    (hscan : (scanMinipools env w3).res = .ok sc)
    (hT : (sc.latestEth1Block.time : Int) + unixToInternal < 2 ^ 63)
    (hL1 : minDuration < sc.launchTimeout) (hL2 : sc.launchTimeout ≤ maxDuration) :
    scanAnswers env sc ∧
      pipelineStarts (dissolveTimedOutMinipools.run env t w).trace =
        (((sc.addresses.map Minipool.mk).zip sc.statuses).filter
          (fun p => decide (specTimedOut sc.latestEth1Block sc.launchTimeout p.2))).map
          Prod.fst := by
  refine ⟨scanMinipools_answers env w3 sc hscan, ?_⟩
  rw [(run_starts_code_filter env t w w1 w2 w3 acct sc hsync hacct htrusted hscan).1,
    filter_isTimedOut_eq_spec _ _ _ hT hL1 hL2]

/-- Witness of `run_attempts_exactly_spec_timed_out`: of five sample minipools, those at the
addresses 1 and 3 are attempted, in this order. -/
theorem run_attempts_exactly_spec_timed_out_witness :
    pipelineStarts
        (dissolveTimedOutMinipools.run (sampleEnv 5 none true false) ⟨none, some 2, 0⟩ ()).trace =
      [⟨1⟩, ⟨3⟩] :=
  (run_attempts_exactly_spec_timed_out (sampleEnv 5 none true false) ⟨none, some 2, 0⟩
    () () () () 7
    ⟨List.range 5, 3600 * 10 ^ 9, ⟨10000⟩, (List.range 5).map Minipool.mk,
      (List.range 5).map fun a => sampleStatus ⟨a⟩⟩ rfl rfl rfl rfl (by decide) (by decide)
    (by decide)).2.trans (by decide)

theorem wrapInt64_le (x : Int) (h : -(2 ^ 63) ≤ x) : wrapInt64 x ≤ x ∧ -(2 ^ 63) ≤ wrapInt64 x := by
  unfold wrapInt64
  norm_num at h ⊢
  omega

/-- With a launch timeout above the smallest duration, a status that meets the condition of
the filter as the code evaluates it meets the exact condition: wrapping the block time and
saturating the difference can only lower the difference below the largest duration. -/
theorem isTimedOut_imp_spec (hdr : Header) (L : Int) (st : StatusDetails)
    (hL1 : minDuration < L)
    (h : isTimedOut (timeUnix (wrapInt64 hdr.time)) L st = true) : specTimedOut hdr L st := by
  have h0 : (0 : Int) ≤ hdr.time := Int.ofNat_nonneg _
  obtain ⟨ha1, ha2⟩ := wrapInt64_le (hdr.time : Int) (by norm_num; omega)
  obtain ⟨hb1, -⟩ := wrapInt64_le (wrapInt64 (hdr.time : Int) + unixToInternal) (by
    unfold unixToInternal
    norm_num at ha2 ⊢
    omega)
  unfold isTimedOut Time.sub timeUnix at h
  unfold specTimedOut Time.sinceEpoch
  unfold minDuration at hL1
  simp only [Bool.and_eq_true, beq_iff_eq, decide_eq_true_eq, minDuration, maxDuration] at h
  refine ⟨h.1, ?_⟩
  have h2 := h.2
  generalize wrapInt64 (wrapInt64 (hdr.time : Int) + unixToInternal) = a at hb1 h2
  generalize wrapInt64 (hdr.time : Int) = b at ha1 hb1
  unfold unixToInternal at hb1 ⊢
  norm_num at hL1 h2 hb1 ⊢
  split_ifs at h2 <;> omega

/-- C3, as stated, fails: on a chain with one minipool, in prelaunch since second 10^10, a
latest block at second 0 and the smallest duration as launch timeout, the scan succeeds and
the minipool does not meet the timeout condition (the exact difference is below the timeout),
yet `run` submits a dissolve transaction for it. -/
theorem run_submits_at_smallest_timeout :
    (scanMinipools (edgeEnv 0 minDuration (10 ^ 10)) ()).res =
        .ok ⟨[0], minDuration, ⟨0⟩, [⟨0⟩], [⟨MinipoolStatus.Prelaunch, 0, timeUnix (10 ^ 10)⟩]⟩ ∧
      ¬ specTimedOut ⟨0⟩ minDuration ⟨MinipoolStatus.Prelaunch, 0, timeUnix (10 ^ 10)⟩ ∧
      submissions
        (dissolveTimedOutMinipools.run (edgeEnv 0 minDuration (10 ^ 10)) ⟨none, some 2, 0⟩ ()).trace =
        [⟨7, some 55, some 2, 150⟩] := by
  refine ⟨rfl, ?_, ?_⟩ <;> decide

/-- C3, amended: for a trusted node and a scan in which every read succeeds, with a launch
timeout above the smallest duration, the scan record holds what the reads answered, and when
no scanned status meets the timeout condition of the specification (also when there is no
minipool), `run` returns no error, submits no transaction, and makes no call of the
submitter. -/
theorem run_nothing_spec_timed_out {σ : Type} (env : Env σ) (t : Task) (w w1 w2 w3 : σ)
    (acct : Address) (sc : Scan)
    (hsync : env.waitEthClientSynced w = (none, w1))
    (hacct : env.getNodeAccount w1 = (.ok acct, w2))
    (htrusted : env.getMemberExists acct w2 = (.ok true, w3))
    (hscan : (scanMinipools env w3).res = .ok sc)
    (hL1 : minDuration < sc.launchTimeout)
    (hnone : ∀ status ∈ sc.statuses,
      ¬ specTimedOut sc.latestEth1Block sc.launchTimeout status) :
    scanAnswers env sc ∧
      (dissolveTimedOutMinipools.run env t w).res = none ∧
      submissions (dissolveTimedOutMinipools.run env t w).trace = [] ∧
      (∀ ev ∈ (dissolveTimedOutMinipools.run env t w).trace, ev.isSubmitter = false) := by
  refine ⟨scanMinipools_answers env w3 sc hscan, ?_⟩
  apply run_no_code_candidate env t w w1 w2 w3 acct sc hsync hacct htrusted hscan
  intro status hstatus
  cases hb : isTimedOut (timeUnix (wrapInt64 sc.latestEth1Block.time)) sc.launchTimeout status
  · rfl
  · exact absurd (isTimedOut_imp_spec _ _ status hL1 hb) (hnone status hstatus)

/-- Witness of `run_nothing_spec_timed_out`: one sample minipool, which is staking. -/
theorem run_nothing_spec_timed_out_witness :
    (dissolveTimedOutMinipools.run (sampleEnv 1 none true false) ⟨none, some 2, 0⟩ ()).res = none ∧
      submissions
        (dissolveTimedOutMinipools.run (sampleEnv 1 none true false) ⟨none, some 2, 0⟩ ()).trace =
        [] ∧
      (∀ ev ∈ (dissolveTimedOutMinipools.run (sampleEnv 1 none true false)
          ⟨none, some 2, 0⟩ ()).trace, ev.isSubmitter = false) :=
  (run_nothing_spec_timed_out (sampleEnv 1 none true false) ⟨none, some 2, 0⟩ () () () () 7
    ⟨List.range 1, 3600 * 10 ^ 9, ⟨10000⟩, (List.range 1).map Minipool.mk,
      (List.range 1).map fun a => sampleStatus ⟨a⟩⟩ rfl rfl rfl rfl (by decide) (by decide)).2

/-! ## C4, C5: the batches of status reads -/

/-- C4: in a scan of `n` addresses in which no read fails, the status reads are spawned, after
the fan-out of the three initial reads, in `ceil(n/20)` batches; batch `k` holds the reads of
the consecutive indices from `20 * k`, twenty of them except in the last batch, which holds
the `n - 20 * k` that remain; the batches joined in order are the reads of the indices
`0 .. n-1`, each once. -/
theorem status_reads_in_batches {σ : Type} (env : Env σ) (w : σ) (sc : Scan)
    (hscan : (scanMinipools env w).res = .ok sc) :
    spawnedBatches (getTimedOutMinipools env w).trace =
        [Read.getMinipoolAddresses, Read.getMinipoolLaunchTimeout, Read.headerByNumber] ::
          (List.range ((sc.addresses.length + 19) / 20)).map (fun k =>
            (List.range' (20 * k)
              (if k + 1 < (sc.addresses.length + 19) / 20 then 20
               else sc.addresses.length - 20 * k)).map Read.getStatusDetails) ∧
      (spawnedBatches (getTimedOutMinipools env w).trace).tail.flatten =
        (List.range sc.addresses.length).map Read.getStatusDetails := by
  obtain ⟨ran, w2, htr, hres⟩ := scanMinipools_ok env w sc hscan
  obtain ⟨-, -, -, hsc⟩ := scanMinipools_inv env w
  obtain ⟨hmps, -⟩ := hsc sc hscan
  have hn : sc.minipools.length = sc.addresses.length := by rw [hmps, List.length_map]
  have hplan := (loadStatuses_batches_from env sc.minipools sc.minipools.length 0
    (List.replicate sc.minipools.length StatusDetails.zero) w2 (by omega)).2
    (by rw [show MinipoolStatusBatchSize * 0 = 0 from rfl, hres]; rfl)
  rw [show MinipoolStatusBatchSize * 0 = 0 from rfl, hn, Nat.sub_zero,
    ← List.range_eq_range'] at hplan
  have hnew : spawnedBatches (sc.addresses.map Event.newMinipool) = [] := by
    apply List.filterMap_eq_nil_iff.mpr
    intro ev hev
    obtain ⟨a, -, rfl⟩ := List.mem_map.mp hev
    rfl
  have hall : spawnedBatches (getTimedOutMinipools env w).trace =
      [Read.getMinipoolAddresses, Read.getMinipoolLaunchTimeout, Read.headerByNumber] ::
        (List.range ((sc.addresses.length + 19) / 20)).map (specBatch sc.addresses.length) := by
    rw [getTimedOutMinipools_trace, htr, ← List.singleton_append, spawnedBatches_append,
      spawnedBatches_append, hnew, hn, hplan]
    rfl
  constructor
  · rw [hall]
    congr 1
    apply List.map_congr_left
    intro k hk
    have hk2 := List.mem_range.mp hk
    have hsize : min 20 (sc.addresses.length - 20 * k) =
        if k + 1 < (sc.addresses.length + 19) / 20 then 20 else sc.addresses.length - 20 * k := by
      split <;> omega
    simp only [specBatch, hsize]
  · have hsize : min sc.addresses.length (20 * (0 + (sc.addresses.length + 19) / 20)) - 20 * 0 =
        sc.addresses.length := by omega
    rw [hall, List.tail_cons, List.range_eq_range', specBatch_flatten, List.range_eq_range',
      hsize]

/-- Witness of `status_reads_in_batches`: with 45 sample minipools the status reads go out in
three batches of 20, 20 and 5 reads, after the fan-out of the three initial reads. -/
theorem status_reads_in_batches_witness :
    (spawnedBatches (getTimedOutMinipools (sampleEnv 45 none true false) ()).trace).map List.length =
      [3, 20, 20, 5] :=
  (congrArg (List.map List.length)
    (status_reads_in_batches (sampleEnv 45 none true false) ()
      ⟨List.range 45, 3600 * 10 ^ 9, ⟨10000⟩, (List.range 45).map Minipool.mk,
        (List.range 45).map fun a => sampleStatus ⟨a⟩⟩ rfl).1).trans (by decide)

/-- C5: a fan-out of `getTimedOutMinipools` in which a read failed is the last thing the scan
does (no later batch is spawned), and the scan returns an error together with the empty
list of minipools. -/
theorem scan_stops_at_failed_batch {σ : Type} (env : Env σ) (w : σ) (pre post : List Event)
    (ev : Event) (htr : (getTimedOutMinipools env w).trace = pre ++ ev :: post)
    (hfail : ev.hasFailedRead = true) :
    post = [] ∧ ∃ e, (getTimedOutMinipools env w).res = ([], some e) := by
  obtain ⟨-, hstop, herr, -⟩ := scanMinipools_inv env w
  rw [getTimedOutMinipools_trace] at htr
  rw [htr] at hstop herr
  refine ⟨stopsAtFailure_split pre post ev hstop hfail, ?_⟩
  obtain ⟨e, he⟩ := herr (by
    rw [List.any_append, List.any_cons, hfail]
    simp)
  exact ⟨e, getTimedOutMinipools_error env w e he⟩

/-- Witness of `scan_stops_at_failed_batch`: with 45 sample minipools of which the status read
at index 25 fails, the second batch is the last event of the scan; the third batch is never
spawned. -/
theorem scan_stops_at_failed_batch_witness :
    ((getTimedOutMinipools (sampleEnv 45 (some 25) true false) ()).trace.getD 47
        Event.getNodeAccount).hasFailedRead = true ∧
      ((getTimedOutMinipools (sampleEnv 45 (some 25) true false) ()).trace.drop 48 = [] ∧
        ∃ e, (getTimedOutMinipools (sampleEnv 45 (some 25) true false) ()).res = ([], some e)) :=
  ⟨by decide,
    scan_stops_at_failed_batch (sampleEnv 45 (some 25) true false) ()
      ((getTimedOutMinipools (sampleEnv 45 (some 25) true false) ()).trace.take 47)
      ((getTimedOutMinipools (sampleEnv 45 (some 25) true false) ()).trace.drop 48)
      ((getTimedOutMinipools (sampleEnv 45 (some 25) true false) ()).trace.getD 47
        Event.getNodeAccount) (by decide) (by decide)⟩

/-- C9: for a trusted node, whatever list of candidates `getTimedOutMinipools` returns and
whatever each call of each candidate's pipeline answers, `run` enters the pipeline of every
candidate, in order, and returns no error. -/
theorem run_isolates_candidate_failures {σ : Type} (env : Env σ) (t : Task) (w w1 w2 w3 : σ)
    (acct : Address) (minipools : List Minipool)
    (hsync : env.waitEthClientSynced w = (none, w1))
    (hacct : env.getNodeAccount w1 = (.ok acct, w2))
    (htrusted : env.getMemberExists acct w2 = (.ok true, w3))
    (hget : (getTimedOutMinipools env w3).res = (minipools, none)) :
    (dissolveTimedOutMinipools.run env t w).res = none ∧
      pipelineStarts (dissolveTimedOutMinipools.run env t w).trace = minipools := by
  obtain ⟨hisScan, -, -, -⟩ := scanMinipools_inv env w3
  obtain ⟨hres, htr⟩ := run_trusted env t w w1 w2 w3 acct hsync hacct htrusted _ hget
  refine ⟨hres, ?_⟩
  rw [htr, pipelineStarts_append, pipelineStarts_append, pipelineStarts_of_isScan _ hisScan]
  split
  · rename_i h0
    rw [List.length_eq_zero.mp h0]
    rfl
  · simp only [pipelineStarts_cons, dissolveMinipools_starts]
    rfl

/-- Witness of `run_isolates_candidate_failures`: of the sample candidates 1, 3 and 5 the
first fails at gas estimation; the other two are still attempted and `run` returns no error. -/
theorem run_isolates_candidate_failures_witness :
    Event.log (LogLine.couldNotDissolve 1
        (Err.wrapped "Could not estimate the gas required to dissolve the minipool"
          (Err.msg "estimation failed"))) ∈
        (dissolveTimedOutMinipools.run (sampleEnv 6 none true false) ⟨none, some 2, 0⟩ ()).trace ∧
      ((dissolveTimedOutMinipools.run (sampleEnv 6 none true false) ⟨none, some 2, 0⟩ ()).res = none ∧
        pipelineStarts (dissolveTimedOutMinipools.run (sampleEnv 6 none true false) ⟨none, some 2, 0⟩ ()).trace =
          [⟨1⟩, ⟨3⟩, ⟨5⟩]) :=
  ⟨by decide,
    run_isolates_candidate_failures (sampleEnv 6 none true false) ⟨none, some 2, 0⟩ () () () () 7
      [⟨1⟩, ⟨3⟩, ⟨5⟩] rfl rfl rfl rfl⟩

/-! ## C6: the eligibility gate -/

/-- C6: when the membership check answers that the node account is not a trusted member, both
`dissolveTimedOutMinipools.run` and `respondChallenges.run` return no error, and the only
calls of the cycle are the three of the gate: no read of the scanner, no log line, no call of
the submitter. -/
theorem untrusted_node_is_a_no_op {σ : Type} (env : Env σ) (t : Task) (w w1 w2 w3 : σ)
    (acct : Address)
    (hsync : env.waitEthClientSynced w = (none, w1))
    (hacct : env.getNodeAccount w1 = (.ok acct, w2))
    (hmember : env.getMemberExists acct w2 = (.ok false, w3)) :
    ((dissolveTimedOutMinipools.run env t w).res = none ∧
      (dissolveTimedOutMinipools.run env t w).trace =
        [Event.waitEthClientSynced, Event.getNodeAccount, Event.getMemberExists acct]) ∧
    ((respondChallenges.run env t w).res = none ∧
      (respondChallenges.run env t w).trace =
        [Event.waitEthClientSynced, Event.getNodeAccount, Event.getMemberExists acct]) := by
  constructor
  · constructor
    · simp only [dissolveTimedOutMinipools.run, hsync, hacct, hmember, Out.after_res]
    · simp only [dissolveTimedOutMinipools.run, hsync, hacct, hmember, Out.after_trace]
      rfl
  · constructor
    · simp only [respondChallenges.run, hsync, hacct, hmember, Out.after_res]
    · simp only [respondChallenges.run, hsync, hacct, hmember, Out.after_trace]
      rfl

/-- Witness of `untrusted_node_is_a_no_op`: the sample node, not trusted. -/
theorem untrusted_node_is_a_no_op_witness :
    ((dissolveTimedOutMinipools.run (sampleEnv 5 none false true) ⟨none, some 2, 0⟩ ()).res = none ∧
      (dissolveTimedOutMinipools.run (sampleEnv 5 none false true) ⟨none, some 2, 0⟩ ()).trace =
        [Event.waitEthClientSynced, Event.getNodeAccount, Event.getMemberExists 7]) ∧
    ((respondChallenges.run (sampleEnv 5 none false true) ⟨none, some 2, 0⟩ ()).res = none ∧
      (respondChallenges.run (sampleEnv 5 none false true) ⟨none, some 2, 0⟩ ()).trace =
        [Event.waitEthClientSynced, Event.getNodeAccount, Event.getMemberExists 7]) :=
  untrusted_node_is_a_no_op (sampleEnv 5 none false true) ⟨none, some 2, 0⟩ () () () () 7 rfl rfl rfl

/-! ## C7, C8: the priority fee -/

/-- C7, at the failing input: a configured priority fee of 2^64 is not zero, yet both
constructors replace it by the default 2 and log that the fee was missing or 0, because the
test for zero reads `maxPriorityFee.Uint64()`, the low 64 bits of the value. -/
theorem priority_fee_two_pow_64_is_replaced :
    newDissolveTimedOutMinipools (sampleServices (some (2 ^ 64))) =
        (.ok ⟨none, some 2, 0⟩, [LogLine.priorityFeeDefaulted]) ∧
      newRespondChallenges (sampleServices (some (2 ^ 64))) =
        (.ok ⟨none, some 2, 0⟩, [LogLine.priorityFeeDefaulted]) :=
  ⟨rfl, rfl⟩

/-- What holds of C7 on the code: an unset or zero configured priority fee resolves to 2, and
a configured fee whose low 64 bits are not all zero is stored unchanged. -/
theorem priority_fee_resolution (sv : Services) (t : Task)
    (h : (newDissolveTimedOutMinipools sv).1 = .ok t ∨ (newRespondChallenges sv).1 = .ok t) :
    ∃ cfg configured, sv.getConfig = .ok cfg ∧ cfg.getMaxPriorityFee = .ok configured ∧
      ((configured = none ∨ configured = some 0) → t.maxPriorityFee = some 2) ∧
      (∀ v, configured = some v → bigUint64 v ≠ 0 → t.maxPriorityFee = some v) := by
  have key : ∃ cfg configured, sv.getConfig = .ok cfg ∧ cfg.getMaxPriorityFee = .ok configured ∧
      t.maxPriorityFee =
        (match configured with
          | none => some 2
          | some v => if bigUint64 v = 0 then some 2 else some v) := by
    rcases h with h | h
    · exact newDissolveTimedOutMinipools_priorityFee sv t h
    · exact newRespondChallenges_priorityFee sv t h
  obtain ⟨cfg, configured, hc, hp, ht⟩ := key
  refine ⟨cfg, configured, hc, hp, ?_, ?_⟩
  · rintro (rfl | rfl)
    · exact ht
    · rw [ht]; rfl
  · rintro v rfl hv
    rw [ht]
    simp [hv]

/-- C8: whenever one of the two constructors returns a task, the priority fee the task holds
is not nil and not zero, and in every cycle run with the task each submitted transaction
carries exactly that fee as its tip cap. -/
theorem priority_fee_never_zero (sv : Services) (t : Task)
    (h : (newDissolveTimedOutMinipools sv).1 = .ok t ∨ (newRespondChallenges sv).1 = .ok t) :
    (∃ v, t.maxPriorityFee = some v ∧ v ≠ 0) ∧
      ∀ (σ : Type) (env : Env σ) (w : σ),
        (∀ opts ∈ submissions (dissolveTimedOutMinipools.run env t w).trace,
          opts.gasTipCap = t.maxPriorityFee) ∧
        (∀ opts ∈ submissions (respondChallenges.run env t w).trace,
          opts.gasTipCap = t.maxPriorityFee) := by
  constructor
  · have key : ∃ cfg configured, sv.getConfig = .ok cfg ∧ cfg.getMaxPriorityFee = .ok configured ∧
        t.maxPriorityFee =
          (match configured with
            | none => some 2
            | some v => if bigUint64 v = 0 then some 2 else some v) := by
      rcases h with h | h
      · exact newDissolveTimedOutMinipools_priorityFee sv t h
      · exact newRespondChallenges_priorityFee sv t h
    obtain ⟨cfg, configured, -, -, ht⟩ := key
    exact resolved_priorityFee_ne_zero configured _ ht
  · intro σ env w
    exact ⟨dissolveRun_tipCap env t w, respondRun_tipCap env t w⟩

/-- Witness of `priority_fee_never_zero`: a configured fee of zero gives a task holding 2,
which is the tip cap of the transactions of the sample cycle. -/
theorem priority_fee_never_zero_witness :
    (newDissolveTimedOutMinipools (sampleServices (some 0))).1 = .ok ⟨none, some 2, 0⟩ ∧
      (∃ v, (⟨none, some 2, 0⟩ : Task).maxPriorityFee = some v ∧ v ≠ 0) ∧
      (submissions (dissolveTimedOutMinipools.run (sampleEnv 6 none true false)
          ⟨none, some 2, 0⟩ ()).trace).map (fun opts => opts.gasTipCap) = [some 2, some 2] ∧
      (∀ opts ∈ submissions (respondChallenges.run (sampleEnv 6 none true true)
          ⟨none, some 2, 0⟩ ()).trace, opts.gasTipCap = some 2) :=
  ⟨rfl, (priority_fee_never_zero (sampleServices (some 0)) ⟨none, some 2, 0⟩ (Or.inl rfl)).1,
    by decide,
    ((priority_fee_never_zero (sampleServices (some 0)) ⟨none, some 2, 0⟩ (Or.inl rfl)).2
      Unit (sampleEnv 6 none true true) ()).2⟩

/-! ## C10: the challenge duty -/

/-- C10: for a trusted node whose challenge flag read succeeds: when the flag is true, `run`
enters the decide-challenge pipeline once (one active-challenge line, one transactor
request, at most one submitted transaction); when the flag is false, `run` returns no
error, submits nothing and makes no call of the submitter. -/
theorem respond_exactly_when_challenged {σ : Type} (env : Env σ) (t : Task) (w w1 w2 w3 w4 : σ)
    (acct : Address) (isChallenged : Bool)
    (hsync : env.waitEthClientSynced w = (none, w1))
    (hacct : env.getNodeAccount w1 = (.ok acct, w2))
    (htrusted : env.getMemberExists acct w2 = (.ok true, w3))
    (hflag : env.getMemberIsChallenged acct w3 = (.ok isChallenged, w4)) :
    (isChallenged = true →
      (respondChallenges.run env t w).trace.count (Event.log (LogLine.activeChallenge acct)) = 1 ∧
      (respondChallenges.run env t w).trace.count Event.getNodeAccountTransactor = 1 ∧
      (submissions (respondChallenges.run env t w).trace).length ≤ 1) ∧
    (isChallenged = false →
      (respondChallenges.run env t w).res = none ∧
      (respondChallenges.run env t w).trace =
        [Event.waitEthClientSynced, Event.getNodeAccount, Event.getMemberExists acct,
          Event.log LogLine.checkingChallenges, Event.getMemberIsChallenged acct] ∧
      submissions (respondChallenges.run env t w).trace = [] ∧
      (∀ ev ∈ (respondChallenges.run env t w).trace, ev.isSubmitter = false)) := by
  constructor
  · rintro rfl
    have h1 := fun w => (resolveMaxFee_starts env t w).2
    have h2 := fun w => resolveMaxFee_count env t w
    have h3 : ∀ w, (resolveMaxFee env t w).trace.count (Event.log (LogLine.activeChallenge acct)) = 0 := by
      intro w
      rcases resolveMaxFee_trace env t w with h | h <;> rw [h] <;> rfl
    simp only [respondChallenges.run, hsync, hacct, htrusted, hflag]
    repeat' split
    all_goals
      simp only [Out.after_trace, submissions_append, submissions_cons, h1, List.append_nil,
        List.nil_append, List.count_append, List.count_cons, List.count_nil, h2, h3]
      simp [submissions]
  · rintro rfl
    simp [respondChallenges.run, hsync, hacct, htrusted, hflag, submissions, Event.isSubmitter]

/-- Witness of `respond_exactly_when_challenged`: the sample node, challenged (one
transaction submitted) and not challenged (none). -/
theorem respond_exactly_when_challenged_witness :
    (submissions (respondChallenges.run (sampleEnv 0 none true true) ⟨none, some 2, 0⟩ ()).trace =
        [⟨7, some 55, some 2, 150⟩] ∧
      (respondChallenges.run (sampleEnv 0 none true true) ⟨none, some 2, 0⟩ ()).trace.count
        Event.getNodeAccountTransactor = 1) ∧
    ((respondChallenges.run (sampleEnv 0 none true false) ⟨none, some 2, 0⟩ ()).res = none ∧
      submissions (respondChallenges.run (sampleEnv 0 none true false) ⟨none, some 2, 0⟩ ()).trace = []) :=
  ⟨⟨by decide,
    ((respond_exactly_when_challenged (sampleEnv 0 none true true) ⟨none, some 2, 0⟩ () () () () ()
      7 true rfl rfl rfl rfl).1 rfl).2.1⟩,
    ((respond_exactly_when_challenged (sampleEnv 0 none true false) ⟨none, some 2, 0⟩ () () () () ()
      7 false rfl rfl rfl rfl).2 rfl).1,
    ((respond_exactly_when_challenged (sampleEnv 0 none true false) ⟨none, some 2, 0⟩ () () () () ()
      7 false rfl rfl rfl rfl).2 rfl).2.2.1⟩

/-! ## C11, C12: gas limit and fee cap of a submitted transaction -/

theorem resolveGasLimit_eq (t : Task) (gasInfo : GasInfo) (h1 : t.gasLimit < 2 ^ 64)
    (h2 : gasInfo.safeGasLimit < 2 ^ 64) :
    resolveGasLimit t gasInfo = if t.gasLimit ≠ 0 then t.gasLimit else gasInfo.safeGasLimit := by
  unfold resolveGasLimit bigUint64
  split
  · simp only [Int.natAbs_ofNat]
    exact Nat.mod_eq_of_lt h1
  · simp only [Int.natAbs_ofNat]
    exact Nat.mod_eq_of_lt h2

/-- What a transaction submitted by `dissolveMinipool` carries. -/
theorem dissolveMinipool_submission {σ : Type} (env : Env σ) (t : Task) (mp : Minipool)
    (w w1 w2 : σ) (opts : TransactOpts) (gasInfo : GasInfo)
    (htx : env.getNodeAccountTransactor w = (.ok opts, w1))
    (hest : env.estimateDissolveGas mp opts w1 = (.ok gasInfo, w2)) :
    ∀ o ∈ submissions (dissolveMinipool env t mp w).trace,
      ∃ maxFee, (resolveMaxFee env t w2).res = .ok maxFee ∧
        o = ⟨opts.fromAddr, some maxFee, t.maxPriorityFee, resolveGasLimit t gasInfo⟩ := by
  have h := fun w => (resolveMaxFee_starts env t w).2
  simp only [dissolveMinipool, htx, hest]
  repeat' split
  all_goals
    simp only [Out.after_trace, submissions_append, submissions_cons, h, List.append_nil,
      List.nil_append]
    simp_all [submissions]

/-- What a transaction submitted by `respondChallenges.run` carries. -/
theorem respondRun_submission {σ : Type} (env : Env σ) (t : Task) (w w1 w2 w3 w4 w5 w6 : σ)
    (acct : Address) (opts : TransactOpts) (gasInfo : GasInfo)
    (hsync : env.waitEthClientSynced w = (none, w1))
    (hacct : env.getNodeAccount w1 = (.ok acct, w2))
    (htrusted : env.getMemberExists acct w2 = (.ok true, w3))
    (hflag : env.getMemberIsChallenged acct w3 = (.ok true, w4))
    (htx : env.getNodeAccountTransactor w4 = (.ok opts, w5))
    (hest : env.estimateDecideChallengeGas acct opts w5 = (.ok gasInfo, w6)) :
    ∀ o ∈ submissions (respondChallenges.run env t w).trace,
      ∃ maxFee, (resolveMaxFee env t w6).res = .ok maxFee ∧
        o = ⟨opts.fromAddr, some maxFee, t.maxPriorityFee, resolveGasLimit t gasInfo⟩ := by
  have h := fun w => (resolveMaxFee_starts env t w).2
  simp only [respondChallenges.run, hsync, hacct, htrusted, hflag, htx, hest]
  repeat' split
  all_goals
    simp only [Out.after_trace, submissions_append, submissions_cons, h, List.append_nil,
      List.nil_append]
    simp_all [submissions]

/-- C11: in both pipelines, once the transactor and the gas estimate are obtained, every
transaction submitted carries as gas limit the task's override when it is not zero, and the
estimate's `SafeGasLimit` otherwise (both are `uint64` values). -/
theorem gas_limit_override_or_safe {σ : Type} (env : Env σ) (t : Task) (opts : TransactOpts)
    (gasInfo : GasInfo) (hgl : t.gasLimit < 2 ^ 64) (hsafe : gasInfo.safeGasLimit < 2 ^ 64) :
    (∀ (mp : Minipool) (w w1 w2 : σ),
      env.getNodeAccountTransactor w = (.ok opts, w1) →
      env.estimateDissolveGas mp opts w1 = (.ok gasInfo, w2) →
      ∀ o ∈ submissions (dissolveMinipool env t mp w).trace,
        o.gasLimit = if t.gasLimit ≠ 0 then t.gasLimit else gasInfo.safeGasLimit) ∧
    (∀ (w w1 w2 w3 w4 w5 w6 : σ) (acct : Address),
      env.waitEthClientSynced w = (none, w1) →
      env.getNodeAccount w1 = (.ok acct, w2) →
      env.getMemberExists acct w2 = (.ok true, w3) →
      env.getMemberIsChallenged acct w3 = (.ok true, w4) →
      env.getNodeAccountTransactor w4 = (.ok opts, w5) →
      env.estimateDecideChallengeGas acct opts w5 = (.ok gasInfo, w6) →
      ∀ o ∈ submissions (respondChallenges.run env t w).trace,
        o.gasLimit = if t.gasLimit ≠ 0 then t.gasLimit else gasInfo.safeGasLimit) := by
  constructor
  · intro mp w w1 w2 htx hest o ho
    obtain ⟨maxFee, -, rfl⟩ := dissolveMinipool_submission env t mp w w1 w2 opts gasInfo htx hest o ho
    exact resolveGasLimit_eq t gasInfo hgl hsafe
  · intro w w1 w2 w3 w4 w5 w6 acct hsync hacct htrusted hflag htx hest o ho
    obtain ⟨maxFee, -, rfl⟩ := respondRun_submission env t w w1 w2 w3 w4 w5 w6 acct opts gasInfo
      hsync hacct htrusted hflag htx hest o ho
    exact resolveGasLimit_eq t gasInfo hgl hsafe

/-- Witness of `gas_limit_override_or_safe`: on the sample chain, whose estimates suggest 150,
a task without override submits with gas limit 150 and a task with override 90000 with
gas limit 90000, in both pipelines. -/
theorem gas_limit_override_or_safe_witness :
    ((submissions (dissolveMinipool (sampleEnv 4 none true true) ⟨none, some 2, 0⟩ ⟨3⟩ ()).trace).map
        (fun o => o.gasLimit) = [150] ∧
      ∀ o ∈ submissions (dissolveMinipool (sampleEnv 4 none true true) ⟨none, some 2, 90000⟩ ⟨3⟩ ()).trace,
        o.gasLimit = if (90000 : Nat) ≠ 0 then 90000 else 150) ∧
    ((submissions (respondChallenges.run (sampleEnv 4 none true true) ⟨none, some 2, 0⟩ ()).trace).map
        (fun o => o.gasLimit) = [150] ∧
      ∀ o ∈ submissions (respondChallenges.run (sampleEnv 4 none true true) ⟨none, some 2, 90000⟩ ()).trace,
        o.gasLimit = if (90000 : Nat) ≠ 0 then 90000 else 150) :=
  ⟨⟨by decide,
    (gas_limit_override_or_safe (sampleEnv 4 none true true) ⟨none, some 2, 90000⟩
      ⟨7, none, none, 0⟩ ⟨100, 150⟩ (by decide) (by decide)).1 ⟨3⟩ () () () rfl rfl⟩,
   ⟨by decide,
    (gas_limit_override_or_safe (sampleEnv 4 none true true) ⟨none, some 2, 90000⟩
      ⟨7, none, none, 0⟩ ⟨100, 150⟩ (by decide) (by decide)).2 () () () () () () () 7
      rfl rfl rfl rfl rfl rfl⟩⟩

/-- C12, at the failing input: a configured max fee of 2^64 is not zero, yet both pipelines
consult the headless fee source and submit with its suggestion (55 on the sample chain) as
fee cap, because the test for zero reads `maxFee.Uint64()`, the low 64 bits of the value. -/
theorem fee_cap_two_pow_64_is_replaced :
    (submissions (dissolveMinipool (sampleEnv 4 none true true) ⟨some (2 ^ 64), some 2, 0⟩ ⟨3⟩ ()).trace =
        [⟨7, some 55, some 2, 150⟩] ∧
      Event.getHeadlessMaxFeeWei ∈
        (dissolveMinipool (sampleEnv 4 none true true) ⟨some (2 ^ 64), some 2, 0⟩ ⟨3⟩ ()).trace) ∧
    (submissions (respondChallenges.run (sampleEnv 4 none true true) ⟨some (2 ^ 64), some 2, 0⟩ ()).trace =
        [⟨7, some 55, some 2, 150⟩] ∧
      Event.getHeadlessMaxFeeWei ∈
        (respondChallenges.run (sampleEnv 4 none true true) ⟨some (2 ^ 64), some 2, 0⟩ ()).trace) := by
  refine ⟨⟨?_, ?_⟩, ⟨?_, ?_⟩⟩ <;> decide

/-- What holds of C12 on the code: the fee both pipelines go on with is the configured max
fee, without a call of the headless source, when its low 64 bits are not all zero, and is the
answer of the headless source when the configured fee is unset or zero. -/
theorem fee_cap_resolution {σ : Type} (env : Env σ) (t : Task) (w : σ) :
    (∀ v, t.maxFee = some v → bigUint64 v ≠ 0 → resolveMaxFee env t w = ⟨.ok v, w, []⟩) ∧
      ((t.maxFee = none ∨ t.maxFee = some 0) → resolveMaxFee env t w = headlessMaxFee env w) := by
  constructor
  · intro v hv hne
    simp [resolveMaxFee, hv, hne]
  · rintro (h | h) <;> simp [resolveMaxFee, h, bigUint64]

/-! ## C13: a declined candidate -/

theorem dissolveMinipools_append {σ : Type} (env : Env σ) (t : Task) (xs ys : List Minipool)
    (w : σ) :
    dissolveMinipools env t (xs ++ ys) w =
      (dissolveMinipools env t ys (dissolveMinipools env t xs w).world).after
        (dissolveMinipools env t xs w).trace := by
  induction xs generalizing w with
  | nil => simp [dissolveMinipools, Out.after]
  | cons x xs ih =>
    have h1 : dissolveMinipools env t (x :: (xs ++ ys)) w =
        (dissolveMinipools env t (xs ++ ys) (dissolveMinipool env t x w).world).after
          ((dissolveMinipool env t x w).trace ++
            (match (dissolveMinipool env t x w).res with
              | some e => [Event.log (LogLine.couldNotDissolve x.address e)]
              | none => [])) := rfl
    have h2 : dissolveMinipools env t (x :: xs) w =
        (dissolveMinipools env t xs (dissolveMinipool env t x w).world).after
          ((dissolveMinipool env t x w).trace ++
            (match (dissolveMinipool env t x w).res with
              | some e => [Event.log (LogLine.couldNotDissolve x.address e)]
              | none => [])) := rfl
    rw [List.cons_append, h1, h2, ih]
    simp only [Out.after, List.append_assoc]

theorem dissolveMinipool_declined {σ : Type} (env : Env σ) (t : Task) (mp : Minipool)
    (w wa wb wc : σ) (opts : TransactOpts) (gasInfo : GasInfo) (maxFee : Int)
    (htx : env.getNodeAccountTransactor w = (.ok opts, wa))
    (hest : env.estimateDissolveGas mp opts wa = (.ok gasInfo, wb))
    (hfee : (resolveMaxFee env t wb).res = .ok maxFee)
    (hdecline : env.printAndCheckGasInfo gasInfo maxFee t.gasLimit (resolveMaxFee env t wb).world =
      (false, wc)) :
    (dissolveMinipool env t mp w).res = none ∧
      (dissolveMinipool env t mp w).trace =
        [Event.log (LogLine.dissolving mp.address), Event.getNodeAccountTransactor,
          Event.estimateDissolveGas mp] ++ (resolveMaxFee env t wb).trace ++
          [Event.printAndCheckGasInfo gasInfo maxFee t.gasLimit] := by
  simp only [dissolveMinipool, htx, hest, hfee, hdecline, Out.after_res, Out.after_trace]
  simp

/-- C13: when the approval gate declines for a candidate, `dissolveMinipool` returns no error
for it and its last call is the one to the gate (nothing is signed, submitted or waited for),
and `run` still enters the pipeline of every candidate, those after the declined one
included, and returns no error. -/
theorem declined_candidate_is_skipped {σ : Type} (env : Env σ) (t : Task) (w w1 w2 w3 wa wb wc : σ)
    (acct : Address) (before after : List Minipool) (mp : Minipool) (opts : TransactOpts)
    (gasInfo : GasInfo) (maxFee : Int)
    (hsync : env.waitEthClientSynced w = (none, w1))
    (hacct : env.getNodeAccount w1 = (.ok acct, w2))
    (htrusted : env.getMemberExists acct w2 = (.ok true, w3))
    (hget : (getTimedOutMinipools env w3).res = (before ++ mp :: after, none))
    (htx : env.getNodeAccountTransactor
      (dissolveMinipools env t before (getTimedOutMinipools env w3).world).world = (.ok opts, wa))
    (hest : env.estimateDissolveGas mp opts wa = (.ok gasInfo, wb))
    (hfee : (resolveMaxFee env t wb).res = .ok maxFee)
    (hdecline : env.printAndCheckGasInfo gasInfo maxFee t.gasLimit (resolveMaxFee env t wb).world =
      (false, wc)) :
    ((dissolveMinipool env t mp
        (dissolveMinipools env t before (getTimedOutMinipools env w3).world).world).res = none ∧
      (dissolveMinipool env t mp
        (dissolveMinipools env t before (getTimedOutMinipools env w3).world).world).trace =
        [Event.log (LogLine.dissolving mp.address), Event.getNodeAccountTransactor,
          Event.estimateDissolveGas mp] ++ (resolveMaxFee env t wb).trace ++
          [Event.printAndCheckGasInfo gasInfo maxFee t.gasLimit] ∧
      submissions (dissolveMinipool env t mp
        (dissolveMinipools env t before (getTimedOutMinipools env w3).world).world).trace = []) ∧
    ((dissolveTimedOutMinipools.run env t w).res = none ∧
      pipelineStarts (dissolveTimedOutMinipools.run env t w).trace = before ++ mp :: after ∧
      submissions (dissolveTimedOutMinipools.run env t w).trace =
        submissions (dissolveMinipools env t before (getTimedOutMinipools env w3).world).trace ++
          submissions (dissolveMinipools env t after wc).trace) := by
  obtain ⟨hres, htrace⟩ := dissolveMinipool_declined env t mp _ wa wb wc opts gasInfo maxFee
    htx hest hfee hdecline
  have hsub : submissions (dissolveMinipool env t mp
      (dissolveMinipools env t before (getTimedOutMinipools env w3).world).world).trace = [] := by
    rw [htrace, submissions_append, submissions_append, (resolveMaxFee_starts env t wb).2]
    rfl
  have hworld : (dissolveMinipool env t mp
      (dissolveMinipools env t before (getTimedOutMinipools env w3).world).world).world = wc := by
    simp only [dissolveMinipool, htx, hest, hfee, hdecline, Out.after_world]
  refine ⟨⟨hres, htrace, hsub⟩, ?_⟩
  obtain ⟨hisScan, -, -, -⟩ := scanMinipools_inv env w3
  obtain ⟨hrun, htr⟩ := run_trusted env t w w1 w2 w3 acct hsync hacct htrusted _ hget
  refine ⟨hrun, ?_, ?_⟩
  · rw [htr, pipelineStarts_append, pipelineStarts_append, pipelineStarts_of_isScan _ hisScan]
    rw [if_neg (by simp)]
    simp only [pipelineStarts_cons, dissolveMinipools_starts]
    rfl
  · rw [htr, submissions_append, submissions_append, submissions_of_isScan _ hisScan]
    rw [if_neg (by simp)]
    rw [dissolveMinipools_append]
    simp only [submissions_cons, submissions_append, Out.after_trace, dissolveMinipools, hres,
      hsub, hworld, List.nil_append, List.append_nil]
    rfl

/-- Witness of `declined_candidate_is_skipped`: of the sample candidates 1, 3, 5 and 7 the
gate declines the one at address 3; all four pipelines are entered, three transactions are
submitted and `run` returns no error. -/
theorem declined_candidate_is_skipped_witness :
    (dissolveTimedOutMinipools.run declinesEnv ⟨none, some 2, 0⟩ ()).res = none ∧
      pipelineStarts (dissolveTimedOutMinipools.run declinesEnv ⟨none, some 2, 0⟩ ()).trace =
        [⟨1⟩, ⟨3⟩, ⟨5⟩, ⟨7⟩] ∧
      (submissions (dissolveTimedOutMinipools.run declinesEnv ⟨none, some 2, 0⟩ ()).trace).length = 3 :=
  ⟨(declined_candidate_is_skipped declinesEnv ⟨none, some 2, 0⟩ () () () () () () () 7
      [⟨1⟩] [⟨5⟩, ⟨7⟩] ⟨3⟩ ⟨7, none, none, 0⟩ ⟨103, 150⟩ 55 rfl rfl rfl rfl rfl rfl rfl rfl).2.1,
    (declined_candidate_is_skipped declinesEnv ⟨none, some 2, 0⟩ () () () () () () () 7
      [⟨1⟩] [⟨5⟩, ⟨7⟩] ⟨3⟩ ⟨7, none, none, 0⟩ ⟨103, 150⟩ 55 rfl rfl rfl rfl rfl rfl rfl rfl).2.2.1,
    by decide⟩

/-! ## C14, C15: the errors of the pipeline -/

/-- C14, as stated, fails for `respondChallenges.run`: on a chain where the gate passes, the
challenge flag is read as true and the gas estimation fails, `run` returns the estimation
failure to its caller. -/
theorem respondRun_returns_estimation_failure :
    (respondChallenges.run estimationFailsEnv ⟨none, some 2, 0⟩ ()).res =
      some (Err.wrapped "Could not estimate the gas required to respond to the challenge"
        (Err.msg "node unreachable")) := by
  decide

/-- C14, amended: an error returned by `dissolveTimedOutMinipools.run` is the error of the
sync wait, of the node account lookup, of the membership check or of `getTimedOutMinipools`,
never one of a candidate's pipeline; an error returned by `respondChallenges.run` is one of
the gate, of the challenge flag read, or of a stage of its own pipeline (transactor, gas
estimation, fee resolution, submission, confirmation), which it returns to its caller. -/
theorem run_error_sources {σ : Type} (env : Env σ) (t : Task) (w : σ) (e : Err) :
    ((dissolveTimedOutMinipools.run env t w).res = some e →
      (∃ w1, env.waitEthClientSynced w = (some e, w1)) ∨
      (∃ w1 w2, env.getNodeAccount w1 = (.error e, w2)) ∨
      (∃ acct w2 w3, env.getMemberExists acct w2 = (.error e, w3)) ∨
      (∃ w3 minipools, (getTimedOutMinipools env w3).res = (minipools, some e))) ∧
    ((respondChallenges.run env t w).res = some e →
      (∃ w1, env.waitEthClientSynced w = (some e, w1)) ∨
      (∃ w1 w2, env.getNodeAccount w1 = (.error e, w2)) ∨
      (∃ acct w2 w3, env.getMemberExists acct w2 = (.error e, w3)) ∨
      (∃ acct w3 w4, env.getMemberIsChallenged acct w3 = (.error e, w4)) ∨
      (∃ w4 w5, env.getNodeAccountTransactor w4 = (.error e, w5)) ∨
      (∃ acct opts w5 w6 cause, env.estimateDecideChallengeGas acct opts w5 = (.error cause, w6) ∧
        e = Err.wrapped "Could not estimate the gas required to respond to the challenge" cause) ∨
      (∃ w6, (resolveMaxFee env t w6).res = .error e) ∨
      (∃ acct opts w8 w9, env.decideChallenge acct opts w8 = (.error e, w9)) ∨
      (∃ hash w9 w10, env.printAndWaitForTransaction hash w9 = (some e, w10))) := by
  constructor
  · intro h
    simp only [dissolveTimedOutMinipools.run] at h
    split at h
    · rename_i e1 w1 heq
      simp only [Out.after_res, Option.some.injEq] at h
      subst h
      exact Or.inl ⟨w1, heq⟩
    · split at h
      · rename_i e1 w2 heq
        simp only [Out.after_res, Option.some.injEq] at h
        subst h
        exact Or.inr (Or.inl ⟨_, w2, heq⟩)
      · split at h
        · rename_i e1 w3 heq
          simp only [Out.after_res, Option.some.injEq] at h
          subst h
          exact Or.inr (Or.inr (Or.inl ⟨_, _, w3, heq⟩))
        · simp only [Out.after_res] at h
          cases h
        · rename_i w3 heq
          simp only [Out.after_res] at h
          split at h
          · rename_i l e1 heq2
            simp only [Option.some.injEq] at h
            subst h
            exact Or.inr (Or.inr (Or.inr ⟨w3, l, heq2⟩))
          · split at h <;> cases h
  · intro h
    simp only [respondChallenges.run] at h
    split at h
    · rename_i e1 w1 heq
      simp only [Out.after_res, Option.some.injEq] at h
      subst h
      exact Or.inl ⟨w1, heq⟩
    · split at h
      · rename_i e1 w2 heq
        simp only [Out.after_res, Option.some.injEq] at h
        subst h
        exact Or.inr (Or.inl ⟨_, w2, heq⟩)
      · split at h
        · rename_i e1 w3 heq
          simp only [Out.after_res, Option.some.injEq] at h
          subst h
          exact Or.inr (Or.inr (Or.inl ⟨_, _, w3, heq⟩))
        · simp only [Out.after_res] at h
          cases h
        · split at h
          · rename_i e1 w4 heq
            simp only [Out.after_res, Option.some.injEq] at h
            subst h
            exact Or.inr (Or.inr (Or.inr (Or.inl ⟨_, _, w4, heq⟩)))
          · simp only [Out.after_res] at h
            cases h
          · split at h
            · rename_i e1 w5 heq
              simp only [Out.after_res, Option.some.injEq] at h
              subst h
              exact Or.inr (Or.inr (Or.inr (Or.inr (Or.inl ⟨_, w5, heq⟩))))
            · split at h
              · rename_i e1 w6 heq
                simp only [Out.after_res, Option.some.injEq] at h
                subst h
                exact Or.inr (Or.inr (Or.inr (Or.inr (Or.inr (Or.inl ⟨_, _, _, w6, e1, heq, rfl⟩)))))
              · rename_i w6 heq
                simp only [Out.after_res] at h
                split at h
                · rename_i e1 heq2
                  simp only [Option.some.injEq] at h
                  subst h
                  exact Or.inr (Or.inr (Or.inr (Or.inr (Or.inr (Or.inr (Or.inl ⟨w6, heq2⟩))))))
                · simp only [Out.after_res] at h
                  split at h
                  · cases h
                  · simp only [Out.after_res] at h
                    split at h
                    · rename_i e1 w9 heq3
                      simp only [Option.some.injEq] at h
                      subst h
                      exact Or.inr (Or.inr (Or.inr (Or.inr (Or.inr (Or.inr (Or.inr
                        (Or.inl ⟨_, _, _, w9, heq3⟩)))))))
                    · simp only [Out.after_res] at h
                      split at h
                      · rename_i e1 w10 heq4
                        simp only [Option.some.injEq] at h
                        subst h
                        exact Or.inr (Or.inr (Or.inr (Or.inr (Or.inr (Or.inr (Or.inr
                          (Or.inr ⟨_, _, w10, heq4⟩)))))))
                      · cases h

/-- Witness of `run_error_sources`: the error `respondChallenges.run` returns on the chain
whose gas estimation fails is the wrapped estimation failure of its pipeline. -/
theorem run_error_sources_witness :
    (respondChallenges.run estimationFailsEnv ⟨none, some 2, 0⟩ ()).res =
        some (Err.wrapped "Could not estimate the gas required to respond to the challenge"
          (Err.msg "node unreachable")) ∧
      ((∃ w1, estimationFailsEnv.waitEthClientSynced () =
          (some (Err.wrapped "Could not estimate the gas required to respond to the challenge"
            (Err.msg "node unreachable")), w1)) ∨
      (∃ w1 w2, estimationFailsEnv.getNodeAccount w1 =
          (.error (Err.wrapped "Could not estimate the gas required to respond to the challenge"
            (Err.msg "node unreachable")), w2)) ∨
      (∃ acct w2 w3, estimationFailsEnv.getMemberExists acct w2 =
          (.error (Err.wrapped "Could not estimate the gas required to respond to the challenge"
            (Err.msg "node unreachable")), w3)) ∨
      (∃ acct w3 w4, estimationFailsEnv.getMemberIsChallenged acct w3 =
          (.error (Err.wrapped "Could not estimate the gas required to respond to the challenge"
            (Err.msg "node unreachable")), w4)) ∨
      (∃ w4 w5, estimationFailsEnv.getNodeAccountTransactor w4 =
          (.error (Err.wrapped "Could not estimate the gas required to respond to the challenge"
            (Err.msg "node unreachable")), w5)) ∨
      (∃ acct opts w5 w6 cause,
        estimationFailsEnv.estimateDecideChallengeGas acct opts w5 = (.error cause, w6) ∧
        Err.wrapped "Could not estimate the gas required to respond to the challenge"
            (Err.msg "node unreachable") =
          Err.wrapped "Could not estimate the gas required to respond to the challenge" cause) ∨
      (∃ w6, (resolveMaxFee estimationFailsEnv ⟨none, some 2, 0⟩ w6).res =
          .error (Err.wrapped "Could not estimate the gas required to respond to the challenge"
            (Err.msg "node unreachable"))) ∨
      (∃ acct opts w8 w9, estimationFailsEnv.decideChallenge acct opts w8 =
          (.error (Err.wrapped "Could not estimate the gas required to respond to the challenge"
            (Err.msg "node unreachable")), w9)) ∨
      (∃ hash w9 w10, estimationFailsEnv.printAndWaitForTransaction hash w9 =
          (some (Err.wrapped "Could not estimate the gas required to respond to the challenge"
            (Err.msg "node unreachable")), w10))) :=
  ⟨by decide,
    (run_error_sources estimationFailsEnv ⟨none, some 2, 0⟩ ()
      (Err.wrapped "Could not estimate the gas required to respond to the challenge"
        (Err.msg "node unreachable"))).2 (by decide)⟩

/-- C15, as stated, fails: a fee-resolution, a submission and a confirmation failure are
returned as the callee produced them, without a stage name; when the three callees fail with
the same error value, `dissolveMinipool` returns the same error in the three cases, and so
does `respondChallenges.run` for the last two. -/
theorem pipeline_failures_not_tagged :
    ((dissolveMinipool feeLookupFailsEnv ⟨none, some 2, 0⟩ ⟨3⟩ ()).res =
        some (Err.msg "node unreachable") ∧
      (dissolveMinipool submissionFailsEnv ⟨none, some 2, 0⟩ ⟨3⟩ ()).res =
        some (Err.msg "node unreachable") ∧
      (dissolveMinipool confirmationFailsEnv ⟨none, some 2, 0⟩ ⟨3⟩ ()).res =
        some (Err.msg "node unreachable")) ∧
    ((respondChallenges.run submissionFailsEnv ⟨none, some 2, 0⟩ ()).res =
        some (Err.msg "node unreachable") ∧
      (respondChallenges.run confirmationFailsEnv ⟨none, some 2, 0⟩ ()).res =
        some (Err.msg "node unreachable")) := by
  refine ⟨⟨?_, ?_, ?_⟩, ⟨?_, ?_⟩⟩ <;> decide

/-- The stages of `dissolveMinipool` after the transactor: what each failure returns. -/
theorem dissolveMinipool_stage_errors {σ : Type} (env : Env σ) (t : Task) (mp : Minipool)
    (w wa : σ) (opts : TransactOpts)
    (htx : env.getNodeAccountTransactor w = (.ok opts, wa)) :
    (∀ cause wb, env.estimateDissolveGas mp opts wa = (.error cause, wb) →
      (dissolveMinipool env t mp w).res =
        some (Err.wrapped "Could not estimate the gas required to dissolve the minipool" cause)) ∧
    (∀ gasInfo wb, env.estimateDissolveGas mp opts wa = (.ok gasInfo, wb) →
      (∀ e, (resolveMaxFee env t wb).res = .error e → (dissolveMinipool env t mp w).res = some e) ∧
      (∀ maxFee wc, (resolveMaxFee env t wb).res = .ok maxFee →
        env.printAndCheckGasInfo gasInfo maxFee t.gasLimit (resolveMaxFee env t wb).world = (true, wc) →
        (∀ e wd, env.dissolve mp ⟨opts.fromAddr, some maxFee, t.maxPriorityFee,
            resolveGasLimit t gasInfo⟩ wc = (.error e, wd) →
          (dissolveMinipool env t mp w).res = some e) ∧
        (∀ hash wd e we, env.dissolve mp ⟨opts.fromAddr, some maxFee, t.maxPriorityFee,
            resolveGasLimit t gasInfo⟩ wc = (.ok hash, wd) →
          env.printAndWaitForTransaction hash wd = (some e, we) →
          (dissolveMinipool env t mp w).res = some e))) := by
  refine ⟨?_, ?_⟩
  · intro cause wb hest
    simp only [dissolveMinipool, htx, hest, Out.after_res]
  · intro gasInfo wb hest
    refine ⟨?_, ?_⟩
    · intro e hfee
      simp only [dissolveMinipool, htx, hest, hfee, Out.after_res]
    · intro maxFee wc hfee hgate
      refine ⟨?_, ?_⟩
      · intro e wd hsub
        simp only [dissolveMinipool, htx, hest, hfee, hgate, hsub, Out.after_res]
      · intro hash wd e we hsub hwait
        simp only [dissolveMinipool, htx, hest, hfee, hgate, hsub, hwait, Out.after_res]

/-- The stages of the pipeline of `respondChallenges.run` after the transactor: what each
failure returns. -/
theorem respondRun_stage_errors {σ : Type} (env : Env σ) (t : Task) (w w1 w2 w3 w4 wa : σ)
    (acct : Address) (opts : TransactOpts)
    (hsync : env.waitEthClientSynced w = (none, w1))
    (hacct : env.getNodeAccount w1 = (.ok acct, w2))
    (htrusted : env.getMemberExists acct w2 = (.ok true, w3))
    (hflag : env.getMemberIsChallenged acct w3 = (.ok true, w4))
    (htx : env.getNodeAccountTransactor w4 = (.ok opts, wa)) :
    (∀ cause wb, env.estimateDecideChallengeGas acct opts wa = (.error cause, wb) →
      (respondChallenges.run env t w).res =
        some (Err.wrapped "Could not estimate the gas required to respond to the challenge" cause)) ∧
    (∀ gasInfo wb, env.estimateDecideChallengeGas acct opts wa = (.ok gasInfo, wb) →
      (∀ e, (resolveMaxFee env t wb).res = .error e → (respondChallenges.run env t w).res = some e) ∧
      (∀ maxFee wc, (resolveMaxFee env t wb).res = .ok maxFee →
        env.printAndCheckGasInfo gasInfo maxFee t.gasLimit (resolveMaxFee env t wb).world = (true, wc) →
        (∀ e wd, env.decideChallenge acct ⟨opts.fromAddr, some maxFee, t.maxPriorityFee,
            resolveGasLimit t gasInfo⟩ wc = (.error e, wd) →
          (respondChallenges.run env t w).res = some e) ∧
        (∀ hash wd e we, env.decideChallenge acct ⟨opts.fromAddr, some maxFee, t.maxPriorityFee,
            resolveGasLimit t gasInfo⟩ wc = (.ok hash, wd) →
          env.printAndWaitForTransaction hash wd = (some e, we) →
          (respondChallenges.run env t w).res = some e))) := by
  refine ⟨?_, ?_⟩
  · intro cause wb hest
    simp only [respondChallenges.run, hsync, hacct, htrusted, hflag, htx, hest, Out.after_res]
  · intro gasInfo wb hest
    refine ⟨?_, ?_⟩
    · intro e hfee
      simp only [respondChallenges.run, hsync, hacct, htrusted, hflag, htx, hest, hfee,
        Out.after_res]
    · intro maxFee wc hfee hgate
      refine ⟨?_, ?_⟩
      · intro e wd hsub
        simp only [respondChallenges.run, hsync, hacct, htrusted, hflag, htx, hest, hfee, hgate,
          hsub, Out.after_res]
      · intro hash wd e we hsub hwait
        simp only [respondChallenges.run, hsync, hacct, htrusted, hflag, htx, hest, hfee, hgate,
          hsub, hwait, Out.after_res]

/-- C15, amended: in both pipelines an estimation failure is returned wrapped in a message
that names the estimation ("Could not estimate the gas required to ..."), while a
fee-resolution, a submission and a confirmation failure are each returned exactly as the
callee produced them. -/
theorem pipeline_stage_errors {σ : Type} (env : Env σ) (t : Task) (mp : Minipool)
    (v wa w w1 w2 w3 w4 wr : σ) (acct : Address) (opts optsR : TransactOpts)
    (htx : env.getNodeAccountTransactor v = (.ok opts, wa))
    (hsync : env.waitEthClientSynced w = (none, w1))
    (hacct : env.getNodeAccount w1 = (.ok acct, w2))
    (htrusted : env.getMemberExists acct w2 = (.ok true, w3))
    (hflag : env.getMemberIsChallenged acct w3 = (.ok true, w4))
    (htxR : env.getNodeAccountTransactor w4 = (.ok optsR, wr)) :
    ((∀ cause wb, env.estimateDissolveGas mp opts wa = (.error cause, wb) →
      (dissolveMinipool env t mp v).res =
        some (Err.wrapped "Could not estimate the gas required to dissolve the minipool" cause)) ∧
    (∀ gasInfo wb, env.estimateDissolveGas mp opts wa = (.ok gasInfo, wb) →
      (∀ e, (resolveMaxFee env t wb).res = .error e → (dissolveMinipool env t mp v).res = some e) ∧
      (∀ maxFee wc, (resolveMaxFee env t wb).res = .ok maxFee →
        env.printAndCheckGasInfo gasInfo maxFee t.gasLimit (resolveMaxFee env t wb).world = (true, wc) →
        (∀ e wd, env.dissolve mp ⟨opts.fromAddr, some maxFee, t.maxPriorityFee,
            resolveGasLimit t gasInfo⟩ wc = (.error e, wd) →
          (dissolveMinipool env t mp v).res = some e) ∧
        (∀ hash wd e we, env.dissolve mp ⟨opts.fromAddr, some maxFee, t.maxPriorityFee,
            resolveGasLimit t gasInfo⟩ wc = (.ok hash, wd) →
          env.printAndWaitForTransaction hash wd = (some e, we) →
          (dissolveMinipool env t mp v).res = some e)))) ∧
    ((∀ cause wb, env.estimateDecideChallengeGas acct optsR wr = (.error cause, wb) →
      (respondChallenges.run env t w).res =
        some (Err.wrapped "Could not estimate the gas required to respond to the challenge" cause)) ∧
    (∀ gasInfo wb, env.estimateDecideChallengeGas acct optsR wr = (.ok gasInfo, wb) →
      (∀ e, (resolveMaxFee env t wb).res = .error e → (respondChallenges.run env t w).res = some e) ∧
      (∀ maxFee wc, (resolveMaxFee env t wb).res = .ok maxFee →
        env.printAndCheckGasInfo gasInfo maxFee t.gasLimit (resolveMaxFee env t wb).world = (true, wc) →
        (∀ e wd, env.decideChallenge acct ⟨optsR.fromAddr, some maxFee, t.maxPriorityFee,
            resolveGasLimit t gasInfo⟩ wc = (.error e, wd) →
          (respondChallenges.run env t w).res = some e) ∧
        (∀ hash wd e we, env.decideChallenge acct ⟨optsR.fromAddr, some maxFee, t.maxPriorityFee,
            resolveGasLimit t gasInfo⟩ wc = (.ok hash, wd) →
          env.printAndWaitForTransaction hash wd = (some e, we) →
          (respondChallenges.run env t w).res = some e)))) :=
  ⟨dissolveMinipool_stage_errors env t mp v wa opts htx,
    respondRun_stage_errors env t w w1 w2 w3 w4 wr acct optsR hsync hacct htrusted hflag htxR⟩

/-- Witness of `pipeline_stage_errors`: on the sample chain the estimation for minipool 1
fails and is returned wrapped; on the chain whose submissions fail, the failure of the
decide-challenge submission is returned as it is. -/
theorem pipeline_stage_errors_witness :
    (dissolveMinipool (sampleEnv 4 none true true) ⟨none, some 2, 0⟩ ⟨1⟩ ()).res =
        some (Err.wrapped "Could not estimate the gas required to dissolve the minipool"
          (Err.msg "estimation failed")) ∧
      (respondChallenges.run submissionFailsEnv ⟨none, some 2, 0⟩ ()).res =
        some (Err.msg "node unreachable") :=
  ⟨(pipeline_stage_errors (sampleEnv 4 none true true) ⟨none, some 2, 0⟩ ⟨1⟩ () () () () () () () ()
      7 ⟨7, none, none, 0⟩ ⟨7, none, none, 0⟩ rfl rfl rfl rfl rfl rfl).1.1
      (Err.msg "estimation failed") () rfl,
    (((pipeline_stage_errors submissionFailsEnv ⟨none, some 2, 0⟩ ⟨1⟩ () () () () () () () ()
      7 ⟨7, none, none, 0⟩ ⟨7, none, none, 0⟩ rfl rfl rfl rfl rfl rfl).2.2
      ⟨100, 150⟩ () rfl).2 55 () rfl rfl).1 (Err.msg "node unreachable") () rfl⟩

/-! ## C16: a failed chain read -/

theorem createMinipools_error_source {σ : Type} (env : Env σ) (addresses : List Address) (w : σ)
    (e : Err) (h : (createMinipools env addresses w).res = .error e) :
    ∃ a w1 w2, env.newMinipool a w1 = (some e, w2) := by
  induction addresses generalizing w with
  | nil => simp [createMinipools] at h
  | cons a rest ih =>
    simp only [createMinipools] at h
    split at h
    · rename_i e1 w1 heq
      simp only [Except.error.injEq] at h
      subst h
      exact ⟨a, w, w1, heq⟩
    · rename_i w1 heq
      simp only at h
      cases hr : (createMinipools env rest w1).res with
      | error e1 =>
        rw [hr] at h
        simp only [Except.error.injEq] at h
        subst h
        exact ih w1 hr
      | ok mps => rw [hr] at h; cases h

theorem statusBatch_mem {σ : Type} (env : Env σ) (minipools : List Minipool) (bsi : Nat)
    (hlt : bsi < minipools.length) :
    ∀ g ∈ (List.range' bsi
        ((if bsi + MinipoolStatusBatchSize > minipools.length then minipools.length
          else bsi + MinipoolStatusBatchSize) - bsi)).map (statusGoroutine env minipools),
      ∃ mi, mi < minipools.length ∧ g = statusGoroutine env minipools mi := by
  intro g hg
  obtain ⟨mi, hmi, rfl⟩ := List.mem_map.mp hg
  refine ⟨mi, ?_, rfl⟩
  have := List.mem_range'_1.mp hmi
  simp only [MinipoolStatusBatchSize] at this
  split at this <;> omega

theorem loadStatuses_ran_perm {σ : Type} (env : Env σ) (minipools : List Minipool)
    (fuel bsi : Nat) (statuses : List StatusDetails) (w : σ) :
    ∀ sp ran, Event.errgroup sp ran ∈ (loadStatuses env minipools fuel bsi statuses w).trace →
      (ran.map Prod.fst).Perm sp := by
  induction fuel generalizing bsi statuses w with
  | zero => simp [loadStatuses]
  | succ fuel ih =>
    intro sp ran hmem
    simp only [loadStatuses] at hmem
    split at hmem
    · obtain ⟨ran1, htr, hperm, -⟩ := errgroupWait_trace env
        ((List.range' bsi
          ((if bsi + MinipoolStatusBatchSize > minipools.length then minipools.length
            else bsi + MinipoolStatusBatchSize) - bsi)).map (statusGoroutine env minipools))
        statuses w
      split at hmem
      · simp only [htr, List.mem_singleton, Event.errgroup.injEq] at hmem
        obtain ⟨rfl, rfl⟩ := hmem
        exact hperm
      · simp only [Out.after_trace, htr, List.singleton_append, List.mem_cons,
          Event.errgroup.injEq] at hmem
        rcases hmem with ⟨rfl, rfl⟩ | hmem
        · exact hperm
        · exact ih _ _ _ sp ran hmem
    · simp at hmem

theorem spawnedBatches_newMinipool (tr : List Event) (h : ∀ ev ∈ tr, ∃ a, ev = Event.newMinipool a) :
    spawnedBatches tr = [] := by
  apply List.filterMap_eq_nil_iff.mpr
  intro ev hev
  obtain ⟨a, rfl⟩ := h ev hev
  rfl

/-- Where the events of a scan come from. -/
theorem scanMinipools_events {σ : Type} (env : Env σ) (w : σ) :
    ∀ ev ∈ (scanMinipools env w).trace,
      ev ∈ (errgroupWait env (scanGoroutines env) (⟨[], 0, none⟩ : ScanVars) w).trace ∨
      (∃ a, ev = Event.newMinipool a) ∨
      (∃ minipools w2, ev ∈ (loadStatuses env minipools minipools.length 0
        (List.replicate minipools.length StatusDetails.zero) w2).trace) := by
  intro ev hev
  simp only [scanMinipools] at hev
  split at hev
  · exact Or.inl hev
  · rename_i v heq
    have h2 := createMinipools_trace env v.addresses
      (errgroupWait env (scanGoroutines env) (⟨[], 0, none⟩ : ScanVars) w).world
    split at hev
    · rcases List.mem_append.mp hev with h | h
      · exact Or.inl h
      · exact Or.inr (Or.inl (h2 ev h))
    · rename_i minipools heq2
      have key : ev ∈ (errgroupWait env (scanGoroutines env) (⟨[], 0, none⟩ : ScanVars) w).trace ++
          (createMinipools env v.addresses
            (errgroupWait env (scanGoroutines env) (⟨[], 0, none⟩ : ScanVars) w).world).trace ++
          (loadStatuses env minipools minipools.length 0
            (List.replicate minipools.length StatusDetails.zero)
            (createMinipools env v.addresses
              (errgroupWait env (scanGoroutines env) (⟨[], 0, none⟩ : ScanVars) w).world).world).trace := by
        split at hev
        · exact hev
        · split at hev <;> exact hev
      rcases List.mem_append.mp key with h | h
      · rcases List.mem_append.mp h with h | h
        · exact Or.inl h
        · exact Or.inr (Or.inl (h2 ev h))
      · exact Or.inr (Or.inr ⟨minipools, _, h⟩)

/-- In every fan-out of a scan the reads that ran are the reads spawned, each once. -/
theorem scanMinipools_ran_perm {σ : Type} (env : Env σ) (w : σ) :
    ∀ sp ran, Event.errgroup sp ran ∈ (scanMinipools env w).trace → (ran.map Prod.fst).Perm sp := by
  intro sp ran hmem
  rcases scanMinipools_events env w _ hmem with h | ⟨a, h⟩ | ⟨minipools, w2, h⟩
  · obtain ⟨ran1, htr, hperm, -⟩ := errgroupWait_trace env (scanGoroutines env)
      (⟨[], 0, none⟩ : ScanVars) w
    rw [htr] at h
    simp only [List.mem_singleton, Event.errgroup.injEq] at h
    obtain ⟨rfl, rfl⟩ := h
    exact hperm
  · cases h
  · exact loadStatuses_ran_perm env minipools _ _ _ w2 sp ran h

/-- The reads a scan spawns, over all its fan-outs: the three initial reads and the status
reads of the indices below some bound, in order. -/
theorem scanMinipools_spawned {σ : Type} (env : Env σ) (w : σ) :
    ∃ k, (spawnedBatches (scanMinipools env w).trace).flatten =
      [Read.getMinipoolAddresses, Read.getMinipoolLaunchTimeout, Read.headerByNumber] ++
        (List.range' 0 k).map Read.getStatusDetails := by
  obtain ⟨ran, htr, -, -⟩ := errgroupWait_trace env (scanGoroutines env) (⟨[], 0, none⟩ : ScanVars) w
  have hreads : (scanGoroutines env).map (fun g => g.read) =
      [Read.getMinipoolAddresses, Read.getMinipoolLaunchTimeout, Read.headerByNumber] := rfl
  rw [hreads] at htr
  have h1 : spawnedBatches (errgroupWait env (scanGoroutines env) (⟨[], 0, none⟩ : ScanVars) w).trace =
      [[Read.getMinipoolAddresses, Read.getMinipoolLaunchTimeout, Read.headerByNumber]] := by
    rw [htr]; rfl
  simp only [scanMinipools]
  split
  · exact ⟨0, by rw [h1]; rfl⟩
  · rename_i v heq
    have h2 := spawnedBatches_newMinipool _ (createMinipools_trace env v.addresses
      (errgroupWait env (scanGoroutines env) (⟨[], 0, none⟩ : ScanVars) w).world)
    split
    · exact ⟨0, by rw [spawnedBatches_append, h1, h2]; rfl⟩
    · rename_i minipools heq2
      obtain ⟨⟨m, -, hm⟩, -⟩ := loadStatuses_batches_from env minipools minipools.length 0
        (List.replicate minipools.length StatusDetails.zero)
        (createMinipools env v.addresses
          (errgroupWait env (scanGoroutines env) (⟨[], 0, none⟩ : ScanVars) w).world).world
        (by omega)
      rw [show MinipoolStatusBatchSize * 0 = 0 from rfl] at hm
      have key : (spawnedBatches
          ((errgroupWait env (scanGoroutines env) (⟨[], 0, none⟩ : ScanVars) w).trace ++
          (createMinipools env v.addresses
            (errgroupWait env (scanGoroutines env) (⟨[], 0, none⟩ : ScanVars) w).world).trace ++
          (loadStatuses env minipools minipools.length 0
            (List.replicate minipools.length StatusDetails.zero)
            (createMinipools env v.addresses
              (errgroupWait env (scanGoroutines env) (⟨[], 0, none⟩ : ScanVars) w).world).world).trace)).flatten =
          [Read.getMinipoolAddresses, Read.getMinipoolLaunchTimeout, Read.headerByNumber] ++
            (List.range' 0 (min minipools.length (20 * (0 + m)) - 20 * 0)).map
              Read.getStatusDetails := by
        rw [spawnedBatches_append, spawnedBatches_append, h1, h2, hm, List.append_nil,
          List.singleton_append, List.flatten_cons, specBatch_flatten]
      refine ⟨min minipools.length (20 * (0 + m)) - 20 * 0, ?_⟩
      split
      · exact key
      · split <;> exact key

theorem scanMinipools_spawned_nodup {σ : Type} (env : Env σ) (w : σ) :
    (spawnedBatches (scanMinipools env w).trace).flatten.Nodup := by
  obtain ⟨k, hk⟩ := scanMinipools_spawned env w
  rw [hk]
  apply List.Nodup.append
  · decide
  · apply List.Nodup.map
    · intro a b hab
      cases hab
      rfl
    · exact List.nodup_range' 0 k
  · intro r h1 h2
    obtain ⟨mi, -, rfl⟩ := List.mem_map.mp h2
    simp at h1

theorem run_scan_failed {σ : Type} (env : Env σ) (t : Task) (w w1 w2 w3 : σ) (acct : Address)
    (e : Err)
    (hsync : env.waitEthClientSynced w = (none, w1))
    (hacct : env.getNodeAccount w1 = (.ok acct, w2))
    (htrusted : env.getMemberExists acct w2 = (.ok true, w3))
    (hscan : (scanMinipools env w3).res = .error e) :
    (dissolveTimedOutMinipools.run env t w).res = some e ∧
      (dissolveTimedOutMinipools.run env t w).trace =
        [Event.waitEthClientSynced, Event.getNodeAccount, Event.getMemberExists acct,
          Event.log LogLine.checkingTimedOut] ++ (scanMinipools env w3).trace := by
  have hget := getTimedOutMinipools_error env w3 e hscan
  simp only [dissolveTimedOutMinipools.run, hsync, hacct, htrusted, hget, Out.after_res,
    Out.after_trace, getTimedOutMinipools_trace]
  simp

theorem firstFailed_any (ran : List (Read × Bool)) (r : Read) (h : firstFailed ran = some r) :
    (ran.any fun x => x.2) = true := by
  induction ran with
  | nil => cases h
  | cons x ran ih =>
    obtain ⟨r0, failed⟩ := x
    cases failed with
    | true => simp
    | false =>
      simp only [firstFailed, Bool.false_eq_true, if_false] at h
      simp [ih h]

/-- The error a fan-out returns is the error of the goroutine that failed first in the order
in which the goroutines ran. -/
theorem runGoroutines_first_error {σ φ : Type} (gs : List (Goroutine σ φ)) (f : φ) (w : σ)
    (e : Err) (h : (runGoroutines gs f w).1 = some e) :
    ∃ g ∈ gs, firstFailed (runGoroutines gs f w).2.2.2 = some g.read ∧
      ∃ f1 w1, (g.body f1 w1).1.1 = some e := by
  induction gs generalizing f w with
  | nil => cases h
  | cons g gs ih =>
    simp only [runGoroutines] at h ⊢
    cases hb : (g.body f w).1.1 with
    | some e1 =>
      rw [hb] at h
      simp only [Option.some.injEq] at h
      subst h
      refine ⟨g, List.mem_cons_self _ _, ?_, f, w, hb⟩
      simp [firstFailed]
    | none =>
      rw [hb] at h
      obtain ⟨g1, hg1, hfirst, f1, w1, h1⟩ := ih _ _ h
      refine ⟨g1, List.mem_cons_of_mem _ hg1, ?_, f1, w1, h1⟩
      simp only [firstFailed, Option.isSome_none, Bool.false_eq_true, if_false]
      exact hfirst

theorem errgroupWait_first_error {σ φ : Type} (env : Env σ) (gs : List (Goroutine σ φ)) (f : φ)
    (w : σ) (e : Err) (x : φ) (h : (errgroupWait env gs f w).res = (some e, x)) :
    ∃ ran, (errgroupWait env gs f w).trace = [Event.errgroup (gs.map fun g => g.read) ran] ∧
      ∃ g ∈ gs, firstFailed ran = some g.read ∧ ∃ f1 w1, (g.body f1 w1).1.1 = some e := by
  have h1 : (runGoroutines (pickOrder (env.schedule w) gs) f w).1 = some e :=
    congrArg Prod.fst h
  obtain ⟨g, hg, hfirst, f1, w1, hb⟩ := runGoroutines_first_error _ f w e h1
  exact ⟨_, rfl, g, (pickOrder_perm _ gs).subset hg, hfirst, f1, w1, hb⟩

theorem scanGoroutines_readFails {σ : Type} (env : Env σ) (minipools : List Minipool)
    (g : Goroutine σ ScanVars) (hg : g ∈ scanGoroutines env) (f1 : ScanVars) (w1 : σ) (e : Err)
    (hb : (g.body f1 w1).1.1 = some e) : readFails env minipools g.read e := by
  simp only [scanGoroutines, List.mem_cons, List.mem_singleton, List.not_mem_nil, or_false] at hg
  rcases hg with rfl | rfl | rfl
  · simp only at hb
    split at hb
    · cases hb
    · rename_i e1 w2 heq
      simp only [Option.some.injEq] at hb
      subst hb
      exact ⟨w1, w2, heq⟩
  · simp only at hb
    split at hb
    · cases hb
    · rename_i e1 w2 heq
      simp only [Option.some.injEq] at hb
      subst hb
      exact ⟨w1, w2, heq⟩
  · simp only at hb
    split at hb
    · cases hb
    · rename_i e1 w2 heq
      simp only [Option.some.injEq] at hb
      subst hb
      exact ⟨w1, w2, heq⟩

theorem statusGoroutine_readFails {σ : Type} (env : Env σ) (minipools : List Minipool)
    (mi : Nat) (hmi : mi < minipools.length) (f1 : List StatusDetails) (w1 : σ) (e : Err)
    (hb : ((statusGoroutine env minipools mi).body f1 w1).1.1 = some e) :
    readFails env minipools (statusGoroutine env minipools mi).read e := by
  simp only [statusGoroutine, List.getElem?_eq_getElem hmi] at hb
  split at hb
  · cases hb
  · rename_i e1 w2 heq
    simp only [Option.some.injEq] at hb
    subst hb
    exact ⟨minipools[mi], List.getElem?_eq_getElem hmi, w1, w2, heq⟩

/-- A failed `loadStatuses` ends with the fan-out of the failed batch and returns the error
of the status read that failed first in it. -/
theorem loadStatuses_first_error {σ : Type} (env : Env σ) (minipools : List Minipool)
    (fuel bsi : Nat) (statuses : List StatusDetails) (w : σ) (e : Err)
    (h : (loadStatuses env minipools fuel bsi statuses w).res = .error e) :
    ∃ pre sp ran r, (loadStatuses env minipools fuel bsi statuses w).trace =
        pre ++ [Event.errgroup sp ran] ∧
      boundMinipools pre = [] ∧ firstFailed ran = some r ∧ readFails env minipools r e := by
  induction fuel generalizing bsi statuses w with
  | zero => simp [loadStatuses] at h
  | succ fuel ih =>
    simp only [loadStatuses] at h ⊢
    split at h
    · rename_i hlt
      rw [if_pos hlt]
      split at h
      · rename_i e1 x heq
        simp only [Except.error.injEq] at h
        subst h
        obtain ⟨ran, htr, g, hg, hfirst, f1, w1, hb⟩ :=
          errgroupWait_first_error env _ statuses w e1 x heq
        obtain ⟨mi, hmi, rfl⟩ := statusBatch_mem env minipools bsi hlt g hg
        simp only [heq]
        exact ⟨[], _, ran, _, by rw [htr]; rfl, rfl, hfirst,
          statusGoroutine_readFails env minipools mi hmi f1 w1 e1 hb⟩
      · rename_i statuses1 heq
        simp only [Out.after_res] at h
        obtain ⟨pre, sp, ran, r, htr, hpre, hfirst, hr⟩ := ih _ _ _ h
        obtain ⟨ran0, htr0, -, -⟩ := errgroupWait_trace env
          ((List.range' bsi
            ((if bsi + MinipoolStatusBatchSize > minipools.length then minipools.length
              else bsi + MinipoolStatusBatchSize) - bsi)).map (statusGoroutine env minipools))
          statuses w
        simp only [heq, Out.after_trace]
        refine ⟨Event.errgroup
          (((List.range' bsi
            ((if bsi + MinipoolStatusBatchSize > minipools.length then minipools.length
              else bsi + MinipoolStatusBatchSize) - bsi)).map
            (statusGoroutine env minipools)).map fun g => g.read) ran0 :: pre,
          sp, ran, r, ?_, ?_, hfirst, hr⟩
        · rw [htr, htr0]
          rfl
        · simp only [boundMinipools, List.filterMap_cons] at hpre ⊢
          exact hpre
    · cases h

theorem boundMinipools_append (tr1 tr2 : List Event) :
    boundMinipools (tr1 ++ tr2) = boundMinipools tr1 ++ boundMinipools tr2 := by
  simp [boundMinipools, List.filterMap_append]

theorem boundMinipools_newMinipool (addresses : List Address) :
    boundMinipools (addresses.map Event.newMinipool) = addresses.map Minipool.mk := by
  induction addresses with
  | nil => rfl
  | cons a rest ih =>
    simp only [List.map_cons, boundMinipools, List.filterMap_cons] at ih ⊢
    rw [ih]

/-- A scan that fails ends with the fan-out of the failed read and returns the error of the
read that failed first in that fan-out, or, when no read failed, returns the error of a
contract binding. -/
theorem scanMinipools_first_error {σ : Type} (env : Env σ) (w : σ) (e : Err)
    (h : (scanMinipools env w).res = .error e) :
    ((∃ a w1 w2, env.newMinipool a w1 = (some e, w2)) ∧
        ∀ ev ∈ (scanMinipools env w).trace, ev.hasFailedRead = false) ∨
      ∃ pre sp ran r, (scanMinipools env w).trace = pre ++ [Event.errgroup sp ran] ∧
        firstFailed ran = some r ∧ readFails env (boundMinipools pre) r e := by
  obtain ⟨ran, htr, -, herr⟩ := errgroupWait_trace env (scanGoroutines env) (⟨[], 0, none⟩ : ScanVars) w
  simp only [scanMinipools] at h ⊢
  split at h
  · rename_i e1 x heq
    simp only [Except.error.injEq] at h
    subst h
    obtain ⟨ran1, htr1, g, hg, hfirst, f1, w1, hb⟩ :=
      errgroupWait_first_error env _ _ w e1 x heq
    right
    exact ⟨[], _, ran1, g.read, by rw [htr1]; rfl, hfirst,
      scanGoroutines_readFails env _ g hg f1 w1 e1 hb⟩
  · rename_i v heq
    rw [heq] at herr
    split at h
    · rename_i e1 heq2
      simp only [Except.error.injEq] at h
      subst h
      left
      refine ⟨createMinipools_error_source env _ _ e1 heq2, ?_⟩
      intro ev hev
      rcases List.mem_append.mp hev with h1 | h1
      · rw [htr] at h1
        simp only [List.mem_singleton] at h1
        rw [h1]
        simp only [Event.hasFailedRead]
        rw [← herr]
        rfl
      · obtain ⟨a, rfl⟩ := createMinipools_trace env _ _ ev h1
        rfl
    · rename_i minipools heq2
      split at h
      · rename_i e1 heq3
        simp only [Except.error.injEq] at h
        subst h
        right
        obtain ⟨pre, sp, ran3, r, htr3, hpre, hfirst, hr⟩ :=
          loadStatuses_first_error env _ _ _ _ _ e1 heq3
        refine ⟨(errgroupWait env (scanGoroutines env) (⟨[], 0, none⟩ : ScanVars) w).trace ++
          (createMinipools env v.addresses
            (errgroupWait env (scanGoroutines env) (⟨[], 0, none⟩ : ScanVars) w).world).trace ++
          pre, sp, ran3, r, ?_, hfirst, ?_⟩
        · rw [htr3]
          simp only [List.append_assoc]
        · have hb : boundMinipools
              ((errgroupWait env (scanGoroutines env) (⟨[], 0, none⟩ : ScanVars) w).trace ++
              (createMinipools env v.addresses
                (errgroupWait env (scanGoroutines env) (⟨[], 0, none⟩ : ScanVars) w).world).trace ++
              pre) = minipools := by
            rw [boundMinipools_append, boundMinipools_append, hpre, htr,
              createMinipools_ok_trace env _ _ _ heq2, boundMinipools_newMinipool,
              ← createMinipools_ok env _ _ _ heq2]
            simp [boundMinipools]
          rw [hb]
          exact hr
      · rename_i statuses heq3
        split at h
        · rename_i hnone
          have := scan_header_assigned env w v heq
          rw [hnone] at this
          cases this
        · cases h

/-- C16, as stated, fails when two reads of one fan-out fail: on a chain where the address
list read fails with one error and the header read, which runs first, with another, `run`
returns the error of the header read and not that of the failed address list read. -/
theorem run_returns_first_failure_only :
    twoReadsFailEnv.getMinipoolAddresses () = (.error (Err.msg "address list unavailable"), ()) ∧
      Event.errgroup
          [Read.getMinipoolAddresses, Read.getMinipoolLaunchTimeout, Read.headerByNumber]
          [(Read.headerByNumber, true), (Read.getMinipoolLaunchTimeout, false),
            (Read.getMinipoolAddresses, true)] ∈
        (dissolveTimedOutMinipools.run twoReadsFailEnv ⟨none, some 2, 0⟩ ()).trace ∧
      (dissolveTimedOutMinipools.run twoReadsFailEnv ⟨none, some 2, 0⟩ ()).res =
        some (Err.msg "header unavailable") := by
  refine ⟨rfl, ?_, ?_⟩ <;> decide

/-- C16, amended: after the sync wait and the account lookup, (1) a failed membership check
makes both `run` functions return its error with the check as their last call; (2) when a
fan-out of the scan has a failed read, and `r` is the read that failed first in the order in
which the reads of that fan-out ran, `dissolveTimedOutMinipools.run` returns the error that the
read `r` answered (for a status read, the read of the minipool bound at its index), the failed
fan-out is its last call, no pipeline is entered, no submitter call is made, and every read
of the cycle is spawned and run once; (3) a failed challenge flag read makes
`respondChallenges.run` return its error with the read as its last call. -/
theorem read_failure_aborts_cycle {σ : Type} (env : Env σ) (t : Task) (w w1 w2 : σ)
    (acct : Address)
    (hsync : env.waitEthClientSynced w = (none, w1))
    (hacct : env.getNodeAccount w1 = (.ok acct, w2)) :
    (∀ e w3, env.getMemberExists acct w2 = (.error e, w3) →
      ((dissolveTimedOutMinipools.run env t w).res = some e ∧
        (dissolveTimedOutMinipools.run env t w).trace =
          [Event.waitEthClientSynced, Event.getNodeAccount, Event.getMemberExists acct]) ∧
      ((respondChallenges.run env t w).res = some e ∧
        (respondChallenges.run env t w).trace =
          [Event.waitEthClientSynced, Event.getNodeAccount, Event.getMemberExists acct])) ∧
    (∀ w3 pre spawned ran post r, env.getMemberExists acct w2 = (.ok true, w3) →
      (scanMinipools env w3).trace = pre ++ Event.errgroup spawned ran :: post →
      firstFailed ran = some r →
      ∃ e, readFails env (boundMinipools pre) r e ∧
        (dissolveTimedOutMinipools.run env t w).res = some e ∧
        (dissolveTimedOutMinipools.run env t w).trace =
          [Event.waitEthClientSynced, Event.getNodeAccount, Event.getMemberExists acct,
            Event.log LogLine.checkingTimedOut] ++ pre ++ [Event.errgroup spawned ran] ∧
        pipelineStarts (dissolveTimedOutMinipools.run env t w).trace = [] ∧
        (∀ ev1 ∈ (dissolveTimedOutMinipools.run env t w).trace, ev1.isSubmitter = false) ∧
        (spawnedBatches (dissolveTimedOutMinipools.run env t w).trace).flatten.Nodup ∧
        (∀ sp ran1, Event.errgroup sp ran1 ∈ (dissolveTimedOutMinipools.run env t w).trace →
          (ran1.map Prod.fst).Perm sp)) ∧
    (∀ e w3 w4, env.getMemberExists acct w2 = (.ok true, w3) →
      env.getMemberIsChallenged acct w3 = (.error e, w4) →
      (respondChallenges.run env t w).res = some e ∧
        (respondChallenges.run env t w).trace =
          [Event.waitEthClientSynced, Event.getNodeAccount, Event.getMemberExists acct,
            Event.log LogLine.checkingChallenges, Event.getMemberIsChallenged acct]) := by
  refine ⟨?_, ?_, ?_⟩
  · intro e w3 hmem
    constructor
    · constructor
      · simp only [dissolveTimedOutMinipools.run, hsync, hacct, hmem, Out.after_res]
      · simp only [dissolveTimedOutMinipools.run, hsync, hacct, hmem, Out.after_trace]
        rfl
    · constructor
      · simp only [respondChallenges.run, hsync, hacct, hmem, Out.after_res]
      · simp only [respondChallenges.run, hsync, hacct, hmem, Out.after_trace]
        rfl
  · intro w3 pre spawned ran post r htrusted htr hfirst
    have hfail : (Event.errgroup spawned ran).hasFailedRead = true :=
      firstFailed_any ran r hfirst
    obtain ⟨hisScan, hstop, herr, -⟩ := scanMinipools_inv env w3
    have hmem : Event.errgroup spawned ran ∈ (scanMinipools env w3).trace := by
      rw [htr]; simp
    obtain ⟨e, he⟩ := herr (List.any_eq_true.mpr ⟨_, hmem, hfail⟩)
    have hpost : post = [] := by
      rw [htr] at hstop
      exact stopsAtFailure_split pre post _ hstop hfail
    have hsrc : readFails env (boundMinipools pre) r e := by
      rcases scanMinipools_first_error env w3 e he with ⟨-, h⟩ | ⟨pre1, sp1, ran1, r1, h1, h2, h3⟩
      · rw [h _ hmem] at hfail
        cases hfail
      · rw [htr, hpost] at h1
        obtain ⟨hp, hl⟩ := List.append_inj' h1 rfl
        simp only [List.cons.injEq, Event.errgroup.injEq, and_true] at hl
        obtain ⟨-, hran⟩ := hl
        subst hp hran
        rw [hfirst] at h2
        simp only [Option.some.injEq] at h2
        subst h2
        exact h3
    obtain ⟨hres, htrace⟩ := run_scan_failed env t w w1 w2 w3 acct e hsync hacct htrusted he
    refine ⟨e, hsrc, hres, ?_, ?_, ?_, ?_, ?_⟩
    · rw [htrace, htr, hpost, List.append_assoc]
    · rw [htrace, pipelineStarts_append, pipelineStarts_of_isScan _ hisScan]
      rfl
    · intro ev1 hev1
      rw [htrace] at hev1
      rcases List.mem_append.mp hev1 with h | h
      · simp only [List.mem_cons, List.mem_singleton, List.not_mem_nil, or_false] at h
        rcases h with rfl | rfl | rfl | rfl <;> rfl
      · exact isSubmitter_of_isScan _ hisScan ev1 h
    · rw [htrace, spawnedBatches_append]
      exact scanMinipools_spawned_nodup env w3
    · intro sp ran1 hin
      rw [htrace] at hin
      rcases List.mem_append.mp hin with h | h
      · simp at h
      · exact scanMinipools_ran_perm env w3 sp ran1 h
  · intro e w3 w4 htrusted hflag
    constructor
    · simp only [respondChallenges.run, hsync, hacct, htrusted, hflag, Out.after_res]
    · simp only [respondChallenges.run, hsync, hacct, htrusted, hflag, Out.after_trace]
      rfl

/-- Witness of `read_failure_aborts_cycle`: on the sample chain on which the address list read
and the header read fail and the header read runs first, the theorem gives that `run` returns
the error of the header read, that the fan-out is its last call and that no pipeline is
entered; on the sample chain with 45 minipools whose status read at index 25 fails, it gives
that `run` returns the error of that read. -/
theorem read_failure_aborts_cycle_witness :
    firstFailed [(Read.headerByNumber, true), (Read.getMinipoolLaunchTimeout, false),
        (Read.getMinipoolAddresses, true)] = some Read.headerByNumber ∧
      (dissolveTimedOutMinipools.run twoReadsFailEnv ⟨none, some 2, 0⟩ ()).res =
        some (Err.msg "header unavailable") ∧
      (dissolveTimedOutMinipools.run twoReadsFailEnv ⟨none, some 2, 0⟩ ()).trace =
        [Event.waitEthClientSynced, Event.getNodeAccount, Event.getMemberExists 7,
          Event.log LogLine.checkingTimedOut,
          Event.errgroup
            [Read.getMinipoolAddresses, Read.getMinipoolLaunchTimeout, Read.headerByNumber]
            [(Read.headerByNumber, true), (Read.getMinipoolLaunchTimeout, false),
              (Read.getMinipoolAddresses, true)]] ∧
      pipelineStarts (dissolveTimedOutMinipools.run twoReadsFailEnv ⟨none, some 2, 0⟩ ()).trace =
        [] ∧
      (dissolveTimedOutMinipools.run (sampleEnv 45 (some 25) true false) ⟨none, some 2, 0⟩ ()).res =
        some (Err.msg "status read failed") := by
  obtain ⟨e, hr, hres, htrace, hstarts, -⟩ :=
    (read_failure_aborts_cycle twoReadsFailEnv ⟨none, some 2, 0⟩ () () () 7 rfl rfl).2.1 () []
      [Read.getMinipoolAddresses, Read.getMinipoolLaunchTimeout, Read.headerByNumber]
      [(Read.headerByNumber, true), (Read.getMinipoolLaunchTimeout, false),
        (Read.getMinipoolAddresses, true)] [] Read.headerByNumber rfl (by decide) rfl
  obtain ⟨wa, wb, hw⟩ := hr
  have he : (Except.error (Err.msg "header unavailable") : Except Err Header) = .error e :=
    congrArg Prod.fst hw
  cases he
  obtain ⟨e2, hr2, hres2, -⟩ :=
    (read_failure_aborts_cycle (sampleEnv 45 (some 25) true false) ⟨none, some 2, 0⟩ () () () 7
      rfl rfl).2.1 ()
      ((scanMinipools (sampleEnv 45 (some 25) true false) ()).trace.take 47)
      ((List.range' 20 20).map Read.getStatusDetails)
      ((pickOrder [2, 5, 1] (List.range' 20 20)).map fun i => (Read.getStatusDetails i, i == 25))
      [] (Read.getStatusDetails 25) rfl (by decide) (by decide)
  obtain ⟨mp, hmp, wc, wd, hw2⟩ := hr2
  have hmp2 : (boundMinipools
      ((scanMinipools (sampleEnv 45 (some 25) true false) ()).trace.take 47))[25]? =
      some ⟨25⟩ := by decide
  rw [hmp2] at hmp
  cases hmp
  have he2 : (Except.error (Err.msg "status read failed") : Except Err StatusDetails) =
      .error e2 := congrArg Prod.fst hw2
  cases he2
  exact ⟨rfl, hres, htrace, hstarts, hres2⟩

end Watchtower

namespace nimbus

open Watchtower (Err wrapInt64)

/-! ## Hexadecimal strings -/

theorem fromHexChar_hexDigitChar (k : Nat) (hk : k < 16) : fromHexChar (hexDigitChar k) = some k := by
  interval_cases k <;> decide

theorem hexDecodeString_hexEncodeToString (b : List (Fin 256)) :
    hexDecodeString (hexEncodeToString b) = .ok b := by
  induction b with
  | nil => rfl
  | cons x b ih =>
    have hx := x.isLt
    have h1 : fromHexChar (hexDigitChar (x.val / 16)) = some (x.val / 16) :=
      fromHexChar_hexDigitChar _ (by omega)
    have h2 : fromHexChar (hexDigitChar (x.val % 16)) = some (x.val % 16) :=
      fromHexChar_hexDigitChar _ (by omega)
    have hval : (Fin.ofNat (16 * (x.val / 16) + x.val % 16) : Fin 256) = x := by
      apply Fin.ext
      simp only [Fin.ofNat, Fin.val_mk]
      omega
    have hcons : hexEncodeToString (x :: b) =
        hexDigitChar (x.val / 16) :: hexDigitChar (x.val % 16) :: hexEncodeToString b := by
      simp [hexEncodeToString]
    rw [hcons]
    simp only [hexDecodeString, h1, h2, ih, hval]

/-- A string of odd length, or with a character that is no hexadecimal digit, is refused. -/
theorem hexDecodeString_error : ∀ (s : List Char),
    (s.length % 2 = 1 ∨ ∃ c ∈ s, fromHexChar c = none) → ∃ e, hexDecodeString s = .error e
  | [], h => by simp at h
  | [c], _ => by
    simp only [hexDecodeString]
    split <;> exact ⟨_, rfl⟩
  | a :: b :: rest, h => by
    have ih := hexDecodeString_error rest
    simp only [hexDecodeString]
    split
    · rename_i x y hx hy
      have hrest : rest.length % 2 = 1 ∨ ∃ c ∈ rest, fromHexChar c = none := by
        rcases h with h | ⟨c, hc, hbad⟩
        · left
          simp only [List.length_cons] at h
          omega
        · simp only [List.mem_cons] at hc
          rcases hc with rfl | rfl | hc
          · rw [hx] at hbad; cases hbad
          · rw [hy] at hbad; cases hbad
          · exact Or.inr ⟨c, hc, hbad⟩
      obtain ⟨e, he⟩ := ih hrest
      rw [he]
      exact ⟨e, rfl⟩
    · exact ⟨_, rfl⟩

/-! ## JSON strings -/

theorem char_eq_of_toNat (c : Char) (n : Nat) (h : c.toNat = n) : c = Char.ofNat n := by
  rw [← h, Char.ofNat_toNat]

theorem unquoteBody_cons (c : Char) (rest : List Char) :
    unquoteBody (c :: rest) =
      if c = dq then
        match rest with
        | [] => .ok []
        | _ => .error (Err.msg "invalid character after top-level value")
      else if c = bs then
        match rest with
        | [] => .error (Err.msg "unexpected end of JSON input")
        | d :: rest2 =>
          if d.toNat = 117 then
            match rest2 with
            | h1 :: h2 :: h3 :: h4 :: rest3 =>
              match unicodeEscape h1 h2 h3 h4 with
              | none => .error (Err.msg "invalid character in hexadecimal character escape")
              | some x =>
                match unquoteBody rest3 with
                | .ok s => .ok (x :: s)
                | .error e => .error e
            | _ => .error (Err.msg "unexpected end of JSON input")
          else
            match simpleEscape d with
            | none => .error (Err.msg "invalid character in string escape code")
            | some x =>
              match unquoteBody rest2 with
              | .ok s => .ok (x :: s)
              | .error e => .error e
      else if c.toNat < 32 then .error (Err.msg "invalid character in string literal")
      else
        match unquoteBody rest with
        | .ok s => .ok (c :: s)
        | .error e => .error e := by
  cases rest with
  | nil => rfl
  | cons d rest2 =>
    cases rest2 with
    | nil => rfl
    | cons h1 r3 =>
      cases r3 with
      | nil => rfl
      | cons h2 r4 =>
        cases r4 with
        | nil => rfl
        | cons h3 r5 =>
          cases r5 with
          | nil => rfl
          | cons h4 r6 => rfl

/-- Reading back what `json.Marshal` wrote for one character. -/
theorem unquoteBody_jsonEscape (c : Char) (rest s1 : List Char) (h : unquoteBody rest = .ok s1) :
    unquoteBody (jsonEscape c ++ rest) = .ok (c :: s1) := by
  have hbs : ¬ (bs = dq) := by decide
  have hu117 : (Char.ofNat 117).toNat = 117 := by decide
  unfold jsonEscape
  split_ifs with h1 h2 h3 h4 h5 h6 h7
  · subst h1
    have e1 : ¬ (dq.toNat = 117) := by decide
    have e2 : simpleEscape dq = some dq := by decide
    simp only [List.cons_append, List.nil_append]
    rw [unquoteBody_cons]
    simp only [hbs, if_false, if_true, e1, e2, h]
  · subst h2
    have e1 : ¬ (bs.toNat = 117) := by decide
    have e2 : simpleEscape bs = some bs := by decide
    simp only [List.cons_append, List.nil_append]
    rw [unquoteBody_cons]
    simp only [hbs, if_false, if_true, e1, e2, h]
  · have hc := char_eq_of_toNat c 10 h3
    subst hc
    have e1 : ¬ ((Char.ofNat 110).toNat = 117) := by decide
    have e2 : simpleEscape (Char.ofNat 110) = some (Char.ofNat 10) := by decide
    simp only [List.cons_append, List.nil_append]
    rw [unquoteBody_cons]
    simp only [hbs, if_false, if_true, e1, e2, h]
  · have hc := char_eq_of_toNat c 13 h4
    subst hc
    have e1 : ¬ ((Char.ofNat 114).toNat = 117) := by decide
    have e2 : simpleEscape (Char.ofNat 114) = some (Char.ofNat 13) := by decide
    simp only [List.cons_append, List.nil_append]
    rw [unquoteBody_cons]
    simp only [hbs, if_false, if_true, e1, e2, h]
  · have hc := char_eq_of_toNat c 9 h5
    subst hc
    have e1 : ¬ ((Char.ofNat 116).toNat = 117) := by decide
    have e2 : simpleEscape (Char.ofNat 116) = some (Char.ofNat 9) := by decide
    simp only [List.cons_append, List.nil_append]
    rw [unquoteBody_cons]
    simp only [hbs, if_false, if_true, e1, e2, h]
  · have hlt : c.toNat < 63 := by omega
    have e1 : fromHexChar (hexDigitChar (c.toNat / 16)) = some (c.toNat / 16) :=
      fromHexChar_hexDigitChar _ (by omega)
    have e2 : fromHexChar (hexDigitChar (c.toNat % 16)) = some (c.toNat % 16) :=
      fromHexChar_hexDigitChar _ (by omega)
    have e0 : fromHexChar (Char.ofNat 48) = some 0 := by decide
    have hu : unicodeEscape (Char.ofNat 48) (Char.ofNat 48) (hexDigitChar (c.toNat / 16))
        (hexDigitChar (c.toNat % 16)) = some c := by
      simp only [unicodeEscape, e0, e1, e2]
      have hv : ((0 * 16 + 0) * 16 + c.toNat / 16) * 16 + c.toNat % 16 = c.toNat := by omega
      rw [hv, if_neg (by omega), Char.ofNat_toNat]
    simp only [List.cons_append, List.nil_append]
    rw [unquoteBody_cons]
    simp only [hbs, if_false, if_true, hu117, hu, h]
  · have e2 : fromHexChar (hexDigitChar (c.toNat % 16)) = some (c.toNat % 16) :=
      fromHexChar_hexDigitChar _ (by omega)
    have e0 : fromHexChar (Char.ofNat 48) = some 0 := by decide
    have e2' : fromHexChar (Char.ofNat 50) = some 2 := by decide
    have hu : unicodeEscape (Char.ofNat 50) (Char.ofNat 48) (Char.ofNat 50)
        (hexDigitChar (c.toNat % 16)) = some c := by
      simp only [unicodeEscape, e0, e2', e2]
      have hv : ((2 * 16 + 0) * 16 + 2) * 16 + c.toNat % 16 = c.toNat := by omega
      rw [hv, if_neg (by omega), Char.ofNat_toNat]
    simp only [List.cons_append, List.nil_append]
    rw [unquoteBody_cons]
    simp only [hbs, if_false, if_true, hu117, hu, h]
  · have hge : ¬ c.toNat < 32 := by omega
    simp only [List.cons_append, List.nil_append]
    rw [unquoteBody_cons]
    simp only [h1, h2, if_false, hge, h]

theorem unquoteBody_escaped (s : List Char) : unquoteBody (s.flatMap jsonEscape ++ [dq]) = .ok s := by
  induction s with
  | nil =>
    simp only [List.flatMap_nil, List.nil_append]
    rw [unquoteBody_cons]
    simp
  | cons c s ih =>
    rw [List.flatMap_cons, List.append_assoc]
    exact unquoteBody_jsonEscape c _ s ih

/-- The call `json.Unmarshal` reads back every string `json.Marshal` wrote. -/
theorem jsonUnmarshalString_jsonMarshalString (s : List Char) :
    jsonUnmarshalString (jsonMarshalString s) = .ok (some s) := by
  have hdq : isSpace dq = false := by decide
  have h1 : (jsonMarshalString s).dropWhile isSpace = jsonMarshalString s := by
    simp [jsonMarshalString, List.dropWhile_cons, hdq]
  have h2 : ((jsonMarshalString s).reverse.dropWhile isSpace).reverse = jsonMarshalString s := by
    have : (jsonMarshalString s).reverse = dq :: (s.flatMap jsonEscape).reverse ++ [dq] := by
      simp [jsonMarshalString]
    rw [this, List.cons_append, List.dropWhile_cons, hdq]
    simp [jsonMarshalString]
  unfold jsonUnmarshalString
  rw [h1, h2]
  simp only [jsonMarshalString, if_true, unquoteBody_escaped]

/-! ## C17: the unsigned integer type -/

/-- C17, at the failing input: the largest `uint64` (the far future epoch of the beacon
chain) is written by `MarshalJSON` as the string "-1", because it goes through `int`, and
`UnmarshalJSON` refuses that string; the same happens from 2^63 on. -/
theorem uinteger_max_does_not_round_trip :
    (uinteger.MarshalJSON (2 ^ 64 - 1) = jsonMarshalString [Char.ofNat 45, Char.ofNat 49] ∧
      uinteger.UnmarshalJSON 0 (uinteger.MarshalJSON (2 ^ 64 - 1)) =
        (0, some (Err.msg "strconv.ParseUint: invalid syntax"))) ∧
    uinteger.UnmarshalJSON 0 (uinteger.MarshalJSON (2 ^ 63)) =
      (0, some (Err.msg "strconv.ParseUint: invalid syntax")) := by
  refine ⟨⟨?_, ?_⟩, ?_⟩ <;> decide

theorem parseUintLoop_append (xs ys : List Char) (acc : Nat) :
    parseUintLoop (xs ++ ys) acc =
      match parseUintLoop xs acc with
      | .ok v => parseUintLoop ys v
      | .error e => .error e := by
  induction xs generalizing acc with
  | nil => rfl
  | cons c xs ih =>
    simp only [List.cons_append, parseUintLoop]
    split
    · split
      · exact ih _
      · rfl
    · rfl

theorem digit_toNat (d : Nat) (hd : d < 10) : (Char.ofNat (48 + d)).toNat = 48 + d := by
  interval_cases d <;> decide

theorem parseUintLoop_decDigits (fuel n : Nat) (h1 : n < 10 ^ fuel) (h2 : n < 2 ^ 64) :
    parseUintLoop ((decDigits fuel n).map fun d => Char.ofNat (48 + d)) 0 = .ok n := by
  induction fuel generalizing n with
  | zero =>
    simp only [pow_zero, Nat.lt_one_iff] at h1
    subst h1
    rfl
  | succ fuel ih =>
    simp only [decDigits]
    split
    · rename_i hlt
      have hd := digit_toNat n hlt
      simp only [List.map_cons, List.map_nil, parseUintLoop, hd]
      have hr : 48 ≤ 48 + n ∧ 48 + n ≤ 57 := by omega
      rw [if_pos hr]
      have hv : 0 * 10 + (48 + n - 48) = n := by omega
      rw [hv, if_pos h2]
    · rename_i hge
      have hq : n / 10 < 10 ^ fuel := by
        rw [pow_succ] at h1
        exact Nat.div_lt_of_lt_mul (by rw [Nat.mul_comm]; exact h1)
      have hq2 : n / 10 < 2 ^ 64 := lt_of_le_of_lt (Nat.div_le_self _ _) h2
      have hd := digit_toNat (n % 10) (Nat.mod_lt _ (by decide))
      rw [List.map_append, parseUintLoop_append, ih (n / 10) hq hq2]
      simp only [List.map_cons, List.map_nil, parseUintLoop, hd]
      have hr : 48 ≤ 48 + n % 10 ∧ 48 + n % 10 ≤ 57 := by omega
      rw [if_pos hr]
      have hv : n / 10 * 10 + (48 + n % 10 - 48) = n := by omega
      rw [hv, if_pos h2]

theorem decDigits_ne_nil (fuel n : Nat) (hfuel : 0 < fuel) : decDigits fuel n ≠ [] := by
  cases fuel with
  | zero => omega
  | succ fuel =>
    simp only [decDigits]
    split <;> simp

theorem strconvParseUint_of_loop (s : List Char) (n : Nat) (hne : s ≠ [])
    (h : parseUintLoop s 0 = .ok n) : strconvParseUint s = .ok n := by
  cases s with
  | nil => exact absurd rfl hne
  | cons c cs => exact h

/-- The function `strconv.ParseUint` reads back what `strconv.Itoa` wrote for a value that
is not negative. -/
theorem strconvParseUint_strconvItoa (i : Nat) (hi : i < 2 ^ 63) :
    strconvParseUint (strconvItoa (i : Int)) = .ok i := by
  have h20 : i < 10 ^ 20 := lt_trans hi (by norm_num)
  have h64 : i < 2 ^ 64 := lt_trans hi (by norm_num)
  have hparse := parseUintLoop_decDigits 20 i h20 h64
  have hne := decDigits_ne_nil 20 i (by norm_num)
  have hnonneg : ¬ ((i : Int) < 0) := by omega
  unfold strconvItoa
  rw [if_neg hnonneg, Int.natAbs_ofNat]
  generalize decDigits 20 i = ds at hparse hne
  apply strconvParseUint_of_loop _ _ _ hparse
  intro hnil
  exact hne (List.map_eq_nil_iff.mp hnil)

theorem uinteger_UnmarshalJSON_ok (target : Nat) (data dataStr : List Char) (value : Nat)
    (h1 : jsonUnmarshalString data = .ok (some dataStr))
    (h2 : strconvParseUint dataStr = .ok value) :
    uinteger.UnmarshalJSON target data = (value, none) := by
  unfold uinteger.UnmarshalJSON
  rewrite [h1]
  simp only [Option.getD_some]
  rewrite [h2]
  rfl

/-- What holds of C17 on the code: below 2^63 the decimal string round-trips. -/
theorem uinteger_round_trip_below_two_pow_63 (i target : Nat) (hi : i < 2 ^ 63) :
    uinteger.UnmarshalJSON target (uinteger.MarshalJSON i) = (i, none) := by
  have hw : wrapInt64 (i : Int) = i := by
    have h0 : (0 : Int) ≤ i := Int.ofNat_nonneg i
    have h1 : (i : Int) < 2 ^ 63 := by exact_mod_cast hi
    unfold wrapInt64
    norm_num at h1 ⊢
    omega
  have hdata : jsonUnmarshalString (uinteger.MarshalJSON i) = .ok (some (strconvItoa (i : Int))) := by
    unfold uinteger.MarshalJSON
    rewrite [hw]
    exact jsonUnmarshalString_jsonMarshalString _
  exact uinteger_UnmarshalJSON_ok target _ _ i hdata (strconvParseUint_strconvItoa i hi)

/-! ## C18: the byte array type -/

/-- C18: when `RemovePrefix` undoes `AddPrefix` on the hexadecimal string of `b`,
`UnmarshalJSON` applied to `MarshalJSON(b)` succeeds and stores `b`, for every byte
sequence `b`; and `UnmarshalJSON` returns an error and leaves its target as it was when
the JSON string, after prefix removal, has odd length or a character that is no
hexadecimal digit. -/
theorem byteArray_round_trip (hexutil : HexUtil) (b target : List (Fin 256))
    (hundo : hexutil.RemovePrefix (hexutil.AddPrefix (hexEncodeToString b)) = hexEncodeToString b) :
    byteArray.UnmarshalJSON hexutil target (byteArray.MarshalJSON hexutil b) = (b, none) ∧
      ∀ data dataStr, jsonUnmarshalString data = .ok (some dataStr) →
        ((hexutil.RemovePrefix dataStr).length % 2 = 1 ∨
          ∃ c ∈ hexutil.RemovePrefix dataStr, fromHexChar c = none) →
        ∃ e, byteArray.UnmarshalJSON hexutil target data = (target, some e) := by
  constructor
  · unfold byteArray.UnmarshalJSON byteArray.MarshalJSON
    rewrite [jsonUnmarshalString_jsonMarshalString]
    simp only [Option.getD_some]
    rewrite [hundo, hexDecodeString_hexEncodeToString]
    rfl
  · intro data dataStr hdata hbad
    obtain ⟨e, he⟩ := hexDecodeString_error _ hbad
    refine ⟨e, ?_⟩
    unfold byteArray.UnmarshalJSON
    rewrite [hdata]
    simp only [Option.getD_some]
    rewrite [he]
    rfl

/-- Witness of `byteArray_round_trip`: the bytes 00 ff 10 ab with the sample prefix
functions round-trip, and the odd-length string "0xabc" is refused with the target kept. -/
theorem byteArray_round_trip_witness :
    byteArray.UnmarshalJSON sampleHexUtil [1]
        (byteArray.MarshalJSON sampleHexUtil [0, 255, 16, 171]) = ([0, 255, 16, 171], none) ∧
      ∃ e, byteArray.UnmarshalJSON sampleHexUtil [1]
        (jsonMarshalString [Char.ofNat 48, Char.ofNat 120, Char.ofNat 97, Char.ofNat 98,
          Char.ofNat 99]) = ([1], some e) :=
  ⟨(byteArray_round_trip sampleHexUtil [0, 255, 16, 171] [1] (by decide)).1,
    (byteArray_round_trip sampleHexUtil [0, 255, 16, 171] [1] (by decide)).2
      (jsonMarshalString [Char.ofNat 48, Char.ofNat 120, Char.ofNat 97, Char.ofNat 98,
        Char.ofNat 99])
      [Char.ofNat 48, Char.ofNat 120, Char.ofNat 97, Char.ofNat 98, Char.ofNat 99]
      (jsonUnmarshalString_jsonMarshalString _) (Or.inl (by decide))⟩

end nimbus

namespace wallet

open Watchtower (Err)

/-! ## The key cache -/

theorem getValidatorPrivateKey_fields (d : Deriver) (w : Wallet) (index : Nat) (hkdfv3 : Bool) :
    (getValidatorPrivateKey d w index hkdfv3).2.NextAccount = w.NextAccount ∧
      (getValidatorPrivateKey d w index hkdfv3).2.initialized = w.initialized ∧
      (getValidatorPrivateKey d w index hkdfv3).2.keystores = w.keystores ∧
      (getValidatorPrivateKey d w index hkdfv3).2.stored = w.stored := by
  unfold getValidatorPrivateKey
  cases hkdfv3 <;> simp only [Bool.false_eq_true, if_false, if_true] <;>
    split <;> try split
  all_goals exact ⟨rfl, rfl, rfl, rfl⟩

theorem getValidatorPrivateKey_path (d : Deriver) (w : Wallet) (index : Nat) (hkdfv3 : Bool)
    (key : Key) (path : Path) (h : (getValidatorPrivateKey d w index hkdfv3).1 = .ok (key, path)) :
    path = ValidatorKeyPath index := by
  unfold getValidatorPrivateKey at h
  cases hkdfv3 <;> simp only [Bool.false_eq_true, if_false, if_true] at h <;>
    split at h <;> try split at h
  all_goals first
    | (cases h; rfl)
    | cases h

/-- The answer of `getValidatorPrivateKey` does not depend on `NextAccount`. -/
theorem getValidatorPrivateKey_nextAccount (d : Deriver) (w : Wallet) (n index : Nat)
    (hkdfv3 : Bool) :
    (getValidatorPrivateKey d { w with NextAccount := n } index hkdfv3).1 =
      (getValidatorPrivateKey d w index hkdfv3).1 := by
  unfold getValidatorPrivateKey
  cases hkdfv3 <;> simp only [Bool.false_eq_true, if_false, if_true] <;>
    split <;> try split
  all_goals rfl

/-- The answer of `getValidatorPrivateKey` at an index depends only on the entry of the index
in the cache of the scheme. -/
theorem keyAt_congr (d : Deriver) (w w' : Wallet) (j : Nat) (hk : Bool)
    (h1 : hk = true → w'.validatorKeys1 j = w.validatorKeys1 j)
    (h2 : hk = false → w'.validatorKeys2 j = w.validatorKeys2 j) :
    keyAt d w' j hk = keyAt d w j hk := by
  unfold keyAt getValidatorPrivateKey
  cases hk
  · simp only [Bool.false_eq_true, if_false]
    rewrite [h2 rfl]
    generalize w.validatorKeys2 j = c
    cases c
    · simp only
      cases d.hkdfv4 (ValidatorKeyPath j) <;> rfl
    · rfl
  · simp only [if_true]
    rewrite [h1 rfl]
    generalize w.validatorKeys1 j = c
    cases c
    · simp only
      cases d.hkdfv3 (ValidatorKeyPath j) <;> rfl
    · rfl

/-- The HKDFv3 cache after a call of `getValidatorPrivateKey`: only the entry of the index of
an HKDFv3 call can have changed. -/
theorem getValidatorPrivateKey_cache1 (d : Deriver) (w : Wallet) (index : Nat) (hkdfv3 : Bool)
    (j : Nat) (hne : j ≠ index ∨ hkdfv3 = false) :
    (getValidatorPrivateKey d w index hkdfv3).2.validatorKeys1 j = w.validatorKeys1 j := by
  unfold getValidatorPrivateKey
  cases hkdfv3
  · simp only [Bool.false_eq_true, if_false]
    split <;> try split
    all_goals rfl
  · have hj : j ≠ index := by
      rcases hne with h | h
      · exact h
      · cases h
    simp only [if_true]
    split <;> try split
    all_goals first
      | rfl
      | exact Function.update_noteq hj _ _

/-- The HKDFv4 cache after a call of `getValidatorPrivateKey`: only the entry of the index of
an HKDFv4 call can have changed. -/
theorem getValidatorPrivateKey_cache2 (d : Deriver) (w : Wallet) (index : Nat) (hkdfv3 : Bool)
    (j : Nat) (hne : j ≠ index ∨ hkdfv3 = true) :
    (getValidatorPrivateKey d w index hkdfv3).2.validatorKeys2 j = w.validatorKeys2 j := by
  unfold getValidatorPrivateKey
  cases hkdfv3
  · have hj : j ≠ index := by
      rcases hne with h | h
      · exact h
      · cases h
    simp only [Bool.false_eq_true, if_false]
    split <;> try split
    all_goals first
      | rfl
      | exact Function.update_noteq hj _ _
  · simp only [if_true]
    split <;> try split
    all_goals rfl

/-- A call of `getValidatorPrivateKey` changes no answer for another index or scheme. -/
theorem keyAt_stable (d : Deriver) (w : Wallet) (index : Nat) (hkdfv3 : Bool) (j : Nat)
    (hk : Bool) (hne : j ≠ index ∨ hk ≠ hkdfv3) :
    keyAt d (getValidatorPrivateKey d w index hkdfv3).2 j hk = keyAt d w j hk := by
  apply keyAt_congr
  · intro h
    apply getValidatorPrivateKey_cache1
    rcases hne with h' | h'
    · exact Or.inl h'
    · right
      cases hkdfv3
      · rfl
      · exact absurd h h'
  · intro h
    apply getValidatorPrivateKey_cache2
    rcases hne with h' | h'
    · exact Or.inl h'
    · right
      cases hkdfv3
      · exact absurd h h'
      · rfl

/-- The answer of `getValidatorPrivateKey`, read through `keyAt`. -/
theorem getValidatorPrivateKey_keyAt (d : Deriver) (w : Wallet) (index : Nat) (hkdfv3 : Bool)
    (key : Key) (h : keyAt d w index hkdfv3 = .ok key) :
    getValidatorPrivateKey d w index hkdfv3 =
      (.ok (key, ValidatorKeyPath index), (getValidatorPrivateKey d w index hkdfv3).2) := by
  have hp := getValidatorPrivateKey_path d w index hkdfv3
  unfold keyAt at h
  rcases hr : getValidatorPrivateKey d w index hkdfv3 with ⟨r, w1⟩
  rw [hr] at h hp
  cases r with
  | error e => cases h
  | ok kp =>
    rcases kp with ⟨k, p⟩
    simp only at h
    cases h
    rw [hp _ _ rfl]

/-- A failed `getValidatorPrivateKey`, read through `keyAt`. -/
theorem getValidatorPrivateKey_keyAt_error (d : Deriver) (w : Wallet) (index : Nat)
    (hkdfv3 : Bool) (e : Err) (h : keyAt d w index hkdfv3 = .error e) :
    getValidatorPrivateKey d w index hkdfv3 =
      (.error e, (getValidatorPrivateKey d w index hkdfv3).2) := by
  unfold keyAt at h
  rcases hr : getValidatorPrivateKey d w index hkdfv3 with ⟨r, w1⟩
  rw [hr] at h
  cases r with
  | error e' =>
    simp only at h
    cases h
    rfl
  | ok kp => cases h

/-! ## Storing a key -/

theorem updateKeystores_stored (key : Key) (path : Path) (keystores : List Keystore)
    (stored stored' : List (String × Key × Path))
    (h : updateKeystores key path keystores stored = (none, stored')) :
    stored' = stored ++ keystores.map fun ks => (ks.name, key, path) := by
  induction keystores generalizing stored with
  | nil =>
    simp only [updateKeystores, Prod.mk.injEq, true_and] at h
    simp [h]
  | cons ks rest ih =>
    unfold updateKeystores at h
    split at h
    · simp at h
    · rw [ih _ h]
      simp

theorem updateKeystores_prefix (key : Key) (path : Path) (keystores : List Keystore)
    (stored : List (String × Key × Path)) :
    ∃ more, (updateKeystores key path keystores stored).2 = stored ++ more := by
  induction keystores generalizing stored with
  | nil => exact ⟨[], by simp [updateKeystores]⟩
  | cons ks rest ih =>
    unfold updateKeystores
    split
    · exact ⟨[], by simp⟩
    · obtain ⟨more, hmore⟩ := ih (stored ++ [(ks.name, key, path)])
      exact ⟨(ks.name, key, path) :: more, by rw [hmore]; simp⟩

/-! ## The search loop of `RecoverValidatorKey` -/

theorem findValidatorKey_fields (d : Deriver) (pubkey : Pubkey) (left index : Nat) (w : Wallet) :
    (findValidatorKey d pubkey left index w).2.1.NextAccount = w.NextAccount ∧
      (findValidatorKey d pubkey left index w).2.1.initialized = w.initialized ∧
      (findValidatorKey d pubkey left index w).2.1.keystores = w.keystores ∧
      (findValidatorKey d pubkey left index w).2.1.stored = w.stored := by
  induction left generalizing index w with
  | zero => exact ⟨rfl, rfl, rfl, rfl⟩
  | succ left ih =>
    have hf1 := getValidatorPrivateKey_fields d w index false
    unfold findValidatorKey
    rcases h1 : getValidatorPrivateKey d w index false with ⟨r1, w1⟩
    rw [h1] at hf1
    cases r1 with
    | error e => exact hf1
    | ok kp =>
      rcases kp with ⟨key, path⟩
      simp only
      split
      · exact hf1
      · have hf2 := getValidatorPrivateKey_fields d w1 index true
        rcases h2 : getValidatorPrivateKey d w1 index true with ⟨r2, w2⟩
        rw [h2] at hf2
        simp only at hf1 hf2
        cases r2 with
        | error e =>
          simp only
          refine ⟨hf2.1.trans hf1.1, hf2.2.1.trans hf1.2.1, hf2.2.2.1.trans hf1.2.2.1,
            hf2.2.2.2.trans hf1.2.2.2⟩
        | ok kp3 =>
          rcases kp3 with ⟨key3, path3⟩
          simp only
          split
          · refine ⟨hf2.1.trans hf1.1, hf2.2.1.trans hf1.2.1, hf2.2.2.1.trans hf1.2.2.1,
              hf2.2.2.2.trans hf1.2.2.2⟩
          · have hi := ih (index + 1) w2
            simp only
            refine ⟨hi.1.trans (hf2.1.trans hf1.1), hi.2.1.trans (hf2.2.1.trans hf1.2.1),
              hi.2.2.1.trans (hf2.2.2.1.trans hf1.2.2.1),
              hi.2.2.2.trans (hf2.2.2.2.trans hf1.2.2.2)⟩

/-- One iteration of the search loop at an index where both keys derive and neither
matches. -/
theorem findValidatorKey_skip (d : Deriver) (pubkey : Pubkey) (left index : Nat) (w : Wallet)
    (k4 k3 : Key) (h4 : keyAt d w index false = .ok k4) (hne4 : pubkey ≠ d.publicKey k4)
    (h3 : keyAt d w index true = .ok k3) (hne3 : pubkey ≠ d.publicKey k3) :
    ∃ w2, (∀ j hk, index < j → keyAt d w2 j hk = keyAt d w j hk) ∧
      findValidatorKey d pubkey (left + 1) index w =
        ((findValidatorKey d pubkey left (index + 1) w2).1,
          (findValidatorKey d pubkey left (index + 1) w2).2.1,
          (index, false) :: (index, true) :: (findValidatorKey d pubkey left (index + 1) w2).2.2) := by
  have e1 := getValidatorPrivateKey_keyAt d w index false k4 h4
  have h3' : keyAt d (getValidatorPrivateKey d w index false).2 index true = .ok k3 := by
    rw [keyAt_stable d w index false index true (Or.inr (by decide))]
    exact h3
  have e2 := getValidatorPrivateKey_keyAt d _ index true k3 h3'
  refine ⟨(getValidatorPrivateKey d (getValidatorPrivateKey d w index false).2 index true).2,
    ?_, ?_⟩
  · intro j hk hj
    rw [keyAt_stable d _ index true j hk (Or.inl (by omega)),
      keyAt_stable d w index false j hk (Or.inl (by omega))]
  · generalize (getValidatorPrivateKey d w index false).2 = w1 at e1 e2
    generalize (getValidatorPrivateKey d w1 index true).2 = w2 at e2
    conv_lhs => unfold findValidatorKey
    rw [e1]
    simp only [if_neg hne4]
    rw [e2]
    simp only [if_neg hne3]

/-- The search loop over indices where every key derives and none matches: it runs to the
bound and has called HKDFv4 then HKDFv3 at every index. -/
theorem findValidatorKey_no_match (d : Deriver) (pubkey : Pubkey) (left index : Nat) (w : Wallet)
    (h : ∀ j, index ≤ j → j < index + left → ∀ hk,
      ∃ k, keyAt d w j hk = .ok k ∧ pubkey ≠ d.publicKey k) :
    (findValidatorKey d pubkey left index w).1 = Found.nothing (index + left) ∧
      (findValidatorKey d pubkey left index w).2.2 =
        (List.range' index left).flatMap fun j => [(j, false), (j, true)] := by
  induction left generalizing index w with
  | zero => exact ⟨rfl, rfl⟩
  | succ left ih =>
    obtain ⟨k4, h4, hne4⟩ := h index (le_refl _) (by omega) false
    obtain ⟨k3, h3, hne3⟩ := h index (le_refl _) (by omega) true
    obtain ⟨w2, hw2, heq⟩ := findValidatorKey_skip d pubkey left index w k4 k3 h4 hne4 h3 hne3
    have hi := ih (index + 1) w2 (by
      intro j hj1 hj2 hk
      rw [hw2 j hk (by omega)]
      exact h j (by omega) (by omega) hk)
    rw [heq]
    refine ⟨?_, ?_⟩
    · simp only
      rw [hi.1]
      congr 1
      omega
    · simp only
      rw [hi.2, List.range'_succ, List.flatMap_cons]
      rfl

/-- The search loop when the first matching index is `i`: it stops there, after HKDFv4 then
HKDFv3 at every index before, with the HKDFv4 key if that matches and the HKDFv3 key
otherwise. -/
theorem findValidatorKey_first_match (d : Deriver) (pubkey : Pubkey) (left index : Nat)
    (w : Wallet) (i : Nat) (hi1 : index ≤ i) (hi2 : i < index + left)
    (hbefore : ∀ j, index ≤ j → j < i → ∀ hk,
      ∃ k, keyAt d w j hk = .ok k ∧ pubkey ≠ d.publicKey k)
    (k4 : Key) (h4 : keyAt d w i false = .ok k4)
    (hat : pubkey = d.publicKey k4 ∨ ∃ k3, keyAt d w i true = .ok k3 ∧ pubkey = d.publicKey k3) :
    ∃ key, (findValidatorKey d pubkey left index w).1 = Found.key i key (ValidatorKeyPath i) ∧
      pubkey = d.publicKey key ∧
      (if pubkey = d.publicKey k4 then key = k4 else keyAt d w i true = .ok key) ∧
      (findValidatorKey d pubkey left index w).2.2 =
        ((List.range' index (i - index)).flatMap fun j => [(j, false), (j, true)]) ++
          (if pubkey = d.publicKey k4 then [(i, false)] else [(i, false), (i, true)]) := by
  induction left generalizing index w with
  | zero => omega
  | succ left ih =>
    by_cases hidx : index = i
    · subst hidx
      have e1 := getValidatorPrivateKey_keyAt d w index false k4 h4
      by_cases hm : pubkey = d.publicKey k4
      · refine ⟨k4, ?_, hm, by simp only [if_pos hm], ?_⟩
        · generalize (getValidatorPrivateKey d w index false).2 = w1 at e1
          conv_lhs => unfold findValidatorKey
          rw [e1]
          simp only [if_pos hm]
        · generalize (getValidatorPrivateKey d w index false).2 = w1 at e1
          conv_lhs => unfold findValidatorKey
          rw [e1]
          simp only [if_pos hm, Nat.sub_self, List.range'_zero, List.flatMap_nil, List.nil_append]
      · obtain ⟨k3, h3, hm3⟩ : ∃ k3, keyAt d w index true = .ok k3 ∧ pubkey = d.publicKey k3 := by
          rcases hat with h | h
          · exact absurd h hm
          · exact h
        have h3' : keyAt d (getValidatorPrivateKey d w index false).2 index true = .ok k3 := by
          rw [keyAt_stable d w index false index true (Or.inr (by decide))]
          exact h3
        have e2 := getValidatorPrivateKey_keyAt d _ index true k3 h3'
        generalize (getValidatorPrivateKey d w index false).2 = w1 at e1 e2
        generalize (getValidatorPrivateKey d w1 index true).2 = w2 at e2
        refine ⟨k3, ?_, hm3, by simp only [if_neg hm]; exact h3, ?_⟩
        · conv_lhs => unfold findValidatorKey
          rw [e1]
          simp only [if_neg hm]
          rw [e2]
          simp only [if_pos hm3]
        · conv_lhs => unfold findValidatorKey
          rw [e1]
          simp only [if_neg hm]
          rw [e2]
          simp only [if_pos hm3, if_neg hm, Nat.sub_self, List.range'_zero, List.flatMap_nil,
            List.nil_append]
    · have hlt : index < i := by omega
      obtain ⟨k4', h4', hne4⟩ := hbefore index (le_refl _) hlt false
      obtain ⟨k3', h3', hne3⟩ := hbefore index (le_refl _) hlt true
      obtain ⟨w2, hw2, heq⟩ :=
        findValidatorKey_skip d pubkey left index w k4' k3' h4' hne4 h3' hne3
      have h4w : keyAt d w2 i false = .ok k4 := by
        rw [hw2 i false hlt]
        exact h4
      have hatw : pubkey = d.publicKey k4 ∨
          ∃ k3, keyAt d w2 i true = .ok k3 ∧ pubkey = d.publicKey k3 := by
        rw [hw2 i true hlt]
        exact hat
      obtain ⟨key, hk1, hk2, hk3, hk4⟩ := ih (index + 1) w2 (by omega) (by omega) (by
        intro j hj1 hj2 hk
        rw [hw2 j hk (by omega)]
        exact hbefore j (by omega) hj2 hk) h4w hatw
      refine ⟨key, ?_, hk2, ?_, ?_⟩
      · rw [heq]
        exact hk1
      · rw [hw2 i true hlt] at hk3
        exact hk3
      · rw [heq]
        simp only
        rw [hk4]
        have hsub : i - index = (i - (index + 1)) + 1 := by omega
        rw [hsub, List.range'_succ, List.flatMap_cons]
        rfl

theorem matchesAt_of_keyAt (d : Deriver) (w : Wallet) (pubkey : Pubkey) (index : Nat)
    (hkdfv3 : Bool) (key : Key) (h : keyAt d w index hkdfv3 = .ok key) :
    matchesAt d w pubkey index hkdfv3 = decide (pubkey = d.publicKey key) := by
  unfold matchesAt
  rw [h]

theorem keyAt_of_isOk (d : Deriver) (w : Wallet) (index : Nat) (hkdfv3 : Bool)
    (h : (keyAt d w index hkdfv3).isOk = true) : ∃ k, keyAt d w index hkdfv3 = .ok k := by
  cases hk : keyAt d w index hkdfv3 with
  | error e =>
    rw [hk] at h
    cases h
  | ok k => exact ⟨k, rfl⟩

theorem allCalls_eq (n : Nat) :
    allCalls n = (List.range' 0 n).flatMap fun j => [(j, false), (j, true)] := by
  unfold allCalls
  rw [List.range_eq_range']

/-- The count of validator keys after `RecoverValidatorKey` is never below the count
before. -/
theorem recoverValidatorKey_nextAccount_le (d : Deriver) (w : Wallet) (pubkey : Pubkey) :
    w.NextAccount ≤ (w.RecoverValidatorKey d pubkey).2.1.NextAccount := by
  have hf := findValidatorKey_fields d pubkey
    ((w.NextAccount + MaxValidatorKeyRecoverAttempts) % 2 ^ 64) 0 w
  unfold Wallet.RecoverValidatorKey
  split
  · exact le_refl _
  · rcases hr : findValidatorKey d pubkey
        ((w.NextAccount + MaxValidatorKeyRecoverAttempts) % 2 ^ 64) 0 w with ⟨f, w1, calls⟩
    rw [hr] at hf
    simp only at hf
    cases f with
    | failed e => exact le_of_eq hf.1.symm
    | nothing index => exact le_of_eq hf.1.symm
    | key index validatorKey derivationPath =>
      simp only
      split
      · show w.NextAccount ≤ (index + 1) % 2 ^ 64
        omega
      · exact le_of_eq hf.1.symm

/-! ## `CreateValidatorKey` and the count of validator keys -/

/-- C19, counterexample: on an initialized wallet with three validator keys, a call of
`CreateValidatorKey` whose derivation fails returns an error and leaves `NextAccount` at 4,
not at 3; so does a call whose keystore refuses the key. -/
theorem createValidatorKey_error_keeps_increment :
    (sampleWallet none).initialized = true ∧ (sampleWallet none).NextAccount = 3 ∧
      ((sampleWallet none).CreateValidatorKey (sampleDeriver (some 3))).1.isOk = false ∧
      ((sampleWallet none).CreateValidatorKey (sampleDeriver (some 3))).2.NextAccount = 4 ∧
      ((sampleWallet (some 6)).CreateValidatorKey (sampleDeriver none)).1.isOk = false ∧
      ((sampleWallet (some 6)).CreateValidatorKey (sampleDeriver none)).2.NextAccount = 4 :=
  ⟨rfl, rfl, rfl, rfl, rfl, rfl⟩

/-- C19, amended: on an uninitialized wallet `CreateValidatorKey` returns an error and changes
nothing; on an initialized wallet it increases `NextAccount` by one (modulo 2^64) whether it
returns a key or an error, and a key it returns is the HKDFv4 key of the old `NextAccount`
index, with the path m/12381/3600/index/0/0, and has been stored in every keystore. -/
theorem createValidatorKey_count (d : Deriver) (w : Wallet) :
    (w.initialized = false →
        w.CreateValidatorKey d = (.error (Err.msg "Wallet is not initialized"), w)) ∧
      (w.initialized = true →
        (w.CreateValidatorKey d).2.NextAccount = (w.NextAccount + 1) % 2 ^ 64 ∧
        ∀ key, (w.CreateValidatorKey d).1 = .ok key →
          (getValidatorPrivateKey d w w.NextAccount false).1 =
              .ok (key, ValidatorKeyPath w.NextAccount) ∧
            (w.CreateValidatorKey d).2.stored =
              w.stored ++ w.keystores.map fun ks =>
                (ks.name, key, ValidatorKeyPath w.NextAccount)) := by
  refine ⟨?_, ?_⟩
  · intro hinit
    unfold Wallet.CreateValidatorKey
    rw [hinit]
    rfl
  · intro hinit
    have hf := getValidatorPrivateKey_fields d
      { w with NextAccount := (w.NextAccount + 1) % 2 ^ 64 } w.NextAccount false
    have hp := getValidatorPrivateKey_path d
      { w with NextAccount := (w.NextAccount + 1) % 2 ^ 64 } w.NextAccount false
    have hn := getValidatorPrivateKey_nextAccount d w ((w.NextAccount + 1) % 2 ^ 64)
      w.NextAccount false
    unfold Wallet.CreateValidatorKey
    rw [if_neg (by simp [hinit])]
    simp only
    rcases hr : getValidatorPrivateKey d
        { w with NextAccount := (w.NextAccount + 1) % 2 ^ 64 } w.NextAccount false with ⟨r, w2⟩
    rw [hr] at hf hp hn
    simp only at hf hp hn
    cases r with
    | error e =>
      refine ⟨hf.1, ?_⟩
      intro key hkey
      cases hkey
    | ok kp =>
      rcases kp with ⟨k, p⟩
      have hpath := hp k p rfl
      subst hpath
      simp only
      rcases hu : updateKeystores k (ValidatorKeyPath w.NextAccount) w2.keystores w2.stored
        with ⟨e, stored⟩
      cases e with
      | some e =>
        refine ⟨hf.1, ?_⟩
        intro key hkey
        cases hkey
      | none =>
        refine ⟨hf.1, ?_⟩
        intro key hkey
        cases hkey
        refine ⟨hn.symm, ?_⟩
        have hs := updateKeystores_stored _ _ _ _ _ hu
        rw [hf.2.2.1, hf.2.2.2] at hs
        exact hs

theorem createValidatorKey_count_witness :
    (sampleWallet none).initialized = true ∧
      ((sampleWallet none).CreateValidatorKey (sampleDeriver none)).1 = .ok 6 ∧
      ((sampleWallet none).CreateValidatorKey (sampleDeriver none)).2.NextAccount = 4 ∧
      ((sampleWallet none).CreateValidatorKey (sampleDeriver none)).2.stored =
        [("lighthouse", 6, [12381, 3600, 3, 0, 0])] :=
  ⟨rfl, rfl,
    ((createValidatorKey_count (sampleDeriver none) (sampleWallet none)).2 rfl).1,
    (((createValidatorKey_count (sampleDeriver none) (sampleWallet none)).2 rfl).2 6 rfl).2⟩

/-! ## `RecoverValidatorKey` -/

/-- C20, counterexample: on a wallet with three validator keys, when the HKDFv4 derivation at
index 0 fails, `RecoverValidatorKey` for a public key that no index below 103 matches returns
the derivation error after a single derivation, not the not-found error after trying every
index. And on a wallet with `NextAccount = 2^64 - 50` the bound `NextAccount + 100` wraps to
50: the key at index 60 matches, but the search stops after index 49. -/
theorem recoverValidatorKey_derivation_failure :
    (∃ text, ((sampleWallet none).RecoverValidatorKey (sampleDeriver (some 0)) 999).1 =
        some (Err.wrapped text (Err.msg "derivation failed"))) ∧
      ((sampleWallet none).RecoverValidatorKey (sampleDeriver (some 0)) 999).2.2 = [(0, false)] ∧
      (∀ j, j < 103 → ∀ hk,
        matchesAt (sampleDeriver (some 0)) (sampleWallet none) 999 j hk = false) ∧
      matchesAt (sampleDeriver none) { sampleWallet none with NextAccount := 2 ^ 64 - 50 }
        1120 60 false = true ∧
      (Wallet.RecoverValidatorKey (sampleDeriver none)
        { sampleWallet none with NextAccount := 2 ^ 64 - 50 } 1120).2.2 = allCalls 50 := by
  refine ⟨⟨_, rfl⟩, rfl, ?_, ?_, ?_⟩
  · decide
  · decide
  · decide

/-- C20, amended: for an initialized wallet with `NextAccount + 100 < 2^64` on which the
HKDFv4 and HKDFv3 derivations succeed at every index below `NextAccount + 100`,
`RecoverValidatorKey` does not decrease `NextAccount`; when no key at an index below
`NextAccount + 100` matches, it returns the not-found error, leaves `NextAccount` and the
stored keys unchanged, and has derived HKDFv4 then HKDFv3 at each of these indices in
increasing order; when the first match is at index `i`, the new `NextAccount` is
`max NextAccount (i + 1)` and it has derived HKDFv4 then HKDFv3 at each index below `i`, then
HKDFv4 at `i`, and HKDFv3 at `i` if the HKDFv4 key does not match. -/
theorem recoverValidatorKey_search (d : Deriver) (w : Wallet) (pubkey : Pubkey)
    (hinit : w.initialized = true)
    (hbound : w.NextAccount + MaxValidatorKeyRecoverAttempts < 2 ^ 64)
    (hderive : ∀ j, j < w.NextAccount + MaxValidatorKeyRecoverAttempts → ∀ hk,
      (keyAt d w j hk).isOk = true) :
    w.NextAccount ≤ (w.RecoverValidatorKey d pubkey).2.1.NextAccount ∧
      ((∀ j, j < w.NextAccount + MaxValidatorKeyRecoverAttempts → ∀ hk,
          matchesAt d w pubkey j hk = false) →
        (w.RecoverValidatorKey d pubkey).1 =
            some (Err.msg ("Validator " ++ toString pubkey ++ " key not found")) ∧
          (w.RecoverValidatorKey d pubkey).2.1.NextAccount = w.NextAccount ∧
          (w.RecoverValidatorKey d pubkey).2.1.stored = w.stored ∧
          (w.RecoverValidatorKey d pubkey).2.2 =
            allCalls (w.NextAccount + MaxValidatorKeyRecoverAttempts)) ∧
      (∀ i, i < w.NextAccount + MaxValidatorKeyRecoverAttempts →
        (∀ j, j < i → ∀ hk, matchesAt d w pubkey j hk = false) →
        (matchesAt d w pubkey i false = true ∨ matchesAt d w pubkey i true = true) →
        (w.RecoverValidatorKey d pubkey).2.1.NextAccount = max w.NextAccount (i + 1) ∧
          (w.RecoverValidatorKey d pubkey).2.2 =
            allCalls i ++
              (if matchesAt d w pubkey i false = true then [(i, false)]
               else [(i, false), (i, true)])) := by
  have hnomatch : ∀ j, j < w.NextAccount + MaxValidatorKeyRecoverAttempts → ∀ hk,
      matchesAt d w pubkey j hk = false →
      ∃ k, keyAt d w j hk = .ok k ∧ pubkey ≠ d.publicKey k := by
    intro j hj hk hm
    obtain ⟨k, hk1⟩ := keyAt_of_isOk d w j hk (hderive j hj hk)
    refine ⟨k, hk1, ?_⟩
    rw [matchesAt_of_keyAt d w pubkey j hk k hk1] at hm
    exact of_decide_eq_false hm
  have hmod : (w.NextAccount + MaxValidatorKeyRecoverAttempts) % 2 ^ 64 =
      w.NextAccount + MaxValidatorKeyRecoverAttempts := Nat.mod_eq_of_lt hbound
  have hf := findValidatorKey_fields d pubkey
    (w.NextAccount + MaxValidatorKeyRecoverAttempts) 0 w
  refine ⟨recoverValidatorKey_nextAccount_le d w pubkey, ?_, ?_⟩
  · intro hno
    have hloop := findValidatorKey_no_match d pubkey
      (w.NextAccount + MaxValidatorKeyRecoverAttempts) 0 w (by
        intro j _ hj hk
        exact hnomatch j (by omega) hk (hno j (by omega) hk))
    unfold Wallet.RecoverValidatorKey
    rw [if_neg (by simp [hinit]), hmod]
    simp only
    rcases hr : findValidatorKey d pubkey
        (w.NextAccount + MaxValidatorKeyRecoverAttempts) 0 w with ⟨f, w1, calls⟩
    rw [hr] at hloop hf
    simp only at hloop hf
    obtain ⟨hl1, hl2⟩ := hloop
    subst hl1
    simp only
    refine ⟨trivial, hf.1, hf.2.2.2, ?_⟩
    rw [hl2, allCalls_eq]
  · intro i hi hbefore hat
    obtain ⟨k4, h4⟩ := keyAt_of_isOk d w i false (hderive i hi false)
    obtain ⟨k3, h3⟩ := keyAt_of_isOk d w i true (hderive i hi true)
    have hm4 := matchesAt_of_keyAt d w pubkey i false k4 h4
    have hm3 := matchesAt_of_keyAt d w pubkey i true k3 h3
    have hat' : pubkey = d.publicKey k4 ∨
        ∃ k3, keyAt d w i true = .ok k3 ∧ pubkey = d.publicKey k3 := by
      rcases hat with h | h
      · left
        rw [hm4] at h
        exact of_decide_eq_true h
      · right
        rw [hm3] at h
        exact ⟨k3, h3, of_decide_eq_true h⟩
    obtain ⟨key, hk1, _, _, hk4⟩ := findValidatorKey_first_match d pubkey
      (w.NextAccount + MaxValidatorKeyRecoverAttempts) 0 w i (Nat.zero_le _) (by omega) (by
        intro j _ hj hk
        exact hnomatch j (by omega) hk (hbefore j hj hk)) k4 h4 hat'
    unfold Wallet.RecoverValidatorKey
    rw [if_neg (by simp [hinit]), hmod]
    simp only
    rcases hr : findValidatorKey d pubkey
        (w.NextAccount + MaxValidatorKeyRecoverAttempts) 0 w with ⟨f, w1, calls⟩
    rw [hr] at hk1 hk4 hf
    simp only at hk1 hk4 hf
    subst hk1
    simp only
    have hi64 : (i + 1) % 2 ^ 64 = i + 1 := by
      apply Nat.mod_eq_of_lt
      omega
    rw [hi64, hf.1]
    refine ⟨?_, ?_⟩
    · by_cases hgt : i + 1 > w.NextAccount
      · rw [if_pos hgt]
        simp only
        omega
      · rw [if_neg hgt]
        rw [hf.1]
        omega
    · rw [hk4, allCalls_eq, hm4, Nat.sub_zero]
      simp only [decide_eq_true_eq]

theorem recoverValidatorKey_search_witness :
    (sampleWallet none).initialized = true ∧
      ((sampleWallet none).RecoverValidatorKey (sampleDeriver none) 1021).2.1.NextAccount = 11 ∧
      ((sampleWallet none).RecoverValidatorKey (sampleDeriver none) 1021).2.2 =
        allCalls 10 ++ [(10, false), (10, true)] ∧
      ((sampleWallet none).RecoverValidatorKey (sampleDeriver none) 999).2.1.NextAccount = 3 ∧
      ((sampleWallet none).RecoverValidatorKey (sampleDeriver none) 999).2.2 = allCalls 103 :=
  ⟨rfl,
    ((recoverValidatorKey_search (sampleDeriver none) (sampleWallet none) 1021 rfl (by decide)
      (by decide)).2.2 10 (by decide) (by decide) (by decide)).1,
    ((recoverValidatorKey_search (sampleDeriver none) (sampleWallet none) 1021 rfl (by decide)
      (by decide)).2.2 10 (by decide) (by decide) (by decide)).2,
    ((recoverValidatorKey_search (sampleDeriver none) (sampleWallet none) 999 rfl (by decide)
      (by decide)).2.1 (by decide)).2.1,
    ((recoverValidatorKey_search (sampleDeriver none) (sampleWallet none) 999 rfl (by decide)
      (by decide)).2.1 (by decide)).2.2.2⟩

end wallet
